import Mathlib

/-!
# Sigil plugin runner: change-application protocol

A shallow embedding of `src/Dialogs/PluginRunner.cpp` (the choice of the
interpreter, the handshake file, the environment of the launcher process, result
parsing, the well-formedness gate, the add / delete / modify appliers, and
cancellation) and of `src/Misc/URLInterceptor.cpp`, together with theorems about
the protected-resource and last-document rules, the parser, the gate, the order
of the appliers, the lifecycle outcomes, and the requests the interceptor allows.

Conventions of the embedding

* `QString` and `QByteArray` values are lists of characters.
* Objects reached through pointers (`Resource *`) are records carrying the
  address in `ptr`; pointer comparison is comparison of `ptr`.
* `QHash` values are association lists; `values()` lists them in list order.
* Calls into collaborators that only have an effect outside the runner
  (status label, dialogs, book browser, file system calls) are appended to
  the field `log`, in call order.
* An out-of-range index (`fdata[ mimeField ]` on a short list, `at(0)` on an
  empty list) aborts the function: the result is `none`.
-/

namespace Sigil

/-! ## Strings -/

abbrev QString := List Char

/-- The character U+001F used by `PluginRunner::SEP`. -/
def SEPchar : Char := Char.ofNat 31

/-- The constant `PluginRunner::SEP = QString(QChar(31))`. -/
def SEP : QString := [SEPchar]

/-- The constant `PluginRunner::_RS = QString(QChar(30))`. -/
def _RS : QString := [Char.ofNat 30]

/-- The constant `PluginRunner::CHANGESTAGS`. -/
def CHANGESTAGS : List QString := ["deleted".toList, "added".toList, "modified".toList]

/-- Modelled from the spec: the field indices `hrefField`, `idField`, `mimeField`
declared in `PluginRunner.h` (href, id and media type, in the order in which
`processResultXML` joins them). -/
def hrefField : Nat := 0

/-- Modelled from the spec: see `hrefField`. -/
def idField : Nat := 1

/-- Modelled from the spec: see `hrefField`. -/
def mimeField : Nat := 2

def MIME_XHTML : QString := "application/xhtml+xml".toList
def MIME_OPF : QString := "application/oebps-package+xml".toList
def MIME_NCX : QString := "application/x-dtbncx+xml".toList
def MIME_PAGEMAP : QString := "application/oebs-page-map+xml".toList
def MIME_SMIL : QString := "application/smil+xml".toList
def MIME_EPUB : QString := "application/epub+zip".toList

/-- The behaviour of `QString::startsWith(QString)`. -/
def startsWith (s pat : QString) : Bool := decide (s.take pat.length = pat)

/-- The behaviour of `QString::endsWith(QString)`. -/
def endsWith (s pat : QString) : Bool := decide (s.drop (s.length - pat.length) = pat)

/-- Search for `pat` in `s`, reporting positions shifted by `pos`. -/
def indexOfAux (pat : QString) : QString → Nat → Option Nat
  | [], pos => if pat = [] then some pos else none
  | c :: cs, pos =>
    if startsWith (c :: cs) pat then some pos else indexOfAux pat cs (pos + 1)

/-- The behaviour of `QByteArray::indexOf(pat, start)`; `none` stands for `-1`. -/
def indexOf (pat s : QString) (start : Nat) : Option Nat :=
  if s.length < start then none else indexOfAux pat (s.drop start) start

/-- The behaviour of `QString::split(sep)` for a one-character separator
(empty parts are kept). -/
def split (sep : Char) : QString → List QString
  | [] => [[]]
  | c :: cs =>
    if c = sep then [] :: split sep cs
    else match split sep cs with
      | [] => [[c]]
      | f :: fs => (c :: f) :: fs

/-- The behaviour of `QStringList::join(sep)`. -/
def join (sep : QString) : List QString → QString
  | [] => []
  | [x] => x
  | x :: y :: rest => x ++ sep ++ join sep (y :: rest)

/-- The behaviour of `QString::replace(before, after)` for a non-empty `before`:
the non-overlapping occurrences of `before` found scanning left to right are
replaced, and replaced text is not scanned again. `skip` counts characters of
an occurrence already matched that are still to be dropped. -/
def replaceAux (before after : QString) : Nat → QString → QString
  | _, [] => []
  | skip + 1, _ :: cs => replaceAux before after skip cs
  | 0, c :: cs =>
    if startsWith (c :: cs) before then after ++ replaceAux before after (before.length - 1) cs
    else c :: replaceAux before after 0 cs

def replace (s before after : QString) : QString := replaceAux before after 0 s

/-- The behaviour of `QString::number(int)`. -/
def number (n : Int) : QString := (toString n).toList

/-! ## Resources and the book -/

/-- Modelled from the spec: the closed set of resource kinds
(`Resource::ResourceType`, declared in `ResourceObjects/Resource.h`). -/
inductive ResourceType
  | GenericResourceType
  | TextResourceType
  | XMLResourceType
  | HTMLResourceType
  | CSSResourceType
  | ImageResourceType
  | SVGResourceType
  | FontResourceType
  | OPFResourceType
  | NCXResourceType
  | MiscTextResourceType
  | AudioResourceType
  | VideoResourceType
  | PdfResourceType
  deriving DecidableEq, Repr

/-- Modelled from the spec: a `Resource` object. `ptr` is its address, `type` the
value of `Type()`, `relPath` the value of `GetRelativePath()`. -/
structure Resource where
  ptr : Nat
  type : ResourceType
  relPath : QString
  deriving DecidableEq, Repr

/-- Modelled from the spec: the resource store behind `m_book` (`Book`,
`FolderKeeper`, `OPFResource`), as far as the plugin runner uses it.
`resources` is `GetResourceList()`, `opf` is `GetOPF()`, `ncx` is `GetNCX()`,
`nav` is `GetConstOPF()->GetNavResource()`, `texts` holds the text set with
`SetText`, `disk` the files below the book root (full path and content). -/
structure Book where
  resources : List Resource
  opf : Resource
  ncx : Option Resource
  nav : Option Resource
  epubVersion : QString
  ncxOnSpine : Bool
  texts : List (Nat × QString)
  obfuscation : List (Nat × QString)
  disk : List (QString × QString)
  nextPtr : Nat
  modified : Bool
  deriving DecidableEq, Repr

/-- Association list lookup used for `QHash::value` and for file reads. -/
def lookupKey {β : Type} (k : QString) : List (QString × β) → Option β
  | [] => none
  | (k', v) :: rest => if k' = k then some v else lookupKey k rest

/-- Insert-or-replace, the behaviour of `QHash::operator[]` assignment. -/
def insertKey {β : Type} (k : QString) (v : β) : List (QString × β) → List (QString × β)
  | [] => [(k, v)]
  | (k', v') :: rest => if k' = k then (k, v) :: rest else (k', v') :: insertKey k v rest

/-- The behaviour of `QHash::remove`. -/
def removeKey {β : Type} (k : QString) (m : List (QString × β)) : List (QString × β) :=
  m.filter (fun p => decide (p.1 ≠ k))

/-- The behaviour of `QHash::contains`. -/
def containsKey {β : Type} (k : QString) (m : List (QString × β)) : Bool :=
  (lookupKey k m).isSome

/-- Modelled from the spec: `FolderKeeper::GetResourceListByType`. -/
def Book.GetResourceListByType (b : Book) (t : ResourceType) : List Resource :=
  b.resources.filter (fun r => decide (r.type = t))

/-- Modelled from the spec: `FolderKeeper::RemoveResource`, which stops tracking
the object with the given address. -/
def Book.RemoveResource (b : Book) (r : Resource) : Book :=
  { b with resources := b.resources.filter (fun x => decide (x.ptr ≠ r.ptr)) }

/-- Modelled from the spec: `Utility::SDeleteFile` on a file below the book
root; the flag tells whether a file was removed. -/
def Book.SDeleteFile (b : Book) (path : QString) : Bool × Book :=
  if containsKey path b.disk then (true, { b with disk := removeKey path b.disk })
  else (false, b)

/-- Modelled from the spec: `Resource::Delete`, which removes the file of the
resource (its full path is the book root, a slash and the relative path). -/
def Book.DeleteResource (b : Book) (bookRoot : QString) (r : Resource) : Book :=
  (b.SDeleteFile (bookRoot ++ "/".toList ++ r.relPath)).2

/-- Modelled from the spec: `FolderKeeper::RemoveNCXFromFolder`. -/
def Book.RemoveNCXFromFolder (b : Book) : Book :=
  match b.ncx with
  | none => b
  | some n => { b.RemoveResource n with ncx := none }

/-- Modelled from the spec: `OPFResource::RemoveNCXOnSpine`. -/
def Book.RemoveNCXOnSpine (b : Book) : Book := { b with ncxOnSpine := false }

/-- Modelled from the spec: `TextResource::SetText` on the object at `ptr`. -/
def Book.SetText (b : Book) (ptr : Nat) (text : QString) : Book :=
  { b with texts := (ptr, text) :: b.texts.filter (fun p => decide (p.1 ≠ ptr)) }

/-- Modelled from the spec: `FolderKeeper::AddNCXToFolder(version, href)`, which
creates the navigation-control resource at `href` and makes it `GetNCX()`. -/
def Book.AddNCXToFolder (b : Book) (href : QString) : Resource × Book :=
  let r : Resource := { ptr := b.nextPtr, type := ResourceType.NCXResourceType, relPath := href }
  (r, { b with resources := b.resources ++ [r], ncx := some r, nextPtr := b.nextPtr + 1 })

/-- Modelled from the spec: `FolderKeeper::AddContentFileToFolder(inpath, false, mime, href)`,
which copies the file into the book folder at `href` and tracks a new
resource of kind `t` for it. -/
def Book.AddContentFileToFolder (b : Book) (bookRoot : QString) (data : QString)
    (t : ResourceType) (href : QString) : Resource × Book :=
  let r : Resource := { ptr := b.nextPtr, type := t, relPath := href }
  (r, { b with resources := b.resources ++ [r],
               disk := insertKey (bookRoot ++ "/".toList ++ href) data b.disk,
               nextPtr := b.nextPtr + 1 })

/-! ## Collaborators of the runner -/

/-- A start element as `QXmlStreamReader` reports it: `name()`, `attributes()`
and the text `readElementText()` returns when it is called on this element. -/
structure XmlStartElement where
  name : QString
  attributes : List (QString × QString)
  elementText : QString
  deriving DecidableEq, Repr

/-- One token returned by `QXmlStreamReader::readNext`. Tokens consumed by a
call of `readElementText` are not listed separately. -/
inductive XmlToken
  | startElement (e : XmlStartElement)
  | other
  deriving DecidableEq, Repr

/-- A complete run of `QXmlStreamReader` over a buffer: the tokens `readNext`
returns until `atEnd()` holds, and the values of `hasError()` and
`errorString()` afterwards. -/
structure XmlRun where
  tokens : List XmlToken
  hasError : Bool
  errorString : QString := []
  deriving DecidableEq, Repr

/-- The behaviour of `QXmlStreamAttributes::value(name).toString()`: the empty string when
the attribute is absent. -/
def attrValue (attrs : List (QString × QString)) (name : QString) : QString :=
  (lookupKey name attrs).getD []

/-- Modelled from the spec: `ValidationResult::ResType`. -/
inductive ResType
  | ResType_Info
  | ResType_Warn
  | ResType_Error
  deriving DecidableEq, Repr

/-- Modelled from the spec: a `ValidationResult` (severity, book path, line,
column, message). -/
structure ValidationResult where
  vtype : ResType
  bookpath : QString
  linenumber : Int
  charoffset : Int
  message : QString
  deriving DecidableEq, Repr

/-- Modelled from the spec: `XhtmlDoc::WellFormedError`; `line` is `-1` when the
source is well formed. -/
structure WellFormedError where
  line : Int
  column : Int
  message : QString
  deriving DecidableEq, Repr

/-- Library and collaborator functions the runner calls and whose code is not
part of the plugin runner: the XML stream reader, `Utility::URLDecodePath`,
`QString::toInt`, `XhtmlDoc::WellFormedErrorForSource`, `CleanSource::ProcessXML`,
the answer given to the two confirmation dialogs, and the resource kind
`AddContentFileToFolder` chooses for a media type and href. -/
structure Collaborators where
  xmlRead : QString → XmlRun
  URLDecodePath : QString → QString
  toInt : QString → Option Int
  WellFormedErrorForSource : QString → WellFormedError
  ProcessXML : QString → QString → QString
  checkReportYes : List QString → Bool
  replaceBookYes : Bool
  resourceTypeFor : QString → QString → ResourceType

/-- The enumeration `QProcess::ExitStatus`. -/
inductive ExitStatus
  | NormalExit
  | CrashExit
  deriving DecidableEq, Repr

/-- Calls with an effect outside the runner, recorded in call order. -/
inductive Effect
  | setStatus (text : QString)
  | DisplayStdErrorDialog (text : QString)
  | SuspendWatchingResources
  | ResumeWatchingResources
  | OpenResource (r : Resource)
  | CloseTabForResource (r : Resource)
  | LoadFile (path : QString)
  | AddNCXToFolder (href : QString)
  | AddContentFileToFolder (inpath mime href : QString)
  | RemoveNCXFromFolder
  | RemoveResource (r : Resource)
  | ResourceDelete (r : Resource)
  | SDeleteFile (path : QString)
  | ForceCopyFile (inpath outpath : QString)
  | ResourcesDeleted
  | BookContentModified
  | Refresh
  | ResourcesAddedOrDeletedOrMoved
  | SetValidationResults (n : Nat)
  | accept
  | terminate
  | kill
  | reject
  | singleShotStartClick
  | SaveTabData
  | SaveAllResourcesToDisk
  | start (executable : QString) (args : List QString) (env : List (QString × QString))
  deriving DecidableEq, Repr

/-- The state of a `PluginRunner` dialog together with the objects it holds
pointers to: the book (`m_book`), the open tabs (`m_tabManager`), and the
files of the working directory `m_outputDir`. -/
structure PluginRunner where
  book : Book
  tabs : List Resource
  outFiles : List (QString × QString)
  m_pluginOutput : QString
  m_result : QString
  m_xhtml_net_change : Int
  m_filesToAdd : List QString
  m_filesToDelete : List QString
  m_filesToModify : List QString
  m_validationResults : List ValidationResult
  m_xhtmlFiles : List (QString × Resource)
  m_hrefToRes : List (QString × Resource)
  m_pluginType : QString
  m_pluginAutoClose : QString
  m_outputDir : QString
  m_bookRoot : QString
  m_algorithm : QString
  m_fontMangling : QString
  m_pluginName : QString
  m_pluginsFolder : QString
  m_engine : QString
  m_enginePath : QString
  m_launcherPath : QString
  m_pluginPath : QString
  m_ready : Bool
  textEdit : List QString
  log : List Effect
  deriving DecidableEq, Repr

def PluginRunner.emit (st : PluginRunner) (e : Effect) : PluginRunner :=
  { st with log := st.log ++ [e] }

def PluginRunner.setStatus (st : PluginRunner) (text : String) : PluginRunner :=
  st.emit (Effect.setStatus text.toList)

/-- One round of the constructor loop that builds `m_xhtmlFiles` and `m_hrefToRes`. -/
def hashStep (acc : List (QString × Resource) × List (QString × Resource)) (r : Resource) :
    List (QString × Resource) × List (QString × Resource) :=
  (if r.type = ResourceType.HTMLResourceType then insertKey r.relPath r acc.1 else acc.1,
   insertKey r.relPath r acc.2)

/-- The default obfuscation algorithm the constructor picks: the first non-empty
algorithm among the font resources. -/
def firstAlgorithm (b : Book) : QString :=
  ((b.GetResourceListByType ResourceType.FontResourceType).filterMap
    (fun r => (b.obfuscation.find? (fun p => decide (p.1 = r.ptr ∧ p.2 ≠ []))).map Prod.snd)).headD []

/-- Modelled from the spec: `FontResource::GetObfuscationAlgorithm`, empty when none is set. -/
def Book.GetObfuscationAlgorithm (b : Book) (r : Resource) : QString :=
  ((b.obfuscation.find? (fun p => decide (p.1 = r.ptr))).map Prod.snd).getD []

/-- The list `font_extra_info` the constructor builds: for every font resource with a
non-empty obfuscation algorithm, its relative path, `SEP` and the algorithm. -/
def fontExtraInfo (b : Book) : List QString :=
  (b.GetResourceListByType ResourceType.FontResourceType).filterMap
    (fun r =>
      if b.GetObfuscationAlgorithm r ≠ [] then
        some (r.relPath ++ SEP ++ b.GetObfuscationAlgorithm r)
      else none)

/-- The constructor `PluginRunner::PluginRunner`, for the members used after a run. -/
def PluginRunner.construct (book : Book) (tabs : List Resource)
    (outputDir pluginType autoClose : QString) (bookRoot : QString) : PluginRunner :=
  let hs := book.resources.foldl hashStep ([], [])
  { book := book, tabs := tabs, outFiles := [], m_pluginOutput := [], m_result := [],
    m_xhtml_net_change := 0, m_filesToAdd := [], m_filesToDelete := [], m_filesToModify := [],
    m_validationResults := [], m_xhtmlFiles := hs.1, m_hrefToRes := hs.2,
    m_pluginType := pluginType, m_pluginAutoClose := autoClose,
    m_outputDir := outputDir, m_bookRoot := bookRoot, m_algorithm := firstAlgorithm book,
    m_fontMangling := join _RS (fontExtraInfo book),
    m_pluginName := [], m_pluginsFolder := [], m_engine := [], m_enginePath := [],
    m_launcherPath := [], m_pluginPath := [], m_ready := false,
    textEdit := [], log := [] }

/-! ## processResultXML -/

def XMLDECL : QString := "<?xml ".toList

/-- The loop at the head of `processResultXML`: keep the buffer from the position
found, then search again from index 1. -/
def dropLeadingOutput : Nat → QString → Option Nat → QString
  | 0, buf, _ => buf
  | _ + 1, buf, none => buf
  | fuel + 1, buf, some pos =>
    let buf1 := buf.drop pos
    dropLeadingOutput fuel buf1 (indexOf XMLDECL buf1 1)

/-- The buffer handed to the XML reader. -/
def parseBuffer (output : QString) : QString :=
  dropLeadingOutput (output.length + 1) output (indexOf XMLDECL output 0)

/-- The body of the `validationresult` branch. -/
def processValidation (c : Collaborators) (st : PluginRunner) (attr : List (QString × QString)) :
    PluginRunner :=
  let type := attrValue attr "type".toList
  let vtype : Option ResType :=
    if type = "info".toList then some ResType.ResType_Info
    else if type = "warning".toList then some ResType.ResType_Warn
    else if type = "error".toList then some ResType.ResType_Error
    else none
  match vtype with
  | none => st
  | some vt =>
    let vlinenumber : Int := (c.toInt (attrValue attr "linenumber".toList)).getD (-1)
    let vcharoffset : Int := (c.toInt (attrValue attr "charoffset".toList)).getD (-1)
    { st with m_validationResults := st.m_validationResults ++
        [{ vtype := vt, bookpath := attrValue attr "bookpath".toList,
           linenumber := vlinenumber, charoffset := vcharoffset,
           message := attrValue attr "message".toList }] }

/-- The body of the `CHANGESTAGS` branch. -/
def processChange (c : Collaborators) (st : PluginRunner) (e : XmlStartElement) : PluginRunner :=
  let href := c.URLDecodePath (attrValue e.attributes "href".toList)
  let id := attrValue e.attributes "id".toList
  let mime := attrValue e.attributes "media-type".toList
  let fileinfo := join SEP [href, id, mime]
  if e.name = "deleted".toList then
    let st1 := { st with m_filesToDelete := st.m_filesToDelete ++ [fileinfo] }
    if mime = MIME_XHTML then
      if containsKey href st1.m_xhtmlFiles then
        { st1 with m_xhtml_net_change := st1.m_xhtml_net_change - 1,
                   m_xhtmlFiles := removeKey href st1.m_xhtmlFiles }
      else st1
    else st1
  else if e.name = "added".toList then
    let st1 := { st with m_filesToAdd := st.m_filesToAdd ++ [fileinfo] }
    if mime = MIME_XHTML then
      { st1 with m_xhtml_net_change := st1.m_xhtml_net_change + 1 }
    else st1
  else
    { st with m_filesToModify := st.m_filesToModify ++ [fileinfo] }

/-- One round of the reader loop of `processResultXML`. -/
def processToken (c : Collaborators) (st : PluginRunner) : XmlToken → PluginRunner
  | XmlToken.other => st
  | XmlToken.startElement e =>
    if e.name = "result".toList then
      { st with m_result := e.elementText,
                textEdit := ["Status:".toList ++ " ".toList ++ e.elementText] }
    else if e.name = "msg".toList then
      { st with textEdit := st.textEdit ++ [e.elementText] }
    else if e.name ∈ CHANGESTAGS then processChange c st e
    else if e.name = "validationresult".toList then processValidation c st e.attributes
    else st

/-- The function `PluginRunner::processResultXML`. -/
def processResultXML (c : Collaborators) (st : PluginRunner) : Bool × PluginRunner :=
  let buf := parseBuffer st.m_pluginOutput
  let st1 := { st with m_pluginOutput := buf }
  let run := c.xmlRead buf
  let st2 := run.tokens.foldl (processToken c) st1
  if run.hasError then
    (false, { st2.emit (Effect.DisplayStdErrorDialog
                ("Error Parsing Result XML:  ".toList ++ run.errorString))
              with m_result := "failed".toList })
  else (true, st2)

/-! ## checkIsWellFormed -/

/-- The three reads `fdata[ hrefField ]`, `fdata[ idField ]`, `fdata[ mimeField ]` after
`fileinfo.split(SEP)`; `none` when an index is out of range. -/
def fields (fileinfo : QString) : Option (QString × QString × QString) :=
  let fdata := split SEPchar fileinfo
  match fdata.get? hrefField, fdata.get? idField, fdata.get? mimeField with
  | some href, some id, some mime => some (href, id, mime)
  | _, _, _ => none

/-- Modelled from the spec: `Utility::ReadUnicodeTextFile` on the given files; a
file that is not there reads as the empty text. -/
def readFile (files : List (QString × QString)) (path : QString) : QString :=
  (lookupKey path files).getD []

/-- The two classification loops of `checkIsWellFormed` (one over `m_filesToAdd`,
one over `m_filesToModify`, same body): the hrefs to check strictly and the
hrefs to repair. -/
def classifyFiles : List QString → List QString × List QString →
    Option (List QString × List QString)
  | [], acc => some acc
  | fileinfo :: rest, (xhtmlFilesToCheck, xmlFilesToCheck) =>
    match fields fileinfo with
    | none => none
    | some (href, _, mime) =>
      if mime = MIME_OPF then classifyFiles rest (xhtmlFilesToCheck, xmlFilesToCheck ++ [href])
      else if mime = MIME_NCX then classifyFiles rest (xhtmlFilesToCheck, xmlFilesToCheck ++ [href])
      else if mime = MIME_PAGEMAP then
        classifyFiles rest (xhtmlFilesToCheck, xmlFilesToCheck ++ [href])
      else if mime = MIME_XHTML then
        classifyFiles rest (xhtmlFilesToCheck ++ [href], xmlFilesToCheck)
      else if mime = MIME_SMIL then
        classifyFiles rest (xhtmlFilesToCheck, xmlFilesToCheck ++ [href])
      else classifyFiles rest (xhtmlFilesToCheck, xmlFilesToCheck)

/-- The loop over `xhtmlFilesToCheck`: the error lines collected. -/
def checkXhtml (c : Collaborators) (st : PluginRunner) : List QString → List QString × PluginRunner
  | [] => ([], st)
  | href :: rest =>
    let filePath := st.m_outputDir ++ "/".toList ++ href
    let st1 := st.emit (Effect.setStatus ("Status: checking".toList ++ " ".toList ++ href))
    let error := c.WellFormedErrorForSource (readFile st1.outFiles filePath)
    let r := checkXhtml c st1 rest
    if error.line ≠ -1 then
      (("Incorrect XHTML:".toList ++ " ".toList ++ href ++ " ".toList ++ "Line/Col".toList
          ++ " ".toList ++ number error.line ++ ",".toList ++ number error.column
          ++ " ".toList ++ error.message) :: r.1, r.2)
    else r

/-- The media type the repair loop passes to `CleanSource::ProcessXML`. -/
def repairType (href : QString) : QString :=
  let m0 := MIME_PAGEMAP
  let m1 := if endsWith href ".opf".toList then MIME_OPF else m0
  let m2 := if endsWith href ".ncx".toList then MIME_NCX else m1
  if endsWith href ".smil".toList then MIME_OPF else m2

/-- The loop over `xmlFilesToCheck`: every file is rewritten in repaired form. -/
def repairXml (c : Collaborators) : List QString → PluginRunner → PluginRunner
  | [], st => st
  | href :: rest, st =>
    let filePath := st.m_outputDir ++ "/".toList ++ href
    let st1 := st.emit (Effect.setStatus ("Status: checking".toList ++ " ".toList ++ href))
    let data := readFile st1.outFiles filePath
    let newdata := c.ProcessXML data (repairType href)
    repairXml c rest { st1 with outFiles := insertKey filePath newdata st1.outFiles }

/-- The function `PluginRunner::checkIsWellFormed`. -/
def checkIsWellFormed (c : Collaborators) (st : PluginRunner) : Option (Bool × PluginRunner) :=
  match classifyFiles st.m_filesToAdd ([], []) with
  | none => none
  | some acc1 =>
    match classifyFiles st.m_filesToModify acc1 with
    | none => none
    | some (xhtmlFilesToCheck, xmlFilesToCheck) =>
      let r := checkXhtml c st xhtmlFilesToCheck
      let st2 := repairXml c xmlFilesToCheck r.2
      if r.1 ≠ [] then some (c.checkReportYes r.1, st2) else some (true, st2)

/-! ## addFiles -/

/-- The behaviour of `QFileInfo::fileName`: the part of the path after the last slash. -/
def fileName (path : QString) : QString := ((split '/' path).getLast?).getD []

/-- Modelled from the spec: `FontResource::SetObfuscationAlgorithm`. -/
def Book.SetObfuscationAlgorithm (b : Book) (ptr : Nat) (alg : QString) : Book :=
  { b with obfuscation := (ptr, alg) :: b.obfuscation.filter (fun p => decide (p.1 ≠ ptr)) }

/-- Modelled from the spec: `Resource::SaveToDisk` for a resource whose text is `text`. -/
def Book.SaveToDisk (b : Book) (bookRoot : QString) (r : Resource) (text : QString) : Book :=
  { b with disk := insertKey (bookRoot ++ "/".toList ++ r.relPath) text b.disk }

/-- The input-plugin branch of `addFiles` (a whole-archive record). -/
def addEpub (c : Collaborators) (st : PluginRunner) (href : QString) : PluginRunner :=
  let epubPath := st.m_outputDir ++ "/".toList ++ href
  let st1 := st.emit (Effect.setStatus ("Status: Loading".toList ++ " ".toList ++ fileName epubPath))
  let proceed := if st1.book.modified then c.replaceBookYes else true
  if proceed then st1.emit (Effect.LoadFile epubPath) else st1

/-- The navigation-control branch of `addFiles`. -/
def addNCX (st : PluginRunner) (href : QString) : PluginRunner :=
  let version := st.book.epubVersion
  if st.book.ncx.isNone ∧ startsWith version ['3'] then
    let inpath := st.m_outputDir ++ "/".toList ++ href
    let st1 := st.emit (Effect.setStatus ("Status: adding".toList ++ " ".toList ++ fileName inpath))
    let added := st1.book.AddNCXToFolder href
    let ncx_resource := added.1
    let text := readFile st1.outFiles inpath
    let b2 := (added.2.SetText ncx_resource.ptr text).SaveToDisk st1.m_bookRoot ncx_resource text
    { st1 with book := b2, log := st1.log ++ [Effect.AddNCXToFolder href] }
  else st

/-- The last part of the loop body of `addFiles`: an ordinary content file. -/
def addContent (c : Collaborators) (st : PluginRunner) (href mime : QString) : PluginRunner :=
  let inpath := st.m_outputDir ++ "/".toList ++ href
  let st1 := st.emit (Effect.setStatus ("Status: adding".toList ++ " ".toList ++ fileName inpath))
  let added := st1.book.AddContentFileToFolder st1.m_bookRoot
    (readFile st1.outFiles inpath) (c.resourceTypeFor mime href) href
  let resource := added.1
  let st2 := { st1 with book := added.2, log := st1.log ++ [Effect.AddContentFileToFolder inpath mime href] }
  let text := readFile st2.outFiles inpath
  if resource.type = ResourceType.FontResourceType ∧ st2.m_algorithm ≠ [] then
    { st2 with book := st2.book.SetObfuscationAlgorithm resource.ptr st2.m_algorithm }
  else if resource.type = ResourceType.HTMLResourceType then
    { st2 with book := st2.book.SetText resource.ptr text,
               m_xhtmlFiles := insertKey resource.relPath resource st2.m_xhtmlFiles,
               m_hrefToRes := insertKey resource.relPath resource st2.m_hrefToRes }
  else if resource.type = ResourceType.CSSResourceType then
    { st2 with book := st2.book.SetText resource.ptr text }
  else if resource.type = ResourceType.SVGResourceType then
    { st2 with book := st2.book.SetText resource.ptr text }
  else if resource.type = ResourceType.MiscTextResourceType then
    { st2 with book := st2.book.SetText resource.ptr text }
  else if resource.type = ResourceType.XMLResourceType then
    { st2 with book := st2.book.SetText resource.ptr text }
  else st2

/-- The `foreach` loop of `addFiles`; the loop ends early on a whole-archive
record of an input plugin. -/
def addLoop (c : Collaborators) : List QString → PluginRunner → Option PluginRunner
  | [], st => some st
  | fileinfo :: rest, st =>
    match fields fileinfo with
    | none => none
    | some (href, _, mime) =>
      if st.m_pluginType = "input".toList ∧ mime = MIME_EPUB then some (addEpub c st href)
      else if mime = MIME_OPF then addLoop c rest st
      else if mime = MIME_NCX then addLoop c rest (addNCX st href)
      else addLoop c rest (addContent c st href mime)

/-- The function `PluginRunner::addFiles`; every path through it returns `true`. -/
def addFiles (c : Collaborators) (files : List QString) (st : PluginRunner) :
    Option (Bool × PluginRunner) :=
  (addLoop c files (st.setStatus "Status: adding files")).map (fun st1 => (true, st1))

/-! ## deleteFiles -/

/-- Modelled from the spec: `Resource::ShortPathName`. -/
def ShortPathName (r : Resource) : QString := r.relPath

/-- The navigation-control branch of `deleteFiles`, entered when the media type
is the NCX type and `m_hrefToRes` contains the href. -/
def deleteNCX (acc : Bool × PluginRunner) : Bool × PluginRunner :=
  let st := acc.2
  let version := st.book.epubVersion
  match st.book.ncx with
  | some ncx_resource =>
    if startsWith version ['3'] then
      let b1 := ((st.book.RemoveNCXOnSpine).RemoveNCXFromFolder).DeleteResource st.m_bookRoot
        ncx_resource
      (true, { st with book := b1,
                       log := st.log ++ [Effect.RemoveNCXFromFolder, Effect.ResourceDelete ncx_resource] })
    else acc
  | none => acc

/-- The branch of `deleteFiles` for a tracked resource. -/
def deleteResource (tabResources : List Resource) (st : PluginRunner) (resource : Resource) :
    PluginRunner :=
  let st1 := st.emit (Effect.setStatus
    ("Status: deleting".toList ++ " ".toList ++ ShortPathName resource))
  let st2 :=
    if tabResources.any (fun t => decide (t.ptr = resource.ptr)) then
      { st1 with tabs := st1.tabs.filter (fun t => decide (t.ptr ≠ resource.ptr)),
                 log := st1.log ++ [Effect.CloseTabForResource resource] }
    else st1
  { st2 with book := (st2.book.RemoveResource resource).DeleteResource st2.m_bookRoot resource,
             log := st2.log ++ [Effect.RemoveResource resource, Effect.ResourceDelete resource] }

/-- The path the fallback branch of `deleteFiles` hands to `Utility::SDeleteFile`. -/
def rawDeletePath (bookRoot href : QString) : QString :=
  bookRoot ++ replace ("/".toList ++ href) "/../".toList "/".toList

/-- The body of the `foreach` loop of `deleteFiles` for one record; the flag is
`changes_made`. -/
def deleteOne (tabResources : List Resource) (acc : Bool × PluginRunner)
    (href mime : QString) : Bool × PluginRunner :=
  let st := acc.2
  if mime = MIME_OPF ∧ containsKey href st.m_hrefToRes then acc
  else if mime = MIME_NCX ∧ containsKey href st.m_hrefToRes then deleteNCX acc
  else
    let nav_resource := st.book.nav
    let resource := lookupKey href st.m_hrefToRes
    match resource with
    | some r =>
      if (nav_resource.map (fun n => decide (n.ptr = r.ptr))).getD false then acc
      else (true, deleteResource tabResources st r)
    | none =>
      let fullpath := rawDeletePath st.m_bookRoot href
      let removed := st.book.SDeleteFile fullpath
      (removed.1 || acc.1,
        { st with book := removed.2, log := st.log ++ [Effect.SDeleteFile fullpath] })

/-- The `foreach` loop of `deleteFiles`. -/
def deleteLoop (tabResources : List Resource) :
    List QString → Bool × PluginRunner → Option (Bool × PluginRunner)
  | [], acc => some acc
  | fileinfo :: rest, acc =>
    match fields fileinfo with
    | none => none
    | some (href, _, mime) => deleteLoop tabResources rest (deleteOne tabResources acc href mime)

/-- The function `PluginRunner::deleteFiles`; the flag returned is `changes_made`. -/
def deleteFiles (files : List QString) (st : PluginRunner) : Option (Bool × PluginRunner) :=
  let tabResources := st.tabs
  let st1 := st.setStatus "Status: cleaning up - deleting files"
  (deleteLoop tabResources files (false, st1)).map
    (fun r => if r.1 then (true, r.2.emit Effect.ResourcesDeleted) else r)

/-! ## modifyFiles -/

/-- The local `OPFFILEINFO` of `modifyFiles`. -/
def OPFFILEINFO (b : Book) : QString := b.opf.relPath ++ SEP ++ SEP ++ MIME_OPF

/-- The local `NCXFILEINFO` of `modifyFiles`. -/
def NCXFILEINFO (b : Book) : QString :=
  match b.ncx with
  | some ncxres => ncxres.relPath ++ SEP ++ SEP ++ MIME_NCX
  | none => "NO_NCX_EXISTS".toList

/-- One round of the rearranging loop of `modifyFiles`; the accumulator is
`(newfiles, modifyopf, modifyncx)`. -/
def rearrangeStep (opfinfo ncxinfo : QString) (acc : List QString × QString × QString)
    (fileinfo : QString) : List QString × QString × QString :=
  if fileinfo = opfinfo then (acc.1, fileinfo, acc.2.2)
  else if fileinfo = ncxinfo then (acc.1, acc.2.1, fileinfo)
  else (acc.1 ++ [fileinfo], acc.2.1, acc.2.2)

/-- The list `newfiles` that `modifyFiles` applies, in order. -/
def rearrange (opfinfo ncxinfo : QString) (files : List QString) : List QString :=
  let acc := files.foldl (rearrangeStep opfinfo ncxinfo) ([], [], [])
  let newfiles1 := if acc.2.1 ≠ [] then acc.1 ++ [acc.2.1] else acc.1
  if acc.2.2 ≠ [] then newfiles1 ++ [acc.2.2] else newfiles1

/-- Modelled from the spec: `Utility::ForceCopyFile` from the working directory
into the book folder; nothing is written when the source file is not there. -/
def Book.ForceCopyFile (b : Book) (outFiles : List (QString × QString))
    (inpath outpath : QString) : Book :=
  match lookupKey inpath outFiles with
  | some data => { b with disk := insertKey outpath data b.disk }
  | none => b

/-- The body of the applying loop of `modifyFiles` for one record. -/
def modifyOne (st : PluginRunner) (href : QString) : PluginRunner :=
  let inpath := st.m_outputDir ++ "/".toList ++ href
  let outpath := st.m_bookRoot ++ "/".toList ++ href
  let st1 := st.emit (Effect.setStatus ("Status: modifying".toList ++ " ".toList ++ fileName outpath))
  let st2 := { st1 with book := st1.book.ForceCopyFile st1.outFiles inpath outpath,
                        log := st1.log ++ [Effect.ForceCopyFile inpath outpath] }
  match lookupKey href st2.m_hrefToRes with
  | none => st2
  | some resource =>
    if resource.type = ResourceType.HTMLResourceType then
      { st2 with book := st2.book.SetText resource.ptr (readFile st2.outFiles inpath) }
    else if resource.type = ResourceType.CSSResourceType then
      { st2 with book := st2.book.SetText resource.ptr (readFile st2.outFiles inpath) }
    else if resource.type = ResourceType.SVGResourceType then
      { st2 with book := st2.book.SetText resource.ptr (readFile st2.outFiles inpath) }
    else if resource.type = ResourceType.MiscTextResourceType then
      { st2 with book := st2.book.SetText resource.ptr (readFile st2.outFiles inpath) }
    else if resource.type = ResourceType.OPFResourceType then
      { st2 with book := st2.book.SetText resource.ptr (readFile st2.book.disk outpath) }
    else if resource.type = ResourceType.NCXResourceType then
      { st2 with book := st2.book.SetText resource.ptr (readFile st2.book.disk outpath) }
    else if resource.type = ResourceType.XMLResourceType then
      { st2 with book := st2.book.SetText resource.ptr (readFile st2.outFiles inpath) }
    else st2

/-- The applying loop of `modifyFiles`. -/
def modifyLoop : List QString → PluginRunner → Option PluginRunner
  | [], st => some st
  | fileinfo :: rest, st =>
    match fields fileinfo with
    | none => none
    | some (href, _, _) => modifyLoop rest (modifyOne st href)

/-- The function `PluginRunner::modifyFiles`; every path through it returns `true`. -/
def modifyFiles (files : List QString) (st : PluginRunner) : Option (Bool × PluginRunner) :=
  let st1 := st.setStatus "Status: cleaning up - modifying files"
  let newfiles := rearrange (OPFFILEINFO st1.book) (NCXFILEINFO st1.book) files
  (modifyLoop newfiles st1).map (fun st2 => (true, st2))

/-! ## pluginFinished -/

/-- The step of `pluginFinished` that runs `addFiles` when `m_filesToAdd` is not empty. -/
def applyAdds (c : Collaborators) (acc : Bool × PluginRunner) : Option (Bool × PluginRunner) :=
  if acc.2.m_filesToAdd ≠ [] then
    (addFiles c acc.2.m_filesToAdd acc.2).map (fun r => (r.1 || acc.1, r.2))
  else some acc

/-- The step of `pluginFinished` that makes sure a tab on a remaining HTML file is
open and then runs `deleteFiles`, when `m_filesToDelete` is not empty. -/
def applyDeletes (acc : Bool × PluginRunner) : Option (Bool × PluginRunner) :=
  let st := acc.2
  if st.m_filesToDelete ≠ [] then
    let remainingResources := st.m_xhtmlFiles.map Prod.snd
    let tabResources := st.tabs
    let tabs_will_remain :=
      tabResources.any (fun t => remainingResources.any (fun r => decide (r.ptr = t.ptr)))
    let st1 : Option PluginRunner :=
      if tabs_will_remain then some st
      else match remainingResources.get? 0 with
        | none => none
        | some xhtmlresource =>
          some { st with tabs := st.tabs ++ [xhtmlresource],
                         log := st.log ++ [Effect.OpenResource xhtmlresource] }
    match st1 with
    | none => none
    | some st2 => (deleteFiles st2.m_filesToDelete st2).map (fun r => (r.1 || acc.1, r.2))
  else some acc

/-- The step of `pluginFinished` that runs `modifyFiles` when `m_filesToModify` is not empty. -/
def applyModifies (acc : Bool × PluginRunner) : Option (Bool × PluginRunner) :=
  if acc.2.m_filesToModify ≠ [] then
    (modifyFiles acc.2.m_filesToModify acc.2).map (fun r => (r.1 || acc.1, r.2))
  else some acc

/-- The end of `pluginFinished`, after the three appliers have run. -/
def finishRun (book_modified : Bool) (st : PluginRunner) : PluginRunner :=
  let st1 :=
    if st.m_pluginType = "validation".toList then
      st.emit (Effect.SetValidationResults st.m_validationResults.length)
    else st
  let st2 := st1.emit Effect.ResumeWatchingResources
  let st3 :=
    if book_modified then
      { st2 with book := { st2.book with modified := true },
                 log := st2.log ++ [Effect.BookContentModified, Effect.Refresh,
                                    Effect.ResourcesAddedOrDeletedOrMoved] }
    else st2
  let st4 := st3.emit (Effect.setStatus ("Status:".toList ++ " ".toList ++ st3.m_result))
  if st4.m_pluginType = "validation".toList ∨ st4.m_pluginAutoClose = "true".toList then
    st4.emit Effect.accept
  else st4

/-- The part of `pluginFinished` after the last-document guard: the change set
is committed. -/
def commitChanges (c : Collaborators) (st : PluginRunner) : Option PluginRunner :=
  let st1 := st.emit Effect.SuspendWatchingResources
  match applyAdds c (false, st1) with
  | none => none
  | some r1 =>
    match applyDeletes r1 with
    | none => none
    | some r2 =>
      match applyModifies r2 with
      | none => none
      | some r3 => some (finishRun r3.1 r3.2)

/-- The test of the last-document guard of `pluginFinished`. -/
def removesLastXhtml (st : PluginRunner) : Bool :=
  decide (st.m_xhtml_net_change < 0) &&
    decide (((st.book.GetResourceListByType ResourceType.HTMLResourceType).length : Int)
      + st.m_xhtml_net_change ≤ 0)

/-- The part of `pluginFinished` from the well-formedness gate on, entered when the
parsed result is `success`. -/
def gateAndCommit (c : Collaborators) (st2 : PluginRunner) : Option PluginRunner :=
  match checkIsWellFormed c st2 with
  | none => none
  | some (false, st3) =>
    some { st3.setStatus "Status: No Changes Made" with m_result := "failed".toList }
  | some (true, st3) =>
    if removesLastXhtml st3 then
      some { ((st3.emit (Effect.DisplayStdErrorDialog
                "Error: Plugin Tried to Remove the Last XHTML file .. aborting changes".toList)
              ).setStatus "Status: No Changes Made") with m_result := "failed".toList }
    else commitChanges c st3

/-- The part of `pluginFinished` from the call of `processResultXML` on. -/
def parseAndApply (c : Collaborators) (st1 : PluginRunner) : Option PluginRunner :=
  match processResultXML c st1 with
  | (false, st2) => some { st2 with textEdit := st2.textEdit ++ [st2.m_pluginOutput] }
  | (true, st2) =>
    if st2.m_result ≠ "success".toList then some (st2.setStatus "Status: failed")
    else gateAndCommit c st2

/-- The test of the early return of `pluginFinished`. -/
def alreadyDecided (st : PluginRunner) : Bool :=
  decide (st.m_result = "crashed".toList) || decide (st.m_result = "failed".toList)
    || decide (st.m_result = "cancelled".toList)

/-- The function `PluginRunner::pluginFinished`. -/
def pluginFinished (c : Collaborators) (exitstatus : ExitStatus) (st : PluginRunner) :
    Option PluginRunner :=
  let st0 :=
    match exitstatus with
    | ExitStatus.CrashExit =>
      { st with textEdit := st.textEdit ++ ["Launcher process crashed".toList],
                m_result := "crashed".toList }
    | ExitStatus.NormalExit => st
  if alreadyDecided st0 then some st0
  else parseAndApply c (st0.setStatus "Status: finished")

/-! ## cancelPlugin -/

/-- What the child process does while `cancelPlugin` runs: whether `m_process.state()`
is `Running` at each of the two tests, and the exit status of a `finished` signal
delivered inside each of the two calls of `waitForFinished` (`none` when no
signal is delivered in that wait). -/
structure ChildProcess where
  runningAtStart : Bool
  finishedInFirstWait : Option ExitStatus
  runningAfterFirstWait : Bool
  finishedInSecondWait : Option ExitStatus
  deriving DecidableEq, Repr

/-- A call of `waitForFinished`: the slot `pluginFinished` runs inside it when the
`finished` signal is delivered. -/
def waitForFinished (c : Collaborators) (signal : Option ExitStatus) (st : PluginRunner) :
    Option PluginRunner :=
  match signal with
  | none => some st
  | some exitstatus => pluginFinished c exitstatus st

/-- The function `PluginRunner::cancelPlugin`. -/
def cancelPlugin (c : Collaborators) (p : ChildProcess) (st : PluginRunner) :
    Option PluginRunner :=
  let st1 := { st with m_result := "cancelled".toList }
  let st2 := if p.runningAtStart then st1.emit Effect.terminate else st1
  match waitForFinished c p.finishedInFirstWait st2 with
  | none => none
  | some st3 =>
    let st4 := if p.runningAfterFirstWait then st3.emit Effect.kill else st3
    match waitForFinished c p.finishedInSecondWait st4 with
    | none => none
    | some st5 =>
      some { (st5.setStatus "Status: cancelled") with
               textEdit := st5.textEdit ++ ["Plugin cancelled".toList],
               m_result := "cancelled".toList }

/-! ## writeSigilCFG -/

/-- The platform the runner is compiled for (`Q_OS_WIN32`, `Q_OS_MAC`, or neither). -/
inductive Platform
  | Linux
  | Windows
  | Mac
  deriving DecidableEq, Repr

/-- The values `writeSigilCFG` reads from its collaborators: the application, the
settings store, the main window, the palette and font of the application, and
the book browser. -/
structure HostContext where
  platform : Platform
  applicationDirPath : QString
  DefinePrefsDir : QString
  LinuxHunspellDictionaryDirs : List QString
  uiLanguage : QString
  dictionary : QString
  isWindowModified : Bool
  GetCurrentFilePath : QString
  IsDarkMode : Bool
  colorWindow : QString
  colorBase : QString
  colorText : QString
  colorHighlight : QString
  colorHighlightedText : QString
  font : QString
  UsingAutomate : Bool
  AutomatePluginParameter : QString
  AllSelectedResources : List Resource
  deriving DecidableEq, Repr

/-- The list `cfg` that `writeSigilCFG` assembles, in the order of its `<<` statements. -/
def cfgFields (h : HostContext) (st : PluginRunner) : List QString :=
  let cfg0 : List QString := [st.book.opf.relPath]
  let cfg1 := cfg0 ++ [] ++ [h.applicationDirPath]
  let cfg2 := cfg1 ++ [h.DefinePrefsDir]
  let cfg3 :=
    match h.platform with
    | Platform.Linux => cfg2 ++ [join ":".toList h.LinuxHunspellDictionaryDirs]
    | _ => cfg2
  let cfg4 := cfg3 ++ [h.uiLanguage]
  let cfg5 := cfg4 ++ [h.dictionary]
  let cfg6 := cfg5 ++ [if h.isWindowModified then "True".toList else "False".toList]
  let cfg7 := cfg6 ++ [h.GetCurrentFilePath]
  let cfg8 := cfg7 ++ [if h.IsDarkMode then "dark".toList else "light".toList]
  let colors : List QString :=
    [h.colorWindow, h.colorBase, h.colorText, h.colorHighlight, h.colorHighlightedText]
  let cfg9 := cfg8 ++ [join ",".toList colors]
  let cfg10 := cfg9 ++ ["detect".toList]
  let cfg11 := cfg10 ++ [h.font]
  let cfg12 := cfg11 ++ [if h.UsingAutomate then "InAutomate".toList else "NoAutomate".toList]
  let cfg13 := cfg12 ++ [h.AutomatePluginParameter]
  let cfg14 := cfg13 ++ [st.m_fontMangling]
  cfg14 ++ h.AllSelectedResources.map (fun resource => resource.relPath)

/-- The text `writeSigilCFG` hands to `Utility::WriteUnicodeTextFile`. -/
def cfgText (h : HostContext) (st : PluginRunner) : QString :=
  join "\n".toList (cfgFields h st)

/-- The function `PluginRunner::writeSigilCFG`: the text is written to `sigil.cfg` in the
working directory. -/
def writeSigilCFG (h : HostContext) (st : PluginRunner) : PluginRunner :=
  { st with outFiles := insertKey (st.m_outputDir ++ "/sigil.cfg".toList) (cfgText h st)
                          st.outFiles }

/-! ## exec -/

/-- The behaviour of `QString::contains(QString)`. -/
def contains (s pat : QString) : Bool := (indexOf pat s 0).isSome

/-- A `Plugin` descriptor as `exec` reads it through its four getters. -/
structure Plugin where
  get_engine : QString
  get_type : QString
  get_autostart : QString
  get_autoclose : QString
  deriving DecidableEq, Repr

/-- The plugin registry `PluginDB` as `exec` reads it: `get_plugin` (`none` for a
null pointer), `get_engine_path`, and the three static paths. -/
structure PluginDB where
  get_plugin : QString → Option Plugin
  get_engine_path : QString → QString
  pluginsPath : QString
  buildBundledInterpPath : QString
  launcherRoot : QString

/-- The settings store, the build constants of `sigil_constants.h` and the Qt path
functions that `exec` and `startPlugin` read. `PATH_LIST_DELIM` is a string of
one character; `cdUp` is `absolutePath()` of a `QDir` after `cdUp()`,
`absolutePath` is `QDir(path).absolutePath()`, `fileAbsolutePath` is
`QFileInfo(path).absolutePath()`, `fileExists` is `QFileInfo(path).exists()`. -/
structure LaunchContext where
  useBundledInterp : Bool
  APPIMAGE_BUILD : Bool
  PATH_LIST_DELIM : Char
  PYTHON_SITE_PACKAGES : QString
  PYTHON_MAIN_PREFIX : QString
  PYTHON_LIB_PATH : QString
  qVersion : QString
  toNativeSeparators : QString → QString
  cdUp : QString → QString
  absolutePath : QString → QString
  fileAbsolutePath : QString → QString
  fileExists : QString → Bool

/-- The value `exec` returns: `QDialog::Rejected` at once, or whatever
`QDialog::exec()` returns once the dialog is closed. -/
inductive ExecResult
  | Rejected
  | DialogExec
  deriving DecidableEq, Repr

/-- A child process that was never started: not running at either test, and no
`finished` signal in either wait. -/
def notStarted : ChildProcess :=
  { runningAtStart := false, finishedInFirstWait := none,
    runningAfterFirstWait := false, finishedInSecondWait := none }

/-- The function `PluginRunner::reject`: `cancelPlugin`, then `QDialog::reject`. -/
def reject (c : Collaborators) (p : ChildProcess) (st : PluginRunner) : Option PluginRunner :=
  (cancelPlugin c p st).map (fun s => s.emit Effect.reject)

/-- The three statements that end `exec` on an error: the dialog, `reject()`, and
`return QDialog::Rejected`. -/
def rejectWith (c : Collaborators) (p : ChildProcess) (text : QString) (st : PluginRunner) :
    Option (ExecResult × PluginRunner) :=
  (reject c p (st.emit (Effect.DisplayStdErrorDialog text))).map
    (fun s => (ExecResult.Rejected, s))

/-- The `foreach` loop of `exec` over `engineList`; the second argument is
`m_enginePath`. -/
def scanEngines (db : PluginDB) : List QString → QString → QString
  | [], enginePath => enginePath
  | engine :: rest, _ =>
    if db.get_engine_path engine ≠ [] then db.get_engine_path engine
    else scanEngines db rest (db.get_engine_path engine)

/-- The list `engineList` of `exec`. -/
def engineList (m_engine : QString) : List QString :=
  if contains m_engine ",".toList then split ',' m_engine else [m_engine]

/-- The part of `exec` from the lookup of the launcher root on. -/
def execLauncher (c : Collaborators) (db : PluginDB) (s : LaunchContext) (p : ChildProcess)
    (plugin : Plugin) (st : PluginRunner) : Option (ExecResult × PluginRunner) :=
  let launcher_root := db.launcherRoot
  if contains st.m_engine "python3.4".toList then
    let st1 :=
      { st with
          m_launcherPath := launcher_root ++ "/python/launcher.py".toList,
          m_pluginPath := st.m_pluginsFolder ++ "/".toList ++ st.m_pluginName ++ "/".toList
            ++ "plugin.py".toList }
    if ¬ s.fileExists st1.m_launcherPath then
      rejectWith c p ("Installation Error: plugin launcher".toList ++ " ".toList
        ++ st1.m_launcherPath ++ " ".toList ++ "does not exist".toList) st1
    else
      let st2 := { (st1.setStatus "Status: ready") with m_ready := true }
      let st3 :=
        if plugin.get_autostart = "true".toList then st2.emit Effect.singleShotStartClick
        else st2
      some (ExecResult.DialogExec, st3)
  else
    rejectWith c p ("Error: plugin engine".toList ++ " ".toList ++ st.m_engine ++ " ".toList
      ++ "is not supported (yet!)".toList) st

/-- The function `PluginRunner::exec`; `p` tells what the child process does while
`reject` runs. -/
def exec (c : Collaborators) (db : PluginDB) (s : LaunchContext) (p : ChildProcess)
    (name : QString) (st : PluginRunner) : Option (ExecResult × PluginRunner) :=
  let st0 := { st with m_ready := false }
  match db.get_plugin name with
  | none => rejectWith c p "Error: A plugin by that name does not exist".toList st0
  | some plugin =>
    let st1 :=
      { st0 with
          m_pluginName := name,
          m_pluginsFolder := db.pluginsPath,
          m_pluginType := plugin.get_type,
          m_pluginAutoClose := plugin.get_autoclose,
          m_engine := plugin.get_engine }
    let bundled_interp_path := db.buildBundledInterpPath
    if contains st1.m_engine "python3.4".toList ∧ s.useBundledInterp = true
        ∧ bundled_interp_path ≠ [] then
      execLauncher c db s p plugin { st1 with m_enginePath := bundled_interp_path }
    else
      let st2 := { st1 with m_enginePath := scanEngines db (engineList st1.m_engine) st1.m_enginePath }
      if st2.m_enginePath = [] then
        rejectWith c p ("Error: Interpreter".toList ++ " ".toList ++ st2.m_engine ++ " ".toList
          ++ "has no path set".toList) st2
      else execLauncher c db s p plugin st2

/-! ## startPlugin -/

/-- A `QProcessEnvironment`: variable names and values. -/
abbrev Environment := List (QString × QString)

/-- The behaviour of `QProcessEnvironment::value(name)`, the empty string when the
variable is not set. -/
def envValue (env : Environment) (name : String) : QString :=
  (lookupKey name.toList env).getD []

/-- The four statements `startPlugin` uses twice on the value of
`LD_LIBRARY_PATH`: split on the delimiter, `removeAll(dir)`, `prepend(dir)`,
join with the delimiter. -/
def prependLibraryDir (delim : Char) (dir value : QString) : QString :=
  let ld := split delim value
  let ld1 := ld.filter (fun x => decide (x ≠ dir))
  let ld2 := dir :: ld1
  join [delim] ld2

/-- The variables the Windows branch removes. -/
def vars_to_unset : List QString :=
  ["PYTHONPATH".toList, "PYTHONOPTIMIZE".toList, "PYTHONDEBUG".toList, "PYTHONSTARTUP".toList,
   "PYTHONINSPECT".toList, "PYTHONUNBUFFERED".toList, "PYTHONVERBOSE".toList,
   "PYTHONCASEOK".toList, "PYTHONDONTWRITEBYTECODE".toList, "PYTHONHASHSEED".toList,
   "PYTHONNOUSERSITE".toList, "PYTHONUSERBASE".toList, "PYTHONWARNINGS".toList,
   "PYTHONFAULTHANDLER".toList, "PYTHONTRACEMALLOC".toList, "PYTHONASYNCIODEBUG".toList,
   "PYTHONMALLOC".toList, "PYTHONMALLOCSTATS".toList, "PYTHONLEGACYWINDOWSFSENCODING".toList,
   "PYTHONLEGACYWINDOWSIOENCODING".toList]

/-- The `Q_OS_MAC` branch of the environment construction. -/
def macEnvironment (h : HostContext) (s : LaunchContext) (env : Environment) : Environment :=
  if s.useBundledInterp then
    let cert_path := s.cdUp h.applicationDirPath ++ s.PYTHON_SITE_PACKAGES
      ++ "/certifi/cacert.pem".toList
    let env1 := insertKey "SSL_CERT_FILE".toList cert_path env
    let env2 := insertKey "QT_PLUGIN_PATH".toList
      (s.absolutePath (h.applicationDirPath ++ "/../PlugIns".toList)) env1
    insertKey "QT_QPA_PLATFORM_PLUGIN_PATH".toList
      (s.absolutePath (h.applicationDirPath ++ "/../PlugIns/platforms".toList)) env2
  else env

/-- The `Q_OS_WIN32` branch of the environment construction. -/
def windowsEnvironment (h : HostContext) (s : LaunchContext) (m_enginePath : QString)
    (env : Environment) : Environment :=
  if s.useBundledInterp then
    let env1 := insertKey "PYTHONHOME".toList
      (s.toNativeSeparators (s.fileAbsolutePath m_enginePath)) env
    let env2 := insertKey "PYTHONIOENCODING".toList "UTF-8".toList env1
    let env3 := vars_to_unset.foldl (fun e envvar => removeKey envvar e) env2
    let env4 := removeKey "QT_QPA_PLATFORMTHEME".toList env3
    let env5 := insertKey "QT_QPA_PLATFORM_PLUGIN_PATH".toList
      (s.toNativeSeparators (h.applicationDirPath ++ "/platforms".toList)) env4
    let env6 := insertKey "QT_PLUGIN_PATH".toList (s.toNativeSeparators h.applicationDirPath) env5
    let env7 := insertKey "PYSIDE_DISABLE_INTERNAL_QT_CONF".toList "1".toList env6
    insertKey "PATH".toList
      (s.toNativeSeparators (h.applicationDirPath ++ [s.PATH_LIST_DELIM] ++ envValue env7 "PATH"))
      env7
  else env

/-- The local `AppImageLibs` of the Linux branch. -/
def AppImageLibs (h : HostContext) (s : LaunchContext) : QString :=
  s.toNativeSeparators (s.cdUp h.applicationDirPath ++ s.PYTHON_MAIN_PREFIX)

/-- The branch of the environment construction for neither `Q_OS_WIN32` nor
`Q_OS_MAC`. -/
def linuxEnvironment (h : HostContext) (s : LaunchContext) (env : Environment) : Environment :=
  if s.useBundledInterp then
    let cert_path := AppImageLibs h s ++ s.PYTHON_LIB_PATH ++ "/site-packages".toList
      ++ "/certifi/cacert.pem".toList
    let env1 := insertKey "SSL_CERT_FILE".toList cert_path env
    let env2 := insertKey "LD_LIBRARY_PATH".toList
      (prependLibraryDir s.PATH_LIST_DELIM (AppImageLibs h s) (envValue env1 "LD_LIBRARY_PATH")) env1
    insertKey "SIGIL_APPIMAGE_BUILD".toList "1".toList env2
  else if s.APPIMAGE_BUILD then
    let ld := (split s.PATH_LIST_DELIM (envValue env "LD_LIBRARY_PATH")).filter
      (fun x => decide (x ≠ AppImageLibs h s))
    let env1 :=
      if ld.length > 0 then insertKey "LD_LIBRARY_PATH".toList (join [s.PATH_LIST_DELIM] ld) env
      else removeKey "LD_LIBRARY_PATH".toList env
    let preload :=
      [s.toNativeSeparators (AppImageLibs h s ++ "/libsigilgumbo.so".toList),
       s.toNativeSeparators (AppImageLibs h s ++ "/libhunspell.so".toList)]
    let env2 := insertKey "LD_PRELOAD".toList (join [s.PATH_LIST_DELIM] preload) env1
    insertKey "SIGIL_APPIMAGE_BUILD".toList "1".toList env2
  else
    let appdir := h.applicationDirPath
    insertKey "LD_LIBRARY_PATH".toList
      (prependLibraryDir s.PATH_LIST_DELIM appdir (envValue env "LD_LIBRARY_PATH")) env

/-- The environment `startPlugin` hands to `setProcessEnvironment`, built from the
inherited environment `env`. -/
def processEnvironment (h : HostContext) (s : LaunchContext) (m_enginePath : QString)
    (env : Environment) : Environment :=
  let env1 :=
    match h.platform with
    | Platform.Mac => macEnvironment h s env
    | Platform.Windows => windowsEnvironment h s m_enginePath env
    | Platform.Linux => linuxEnvironment h s env
  insertKey "SIGIL_QT_RUNTIME_VERSION".toList s.qVersion env1

/-- The argument list `startPlugin` hands to `m_process.start`. -/
def processArguments (h : HostContext) (s : LaunchContext) (st : PluginRunner) : List QString :=
  let args0 : List QString :=
    if s.useBundledInterp then
      match h.platform with
      | Platform.Mac => ["-EBu".toList]
      | Platform.Windows => ["-Bu".toList]
      | Platform.Linux => ["-EBu".toList]
    else ["-u".toList]
  args0 ++ [s.toNativeSeparators st.m_launcherPath, s.toNativeSeparators st.m_bookRoot,
    s.toNativeSeparators st.m_outputDir, st.m_pluginType, s.toNativeSeparators st.m_pluginPath]

/-- Modelled from the spec: `Book::SaveAllResourcesToDisk`, which writes the text set
on every tracked resource to its file. -/
def Book.SaveAllResourcesToDisk (b : Book) (bookRoot : QString) : Book :=
  b.resources.foldl
    (fun acc r =>
      match (b.texts.find? (fun p => decide (p.1 = r.ptr))).map Prod.snd with
      | some text => acc.SaveToDisk bookRoot r text
      | none => acc)
    b

/-- The function `PluginRunner::startPlugin`; `systemEnvironment` is the value of
`QProcessEnvironment::systemEnvironment()`. -/
def startPlugin (h : HostContext) (s : LaunchContext) (systemEnvironment : Environment)
    (st : PluginRunner) : PluginRunner :=
  if ¬ st.m_ready then
    st.emit (Effect.DisplayStdErrorDialog "Error: plugin cannot start".toList)
  else
    let st1 := { st with textEdit := [] }
    let st2 := writeSigilCFG h st1
    let st3 :=
      { st2 with
          book := st2.book.SaveAllResourcesToDisk st2.m_bookRoot,
          log := st2.log ++ [Effect.SaveTabData, Effect.SuspendWatchingResources,
            Effect.SaveAllResourcesToDisk, Effect.ResumeWatchingResources] }
    let args := processArguments h s st3
    let executable := s.toNativeSeparators st3.m_enginePath
    let env := processEnvironment h s st3.m_enginePath systemEnvironment
    (st3.emit (Effect.start executable args env)).setStatus "Status: running"

/-! ## URLInterceptor -/

/-- A `QUrl` as far as `interceptRequest` reads it: the scheme, the path, and the
query. -/
structure QUrl where
  scheme : QString
  path : QString
  query : QString
  deriving DecidableEq, Repr

/-- The behaviour of `QUrl::toLocalFile` for a URL without a host: the path of a
`file` URL, and the empty string for every other scheme. -/
def QUrl.toLocalFile (u : QUrl) : QString :=
  if u.scheme = "file".toList then u.path else []

/-- The enumeration `QWebEngineUrlRequestInfo::NavigationType`. -/
inductive NavigationType
  | NavigationTypeLink
  | NavigationTypeTyped
  | NavigationTypeFormSubmitted
  | NavigationTypeBackForward
  | NavigationTypeReload
  | NavigationTypeOther
  | NavigationTypeRedirect
  deriving DecidableEq, Repr

/-- A `QWebEngineUrlRequestInfo` as far as `interceptRequest` reads it. -/
structure QWebEngineUrlRequestInfo where
  requestMethod : QString
  requestUrl : QUrl
  firstPartyUrl : QUrl
  navigationType : NavigationType
  deriving DecidableEq, Repr

/-- A `MainWindow` as far as `interceptRequest` reads it: the main folder of its
current book (`none` when `GetCurrentBook()` is null) and its MathJax folder. -/
structure MainWindow where
  GetFullPathToMainFolder : Option QString
  GetMathJaxFolder : QString
  deriving DecidableEq, Repr

/-- A `QWidget` as far as `interceptRequest` reads it; `mainWindow` is the result of
`qobject_cast<MainWindow *>`. -/
structure QWidget where
  isWindow : Bool
  isDesktop : Bool
  mainWindow : Option MainWindow
  deriving DecidableEq, Repr

/-- The remapping of a `sigil` URL to a `file` URL with an empty query. -/
def remapSigil (u : QUrl) : QUrl :=
  if u.scheme = "sigil".toList then { u with scheme := "file".toList, query := [] } else u

/-- The `foreach` loop of `interceptRequest` over `all_widgets` (a null pointer is
`none`): the values of `bookfolder` and `mathjaxfolder` after it. -/
def findBookFolder (sourcefolder : QString) : List (Option QWidget) → QString × QString
  | [] => ([], [])
  | none :: rest => findBookFolder sourcefolder rest
  | some w :: rest =>
    if w.isWindow ∧ ¬ w.isDesktop then
      match w.mainWindow with
      | some mw =>
        match mw.GetFullPathToMainFolder with
        | some folder =>
          if startsWith sourcefolder (folder ++ "/".toList) then
            (folder ++ "/".toList, mw.GetMathJaxFolder)
          else findBookFolder sourcefolder rest
        | none => findBookFolder sourcefolder rest
      | none => findBookFolder sourcefolder rest
    else findBookFolder sourcefolder rest

/-- The URL `interceptRequest` takes the source folder from. -/
def sourceUrl (info : QWebEngineUrlRequestInfo) : QUrl :=
  if info.navigationType = NavigationType.NavigationTypeTyped then remapSigil info.requestUrl
  else remapSigil info.firstPartyUrl

/-- The function `URLInterceptor::interceptRequest`: the argument it passes to
`info.block`, so `true` means the request is blocked. `prefsDir` is the value of
`Utility::DefinePrefsDir()` and `all_widgets` that of `QApplication::allWidgets()`. -/
def interceptRequest (prefsDir : QString) (all_widgets : List (Option QWidget))
    (info : QWebEngineUrlRequestInfo) : Bool :=
  if info.requestMethod ≠ "GET".toList then true
  else
    let destination := remapSigil info.requestUrl
    let sourceurl := sourceUrl info
    if destination.scheme = "file".toList then
      let destpath := destination.toLocalFile
      let repofolder := prefsDir ++ "/repo/".toList
      if startsWith destpath repofolder then false
      else
        let usercssfolder := prefsDir ++ "/".toList
        if startsWith destpath usercssfolder then false
        else
          let sourcefolder := sourceurl.toLocalFile
          let found := findBookFolder sourcefolder all_widgets
          let bookfolder := found.1
          let mathjaxfolder := found.2
          if bookfolder = [] then true
          else if startsWith destpath bookfolder then false
          else if startsWith destpath mathjaxfolder then false
          else true
    else false

/-! ## A small book used for the concrete checks -/

namespace Fixture

def opfRes : Resource :=
  { ptr := 1, type := ResourceType.OPFResourceType, relPath := "OEBPS/content.opf".toList }

def ncxRes : Resource :=
  { ptr := 2, type := ResourceType.NCXResourceType, relPath := "OEBPS/toc.ncx".toList }

def ch1Res : Resource :=
  { ptr := 3, type := ResourceType.HTMLResourceType, relPath := "OEBPS/Text/ch1.xhtml".toList }

def navRes : Resource :=
  { ptr := 4, type := ResourceType.HTMLResourceType, relPath := "OEBPS/Text/nav.xhtml".toList }

def cssRes : Resource :=
  { ptr := 5, type := ResourceType.CSSResourceType, relPath := "OEBPS/Styles/main.css".toList }

/-- The files of the book folder `/book` for the given resources. -/
def diskOf (rs : List Resource) : List (QString × QString) :=
  rs.map (fun r => ("/book/".toList ++ r.relPath, "old".toList))

/-- An EPUB 2 book: manifest, NCX, one content document, one style sheet. -/
def epub2Book : Book :=
  { resources := [opfRes, ncxRes, ch1Res, cssRes], opf := opfRes, ncx := some ncxRes,
    nav := none, epubVersion := "2.0".toList, ncxOnSpine := true, texts := [],
    obfuscation := [], disk := diskOf [opfRes, ncxRes, ch1Res, cssRes], nextPtr := 10,
    modified := false }

/-- An EPUB 3 book with an NCX: manifest, NCX, one content document, the navigation
document. -/
def epub3Book : Book :=
  { resources := [opfRes, ncxRes, ch1Res, navRes], opf := opfRes, ncx := some ncxRes,
    nav := some navRes, epubVersion := "3.0".toList, ncxOnSpine := true, texts := [],
    obfuscation := [], disk := diskOf [opfRes, ncxRes, ch1Res, navRes], nextPtr := 10,
    modified := false }

/-- A `result` element with the given text. -/
def resultElement (text : String) : XmlToken :=
  XmlToken.startElement { name := "result".toList, attributes := [], elementText := text.toList }

/-- A `deleted`, `added` or `modified` element. -/
def changeElement (tag href id mime : String) : XmlToken :=
  XmlToken.startElement
    { name := tag.toList,
      attributes := [("href".toList, href.toList), ("id".toList, id.toList),
                     ("media-type".toList, mime.toList)],
      elementText := [] }

/-- Collaborators for which the reader yields the given run, every checked
document is well formed, and added files get the kind of their media type. -/
def collaborators (run : XmlRun) : Collaborators :=
  { xmlRead := fun _ => run,
    URLDecodePath := fun s => s,
    toInt := fun _ => none,
    WellFormedErrorForSource := fun _ => { line := -1, column := -1, message := [] },
    ProcessXML := fun data _ => data,
    checkReportYes := fun _ => false,
    replaceBookYes := false,
    resourceTypeFor := fun mime _ =>
      if mime = MIME_XHTML then ResourceType.HTMLResourceType
      else if mime = "text/css".toList then ResourceType.CSSResourceType
      else ResourceType.GenericResourceType }

/-- A runner of an edit plugin on the given book, with a tab open on `ch1Res`. -/
def runner (book : Book) : PluginRunner :=
  PluginRunner.construct book [ch1Res] "/work".toList "edit".toList "false".toList "/book".toList

/-- A run reporting success and the deletion of the only content document, with its
media type. -/
def lastDocumentRun : XmlRun :=
  { tokens := [resultElement "success",
      changeElement "deleted" "OEBPS/Text/ch1.xhtml" "ch1" "application/xhtml+xml"],
    hasError := false }

/-- A run reporting success and the deletion of the only content document under the
media type `text/plain`. -/
def mistypedDeleteRun : XmlRun :=
  { tokens := [resultElement "success",
      changeElement "deleted" "OEBPS/Text/ch1.xhtml" "ch1" "text/plain"],
    hasError := false }

/-- A run reporting success, the addition of a new content document, the deletion of
the only old one and the deletion of the new one, all under the media type
`application/xhtml+xml`. -/
def addThenDeleteRun : XmlRun :=
  { tokens := [resultElement "success",
      changeElement "added" "OEBPS/Text/new.xhtml" "new" "application/xhtml+xml",
      changeElement "deleted" "OEBPS/Text/ch1.xhtml" "ch1" "application/xhtml+xml",
      changeElement "deleted" "OEBPS/Text/new.xhtml" "new" "application/xhtml+xml"],
    hasError := false }

end Fixture

namespace Fixture

/-- A host context on the given platform with the given automation parameter. -/
def hostContext (platform : Platform) (parameter : String) : HostContext :=
  { platform := platform,
    applicationDirPath := "/usr/bin".toList,
    DefinePrefsDir := "/home/u/.local/share/sigil".toList,
    LinuxHunspellDictionaryDirs := ["/usr/share/hunspell".toList, "/usr/share/myspell".toList],
    uiLanguage := "en".toList,
    dictionary := "en_US".toList,
    isWindowModified := false,
    GetCurrentFilePath := "/home/u/book.epub".toList,
    IsDarkMode := true,
    colorWindow := "#111111".toList,
    colorBase := "#222222".toList,
    colorText := "#333333".toList,
    colorHighlight := "#444444".toList,
    colorHighlightedText := "#555555".toList,
    font := "Sans,10".toList,
    UsingAutomate := false,
    AutomatePluginParameter := parameter.toList,
    AllSelectedResources := [ch1Res] }

/-- A runner of an input plugin on the given book, with a tab open on `ch1Res`. -/
def inputRunner (book : Book) : PluginRunner :=
  PluginRunner.construct book [ch1Res] "/work".toList "input".toList "false".toList "/book".toList

/-- A run of an input plugin reporting success, a whole archive to load, and the
deletion of the style sheet. -/
def archiveAndDeleteRun : XmlRun :=
  { tokens := [resultElement "success",
      changeElement "added" "new.epub" "" "application/epub+zip",
      changeElement "deleted" "OEBPS/Styles/main.css" "css" "text/css"],
    hasError := false }

/-- A run reporting success and one Added record of the manifest media type. -/
def ignoredAddRun : XmlRun :=
  { tokens := [resultElement "success",
      changeElement "added" "OEBPS/content.opf" "" "application/oebps-package+xml"],
    hasError := false }

/-- A run of an input plugin reporting success and a whole archive to load. -/
def archiveRun : XmlRun :=
  { tokens := [resultElement "success",
      changeElement "added" "new.epub" "" "application/epub+zip"],
    hasError := false }

/-- The input-plugin runner after a parse that stored a style sheet to add, a whole
archive, and a content document to add. -/
def archiveRunner : PluginRunner :=
  { inputRunner epub2Book with
      m_filesToAdd := [join SEP ["OEBPS/Styles/new.css".toList, "n".toList, "text/css".toList],
                       join SEP ["new.epub".toList, [], MIME_EPUB],
                       join SEP ["OEBPS/Text/late.xhtml".toList, "l".toList, MIME_XHTML]] }

end Fixture

namespace Fixture

/-- Collaborators whose `ProcessXML` returns the media type it was given, so that
the repaired file shows which type the repair pass was keyed by. -/
def typeEchoCollaborators : Collaborators :=
  { collaborators { tokens := [], hasError := false } with
      ProcessXML := fun _ mtype => mtype }

/-- The runner after a parse that stored one Modified record: a navigation-control
file at an href ending in `.xml`. -/
def repairRunner : PluginRunner :=
  { runner epub2Book with
      m_filesToModify := [join SEP ["OEBPS/toc.xml".toList, "ncx".toList, MIME_NCX]] }

/-- Collaborators whose `URLDecodePath` decodes the escape `%1F`. -/
def decodingCollaborators : Collaborators :=
  { collaborators { tokens := [], hasError := false } with
      URLDecodePath := fun s => replace s "%1F".toList SEP }

/-- A `deleted` element whose href holds the escape `%1F`. -/
def escapedElement : XmlStartElement :=
  { name := "deleted".toList,
    attributes := [("href".toList, "OEBPS/Text/a%1Fb.xhtml".toList), ("id".toList, "x".toList),
                   ("media-type".toList, "application/xhtml+xml".toList)],
    elementText := [] }

/-- A run of an input plugin reporting success, a whole archive to load, a new
content document, and the deletion of the only old content document. -/
def archiveReplacesDocumentRun : XmlRun :=
  { tokens := [resultElement "success",
      changeElement "added" "new.epub" "" "application/epub+zip",
      changeElement "added" "OEBPS/Text/new.xhtml" "new" "application/xhtml+xml",
      changeElement "deleted" "OEBPS/Text/ch1.xhtml" "ch1" "application/xhtml+xml"],
    hasError := false }

/-- A run reporting success with a Modified, a Deleted and an Added element, in this
order. -/
def reversedOrderRun : XmlRun :=
  { tokens := [resultElement "success",
      changeElement "modified" "OEBPS/Text/ch1.xhtml" "ch1" "application/xhtml+xml",
      changeElement "deleted" "OEBPS/Styles/main.css" "css" "text/css",
      changeElement "added" "OEBPS/Text/new.xhtml" "new" "application/xhtml+xml"],
    hasError := false }

/-- The state `pluginFinished` returns for `reversedOrderRun`. -/
def reversedOrderFinal : PluginRunner :=
  (pluginFinished (collaborators reversedOrderRun) ExitStatus.NormalExit (runner epub2Book)).getD
    (runner epub2Book)

/-- A plugin that declares two engines and does not start by itself. -/
def plugin : Plugin :=
  { get_engine := "python2.7,python3.4".toList, get_type := "edit".toList,
    get_autostart := "false".toList, get_autoclose := "false".toList }

/-- A registry that knows the plugin `demo` and has a path for the engine
`python3.4` alone, when `registered` is set. -/
def pluginDB (registered : Bool) : PluginDB :=
  { get_plugin := fun name => if name = "demo".toList then some plugin else none,
    get_engine_path := fun engine =>
      if registered ∧ engine = "python3.4".toList then "/usr/bin/python3".toList else [],
    pluginsPath := "/home/u/.local/share/sigil/plugins".toList,
    buildBundledInterpPath := [],
    launcherRoot := "/usr/share/sigil/plugin_launchers".toList }

/-- A launch context of a Linux build that uses an external interpreter. -/
def launchContext : LaunchContext :=
  { useBundledInterp := false,
    APPIMAGE_BUILD := false,
    PATH_LIST_DELIM := ':',
    PYTHON_SITE_PACKAGES := "/lib/python3/site-packages".toList,
    PYTHON_MAIN_PREFIX := "/lib".toList,
    PYTHON_LIB_PATH := "/python3".toList,
    qVersion := "6.5.2".toList,
    toNativeSeparators := fun path => path,
    cdUp := fun path => (path.reverse.dropWhile (fun ch => decide (ch ≠ '/'))).drop 1 |>.reverse,
    absolutePath := fun path => path,
    fileAbsolutePath := fun path =>
      (path.reverse.dropWhile (fun ch => decide (ch ≠ '/'))).drop 1 |>.reverse,
    fileExists := fun _ => true }

/-- The native form of a path on Windows: every slash becomes a backslash. -/
def windowsSeparators (path : QString) : QString :=
  path.map (fun ch => if ch = '/' then Char.ofNat 92 else ch)

/-- A launch context of a Windows build that uses the bundled interpreter. -/
def windowsBundledContext : LaunchContext :=
  { launchContext with
      useBundledInterp := true, PATH_LIST_DELIM := ';', toNativeSeparators := windowsSeparators }

/-- A host context on Windows whose application directory is `C:/Sigil`. -/
def windowsHost : HostContext :=
  { hostContext Platform.Windows "" with applicationDirPath := "C:/Sigil".toList }

/-- A host context on Linux whose application directory holds a colon. -/
def colonHost : HostContext :=
  { hostContext Platform.Linux "" with applicationDirPath := "/opt/a:b/bin".toList }

/-- A launch context of a Linux AppImage build that uses an external interpreter. -/
def appImageExternalContext : LaunchContext :=
  { launchContext with APPIMAGE_BUILD := true }

/-- One main window whose book lives in `/tmp/book1`. -/
def widgets : List (Option QWidget) :=
  [some { isWindow := true, isDesktop := false,
          mainWindow := some { GetFullPathToMainFolder := some "/tmp/book1".toList,
                               GetMathJaxFolder := "/usr/share/sigil/mathjax".toList } }]

/-- A GET request for a file of the book in `/tmp/book1` with the given first-party
path and navigation type. -/
def bookRequest (firstParty : String) (nav : NavigationType) : QWebEngineUrlRequestInfo :=
  { requestMethod := "GET".toList,
    requestUrl := { scheme := "file".toList, path := "/tmp/book1/OEBPS/Text/ch1.xhtml".toList,
                    query := [] },
    firstPartyUrl := { scheme := "file".toList, path := firstParty.toList, query := [] },
    navigationType := nav }

/-- The runner after a parse that stored three Added, four Modified and one Deleted
record. -/
def classifiedRunner : PluginRunner :=
  { runner epub2Book with
      m_filesToAdd :=
        [join SEP ["OEBPS/Text/new.xhtml".toList, "new".toList, MIME_XHTML],
         join SEP ["OEBPS/Styles/new.css".toList, "css2".toList, "text/css".toList],
         join SEP ["OEBPS/Audio/ch1.smil".toList, "smil".toList, MIME_SMIL]],
      m_filesToModify :=
        [join SEP ["OEBPS/content.opf".toList, [], MIME_OPF],
         join SEP ["OEBPS/toc.ncx".toList, "ncx".toList, MIME_NCX],
         join SEP ["OEBPS/page-map.xml".toList, "map".toList, MIME_PAGEMAP],
         join SEP ["OEBPS/Text/ch1.xhtml".toList, "ch1".toList, MIME_XHTML]],
      m_filesToDelete :=
        [join SEP ["OEBPS/Text/old.xhtml".toList, "old".toList, MIME_XHTML]] }

/-- Collaborators for which an empty source has a well-formedness error and the user
does not answer Yes. -/
def strictCollaborators (run : XmlRun) : Collaborators :=
  { collaborators run with
      WellFormedErrorForSource := fun data =>
        if data = [] then { line := 1, column := 1, message := "no element found".toList }
        else { line := -1, column := -1, message := [] } }

/-- A run reporting success and a Modified content document. -/
def modifiedDocumentRun : XmlRun :=
  { tokens := [resultElement "success",
      changeElement "modified" "OEBPS/Text/ch1.xhtml" "ch1" "application/xhtml+xml"],
    hasError := false }

/-- The state after the parse of `modifiedDocumentRun`. -/
def modifiedDocumentParsed : PluginRunner :=
  (processResultXML (strictCollaborators modifiedDocumentRun)
    ((runner epub2Book).setStatus "Status: finished")).2

/-- The state after the gate on `modifiedDocumentParsed`. -/
def modifiedDocumentChecked : PluginRunner :=
  ((checkIsWellFormed (strictCollaborators modifiedDocumentRun) modifiedDocumentParsed).getD
    (true, modifiedDocumentParsed)).2

/-- A run reporting the outcome `failed` and the deletion of a content document. -/
def failedResultRun : XmlRun :=
  { tokens := [resultElement "failed",
      changeElement "deleted" "OEBPS/Text/ch1.xhtml" "ch1" "application/xhtml+xml"],
    hasError := false }

/-- A run without a `result` element that lists the deletion of a style sheet. -/
def noResultRun : XmlRun :=
  { tokens := [changeElement "deleted" "OEBPS/Styles/main.css" "css" "text/css"],
    hasError := false }

/-- An inherited environment in which `LD_LIBRARY_PATH` names the application
directory in the middle. -/
def linuxEnv : Environment :=
  [("HOME".toList, "/home/u".toList),
   ("LD_LIBRARY_PATH".toList, "/opt/lib:/usr/bin:/usr/lib".toList)]

end Fixture

/-! ## Reading the log -/

/-- The destination paths of the `ForceCopyFile` calls in a log, in call order. -/
def copiedTo (log : List Effect) : List QString :=
  log.filterMap (fun e => match e with
    | Effect.ForceCopyFile _ outpath => some outpath
    | _ => none)

/-- The href `modifyFiles` reads from a record. -/
def hrefOf (fileinfo : QString) : QString := ((fields fileinfo).map (fun t => t.1)).getD []

/-- The order the rearranging loop is meant to produce: the records other than the
manifest record and the NCX record in reported order, then the manifest record
if reported, then the NCX record if reported. -/
def manifestLast (opfinfo ncxinfo : QString) (files : List QString) : List QString :=
  files.filter (fun f => decide (f ≠ opfinfo ∧ f ≠ ncxinfo))
    ++ (if opfinfo ∈ files then [opfinfo] else [])
    ++ (if ncxinfo ∈ files ∧ ncxinfo ≠ opfinfo then [ncxinfo] else [])

/-- The navigation document `n` is designated, tracked, and is not the NCX object. -/
def navProtected (n : Resource) (b : Book) : Prop :=
  b.nav = some n ∧ n ∈ b.resources ∧ ∀ x, b.ncx = some x → x.ptr ≠ n.ptr

/-! ## Predicates used in the statements -/

/-- The token is an `added` element of the content-document media type. -/
def addsXhtml (t : XmlToken) : Bool :=
  match t with
  | XmlToken.startElement e =>
    decide (e.name = "added".toList ∧ attrValue e.attributes "media-type".toList = MIME_XHTML)
  | XmlToken.other => false

/-- The token is a `deleted` element of the content-document media type whose decoded
href is `href`. -/
def deletesXhtml (c : Collaborators) (href : QString) (t : XmlToken) : Bool :=
  match t with
  | XmlToken.startElement e =>
    decide (e.name = "deleted".toList ∧ attrValue e.attributes "media-type".toList = MIME_XHTML
      ∧ c.URLDecodePath (attrValue e.attributes "href".toList) = href)
  | XmlToken.other => false

/-- The ledger is at most `L`, and at most `L - 1` once `href` has left `m_xhtmlFiles`. -/
def ledgerBound (L : Int) (href : QString) (s : PluginRunner) : Prop :=
  s.m_xhtml_net_change ≤ L ∧ (containsKey href s.m_xhtmlFiles = false → s.m_xhtml_net_change ≤ L - 1)

/-- The run was rejected by the last-document guard: `pluginFinished` returns with the
outcome `failed`, the book and the tabs of `st`, and nothing logged after the
gate (whose final state is `st3`) but the error dialog and the status. -/
def rejectedByGuard (c : Collaborators) (st st3 : PluginRunner) : Prop :=
  ∃ st1, pluginFinished c ExitStatus.NormalExit st = some st1 ∧
    st1.m_result = "failed".toList ∧ st1.book = st.book ∧ st1.tabs = st.tabs ∧
    st1.log = st3.log ++ [Effect.DisplayStdErrorDialog
        "Error: Plugin Tried to Remove the Last XHTML file .. aborting changes".toList,
      Effect.setStatus "Status: No Changes Made".toList]

/-- The pattern `pat` occurs in `s` at position `i`. -/
def occursAt (pat s : QString) (i : Nat) : Prop :=
  i ≤ s.length ∧ startsWith (s.drop i) pat = true

/-- Each token of a run paired with the state of the runner when it is read. -/
def readStates (c : Collaborators) : PluginRunner → List XmlToken → List (PluginRunner × XmlToken)
  | _, [] => []
  | st, t :: ts => (st, t) :: readStates c (processToken c st t) ts

/-- The token is a `deleted` element of the content-document media type whose decoded
href is in `m_xhtmlFiles` in the state in which it is read. -/
def deletesTrackedXhtml (c : Collaborators) (p : PluginRunner × XmlToken) : Bool :=
  match p.2 with
  | XmlToken.startElement e =>
    decide (e.name = "deleted".toList ∧ attrValue e.attributes "media-type".toList = MIME_XHTML)
      && containsKey (c.URLDecodePath (attrValue e.attributes "href".toList)) p.1.m_xhtmlFiles
  | XmlToken.other => false

/-- The severity a `validationresult` element declares, when it is one of the three
recognised ones. -/
def severityOf (type : QString) : Option ResType :=
  if type = "info".toList then some ResType.ResType_Info
  else if type = "warning".toList then some ResType.ResType_Warn
  else if type = "error".toList then some ResType.ResType_Error
  else none

/-- The integer value of an attribute text, and `-1` when it does not parse. -/
def intOrMinusOne (c : Collaborators) (text : QString) : Int :=
  match c.toInt text with
  | some n => n
  | none => -1

/-- The diagnostic a token stands for: a `validationresult` element of a recognised
severity gives one diagnostic, every other token none. -/
def diagnosticOf (c : Collaborators) (t : XmlToken) : Option ValidationResult :=
  match t with
  | XmlToken.other => none
  | XmlToken.startElement e =>
    if e.name = "validationresult".toList then
      (severityOf (attrValue e.attributes "type".toList)).map (fun v =>
        { vtype := v,
          bookpath := attrValue e.attributes "bookpath".toList,
          linenumber := intOrMinusOne c (attrValue e.attributes "linenumber".toList),
          charoffset := intOrMinusOne c (attrValue e.attributes "charoffset".toList),
          message := attrValue e.attributes "message".toList })
    else none

/-- The fields the list starts with, up to the preferences directory and, on Linux,
the dictionary search paths. -/
def cfgHead (h : HostContext) (st : PluginRunner) : List QString :=
  [st.book.opf.relPath, h.applicationDirPath, h.DefinePrefsDir] ++
    (match h.platform with
     | Platform.Linux => [join ":".toList h.LinuxHunspellDictionaryDirs]
     | _ => [])

/-- The text of the five theme colors, comma-joined. -/
def cfgColors (h : HostContext) : QString :=
  join ",".toList
    [h.colorWindow, h.colorBase, h.colorText, h.colorHighlight, h.colorHighlightedText]

/-- The state after the loop body of `addFiles` for a record that is not a whole archive. -/
def addOther (c : Collaborators) (st : PluginRunner) (href mime : QString) : PluginRunner :=
  if mime = MIME_OPF then st
  else if mime = MIME_NCX then addNCX st href
  else addContent c st href mime

/-- The hrefs of the records of the content-document media type, in list order. -/
def strictHrefs (files : List QString) : List QString :=
  files.filterMap (fun f =>
    match fields f with
    | some (href, _, mime) => if mime = MIME_XHTML then some href else none
    | none => none)

/-- The four media types of auxiliary XML files. -/
def auxiliaryTypes : List QString := [MIME_OPF, MIME_NCX, MIME_PAGEMAP, MIME_SMIL]

/-- The hrefs of the records of an auxiliary XML media type, in list order. -/
def repairHrefs (files : List QString) : List QString :=
  files.filterMap (fun f =>
    match fields f with
    | some (href, _, mime) => if mime ∈ auxiliaryTypes then some href else none
    | none => none)

/-- The checked document at `href` in the working directory has no
well-formedness error. -/
def wellFormed (c : Collaborators) (st : PluginRunner) (href : QString) : Bool :=
  decide ((c.WellFormedErrorForSource
    (readFile st.outFiles (st.m_outputDir ++ "/".toList ++ href))).line = -1)

/-- The text of the last `result` element among the tokens, and `init` when there is
none. -/
def resultText (tokens : List XmlToken) (init : QString) : QString :=
  tokens.foldl
    (fun acc t =>
      match t with
      | XmlToken.startElement e => if e.name = "result".toList then e.elementText else acc
      | XmlToken.other => acc)
    init

/-- The string `processResultXML` stores for a change element. -/
def storedRecord (c : Collaborators) (e : XmlStartElement) : QString :=
  join SEP [c.URLDecodePath (attrValue e.attributes "href".toList),
            attrValue e.attributes "id".toList,
            attrValue e.attributes "media-type".toList]

/-- The three appliers of a change set. -/
inductive Applier
  | addFiles
  | deleteFiles
  | modifyFiles
  deriving DecidableEq, Repr

/-- The applier a logged call belongs to: loading an archive and adding a file
belong to `addFiles`; the tab redirect, closing a tab, removing a resource or a
file belong to the deletion step; copying a file belongs to `modifyFiles`;
status texts and every other call belong to none. -/
def applierOf : Effect → Option Applier
  | Effect.LoadFile _ => some Applier.addFiles
  | Effect.AddNCXToFolder _ => some Applier.addFiles
  | Effect.AddContentFileToFolder _ _ _ => some Applier.addFiles
  | Effect.OpenResource _ => some Applier.deleteFiles
  | Effect.CloseTabForResource _ => some Applier.deleteFiles
  | Effect.RemoveNCXFromFolder => some Applier.deleteFiles
  | Effect.RemoveResource _ => some Applier.deleteFiles
  | Effect.ResourceDelete _ => some Applier.deleteFiles
  | Effect.SDeleteFile _ => some Applier.deleteFiles
  | Effect.ResourcesDeleted => some Applier.deleteFiles
  | Effect.ForceCopyFile _ _ => some Applier.modifyFiles
  | _ => none

/-- Every call in the segment is a status text or a call of the applier `a`. -/
def callsOf (a : Applier) (l : List Effect) : Prop :=
  ∀ e ∈ l, applierOf e = none ∨ applierOf e = some a

/-- The registered path of the first engine of the list whose registered path is
not empty. -/
def firstRegistered (db : PluginDB) (engines : List QString) : Option QString :=
  (engines.map db.get_engine_path).find? (fun path => decide (path ≠ []))

/-- The bundled interpreter is selected: the engine string contains `python3.4`, the
user asked for the bundled interpreter, and its path is not empty. -/
def bundledSelected (db : PluginDB) (s : LaunchContext) (plugin : Plugin) : Prop :=
  contains plugin.get_engine "python3.4".toList = true ∧ s.useBundledInterp = true ∧
    db.buildBundledInterpPath ≠ []

/-- The settings for which the environment construction, applied to its own result,
changes nothing: every Mac build; a Windows build with an external interpreter; a
Linux build with the bundled interpreter whose `AppImageLibs` holds no path
delimiter; a Linux build outside an AppImage with an external interpreter whose
application directory holds no path delimiter. -/
def stableSettings (h : HostContext) (s : LaunchContext) : Prop :=
  match h.platform with
  | Platform.Mac => True
  | Platform.Windows => s.useBundledInterp = false
  | Platform.Linux =>
    (s.useBundledInterp = true ∧ s.PATH_LIST_DELIM ∉ AppImageLibs h s) ∨
    (s.useBundledInterp = false ∧ s.APPIMAGE_BUILD = false ∧
      s.PATH_LIST_DELIM ∉ h.applicationDirPath)

/-- The main windows with a current book among the widgets `interceptRequest` looks
at (windows that are not the desktop): for each, the main folder of its book and
its MathJax folder. -/
def openBooks (all_widgets : List (Option QWidget)) : List (QString × QString) :=
  all_widgets.filterMap (fun w =>
    match w with
    | none => none
    | some w =>
      if w.isWindow ∧ ¬ w.isDesktop then
        match w.mainWindow with
        | some mw => mw.GetFullPathToMainFolder.map (fun folder => (folder, mw.GetMathJaxFolder))
        | none => none
      else none)

/-! ## Frame lemmas: what parsing and the gate leave untouched -/

theorem processChange_frame (c : Collaborators) (st : PluginRunner) (e : XmlStartElement) :
    (processChange c st e).book = st.book ∧ (processChange c st e).tabs = st.tabs ∧
    (processChange c st e).log = st.log ∧ (processChange c st e).m_hrefToRes = st.m_hrefToRes ∧
    (processChange c st e).outFiles = st.outFiles := by
  unfold processChange
  simp only []
  split_ifs <;> simp

theorem processToken_frame (c : Collaborators) (st : PluginRunner) (t : XmlToken) :
    (processToken c st t).book = st.book ∧ (processToken c st t).tabs = st.tabs ∧
    (processToken c st t).log = st.log ∧ (processToken c st t).m_hrefToRes = st.m_hrefToRes ∧
    (processToken c st t).outFiles = st.outFiles := by
  cases t with
  | other => simp [processToken]
  | startElement e =>
    unfold processToken
    simp only []
    split_ifs
    · simp
    · simp
    · exact processChange_frame c st e
    · unfold processValidation
      simp only []
      split <;> simp
    · simp

theorem foldl_processToken_frame (c : Collaborators) (ts : List XmlToken) (st : PluginRunner) :
    (ts.foldl (processToken c) st).book = st.book ∧ (ts.foldl (processToken c) st).tabs = st.tabs ∧
    (ts.foldl (processToken c) st).log = st.log ∧
    (ts.foldl (processToken c) st).m_hrefToRes = st.m_hrefToRes ∧
    (ts.foldl (processToken c) st).outFiles = st.outFiles := by
  induction ts generalizing st with
  | nil => simp
  | cons t ts ih =>
    obtain ⟨h1, h2, h3, h4, h5⟩ := ih (processToken c st t)
    obtain ⟨g1, g2, g3, g4, g5⟩ := processToken_frame c st t
    simp only [List.foldl_cons]
    exact ⟨h1.trans g1, h2.trans g2, h3.trans g3, h4.trans g4, h5.trans g5⟩

theorem checkXhtml_frame (c : Collaborators) (hrefs : List QString) (st : PluginRunner) :
    (checkXhtml c st hrefs).2.book = st.book ∧ (checkXhtml c st hrefs).2.tabs = st.tabs ∧
    (checkXhtml c st hrefs).2.m_xhtml_net_change = st.m_xhtml_net_change := by
  induction hrefs generalizing st with
  | nil => exact ⟨rfl, rfl, rfl⟩
  | cons h rest ih =>
    have key := ih (st.emit (Effect.setStatus ("Status: checking".toList ++ " ".toList ++ h)))
    unfold checkXhtml
    dsimp only
    split_ifs <;> exact key

theorem repairXml_frame (c : Collaborators) (hrefs : List QString) (st : PluginRunner) :
    (repairXml c hrefs st).book = st.book ∧ (repairXml c hrefs st).tabs = st.tabs ∧
    (repairXml c hrefs st).m_xhtml_net_change = st.m_xhtml_net_change := by
  induction hrefs generalizing st with
  | nil => exact ⟨rfl, rfl, rfl⟩
  | cons h rest ih =>
    unfold repairXml
    exact ih _

theorem checkIsWellFormed_frame (c : Collaborators) (st st3 : PluginRunner) (b : Bool)
    (h : checkIsWellFormed c st = some (b, st3)) :
    st3.book = st.book ∧ st3.tabs = st.tabs ∧ st3.m_xhtml_net_change = st.m_xhtml_net_change := by
  unfold checkIsWellFormed at h
  split at h
  · exact absurd h (by simp)
  · split at h
    · exact absurd h (by simp)
    · rename_i xs ys _
      obtain ⟨h1, h2, h3⟩ := checkXhtml_frame c xs st
      obtain ⟨g1, g2, g3⟩ := repairXml_frame c ys (checkXhtml c st xs).2
      dsimp only at h
      split_ifs at h <;>
      · simp only [Option.some.injEq, Prod.mk.injEq] at h
        obtain ⟨_, rfl⟩ := h
        exact ⟨g1.trans h1, g2.trans h2, g3.trans h3⟩

theorem processResultXML_frame (c : Collaborators) (st : PluginRunner) :
    (processResultXML c st).2.book = st.book ∧ (processResultXML c st).2.tabs = st.tabs := by
  obtain ⟨h1, h2, _⟩ := foldl_processToken_frame c
    (c.xmlRead (parseBuffer st.m_pluginOutput)).tokens
    { st with m_pluginOutput := parseBuffer st.m_pluginOutput }
  unfold processResultXML
  dsimp only
  split_ifs
  · exact ⟨h1, h2⟩
  · exact ⟨h1, h2⟩

theorem processResultXML_error (c : Collaborators) (s : PluginRunner)
    (herr : (c.xmlRead (parseBuffer s.m_pluginOutput)).hasError = true) :
    (processResultXML c s).1 = false ∧ (processResultXML c s).2.m_result = "failed".toList ∧
    (processResultXML c s).2.log = s.log ++
      [Effect.DisplayStdErrorDialog ("Error Parsing Result XML:  ".toList
        ++ (c.xmlRead (parseBuffer s.m_pluginOutput)).errorString)] := by
  obtain ⟨_, _, h3, _⟩ := foldl_processToken_frame c
    (c.xmlRead (parseBuffer s.m_pluginOutput)).tokens
    { s with m_pluginOutput := parseBuffer s.m_pluginOutput }
  unfold processResultXML
  dsimp only
  rw [if_pos herr]
  refine ⟨rfl, rfl, ?_⟩
  show _ ++ _ = _
  rw [h3]

theorem parseAndApply_error (c : Collaborators) (s : PluginRunner)
    (herr : (c.xmlRead (parseBuffer s.m_pluginOutput)).hasError = true) :
    ∃ s1, parseAndApply c s = some s1 ∧ s1.book = s.book ∧ s1.tabs = s.tabs ∧
      s1.m_result = "failed".toList ∧
      s1.log = s.log ++ [Effect.DisplayStdErrorDialog ("Error Parsing Result XML:  ".toList
        ++ (c.xmlRead (parseBuffer s.m_pluginOutput)).errorString)] := by
  obtain ⟨q1, q2, q3⟩ := processResultXML_error c s herr
  obtain ⟨f1, f2⟩ := processResultXML_frame c s
  unfold parseAndApply
  generalize processResultXML c s = r at q1 q2 q3 f1 f2
  obtain ⟨b, s2⟩ := r
  dsimp only at q1 q2 q3 f1 f2
  subst q1
  exact ⟨_, rfl, f1, f2, q2, q3⟩

/-- C1: when the XML reader reports an error, `processResultXML` returns false and
sets the outcome to `failed`; `pluginFinished` then returns with the book and the
tabs as they were, and its log shows that none of `addFiles`, `deleteFiles`,
`modifyFiles` was entered. -/
theorem malformed_result_applies_nothing (c : Collaborators) (exitstatus : ExitStatus)
    (st : PluginRunner)
    (herr : (c.xmlRead (parseBuffer st.m_pluginOutput)).hasError = true) :
    (processResultXML c st).1 = false ∧
    (processResultXML c st).2.m_result = "failed".toList ∧
    ∃ st1, pluginFinished c exitstatus st = some st1 ∧
      st1.book = st.book ∧ st1.tabs = st.tabs ∧
      (st1.log = st.log ∨
        st1.log = st.log ++ [Effect.setStatus "Status: finished".toList,
          Effect.DisplayStdErrorDialog ("Error Parsing Result XML:  ".toList
            ++ (c.xmlRead (parseBuffer st.m_pluginOutput)).errorString)]) ∧
      (alreadyDecided st = false → exitstatus = ExitStatus.NormalExit →
        st1.m_result = "failed".toList) := by
  refine ⟨(processResultXML_error c st herr).1, (processResultXML_error c st herr).2.1, ?_⟩
  cases exitstatus with
  | CrashExit =>
    exact ⟨_, rfl, rfl, rfl, Or.inl rfl, fun _ h => absurd h (by decide)⟩
  | NormalExit =>
    unfold pluginFinished
    dsimp only
    cases hd : alreadyDecided st with
    | true => exact ⟨_, rfl, rfl, rfl, Or.inl rfl, fun h => absurd h (by decide)⟩
    | false =>
      obtain ⟨s1, e1, e2, e3, e4, e5⟩ := parseAndApply_error c (st.setStatus "Status: finished") herr
      refine ⟨s1, ?_, e2, e3, Or.inr ?_, fun _ _ => e4⟩
      · simpa using e1
      · rw [e5]
        simp [PluginRunner.setStatus, PluginRunner.emit]

/-- Witness of C1 on the EPUB 2 fixture with a reader run that ends in an error. -/
theorem malformed_result_witness :
    ∃ st1, pluginFinished (Fixture.collaborators { tokens := [], hasError := true })
        ExitStatus.NormalExit (Fixture.runner Fixture.epub2Book) = some st1 ∧
      st1.book = Fixture.epub2Book ∧ st1.m_result = "failed".toList := by
  obtain ⟨_, _, st1, h1, h2, _, _, h5⟩ :=
    malformed_result_applies_nothing (Fixture.collaborators { tokens := [], hasError := true })
      ExitStatus.NormalExit (Fixture.runner Fixture.epub2Book) rfl
  exact ⟨st1, h1, h2, h5 rfl rfl⟩

theorem gateAndCommit_guard (c : Collaborators) (st2 st3 : PluginRunner)
    (hgate : checkIsWellFormed c st2 = some (true, st3))
    (hguard : removesLastXhtml st3 = true) :
    ∃ s, gateAndCommit c st2 = some s ∧ s.m_result = "failed".toList ∧ s.book = st2.book ∧
      s.tabs = st2.tabs ∧
      s.log = st3.log ++ [Effect.DisplayStdErrorDialog
          "Error: Plugin Tried to Remove the Last XHTML file .. aborting changes".toList,
        Effect.setStatus "Status: No Changes Made".toList] := by
  obtain ⟨f1, f2, _⟩ := checkIsWellFormed_frame c st2 st3 true hgate
  unfold gateAndCommit
  rw [hgate]
  dsimp only
  rw [if_pos hguard]
  refine ⟨_, rfl, rfl, f1, f2, ?_⟩
  simp [PluginRunner.setStatus, PluginRunner.emit]

/-! ## The last-document guard -/

theorem containsKey_removeKey_self {β : Type} (k : QString) (m : List (QString × β)) :
    containsKey k (removeKey k m) = false := by
  induction m with
  | nil => rfl
  | cons p rest ih =>
    obtain ⟨k1, v1⟩ := p
    unfold removeKey at ih ⊢
    by_cases e : k1 = k
    · simp only [List.filter, e, ne_eq, not_true_eq_false, decide_False]
      exact ih
    · simp only [List.filter, e, ne_eq, not_false_eq_true, decide_True]
      simp only [containsKey, lookupKey, if_neg e]
      exact ih

theorem containsKey_removeKey_of_false {β : Type} (k k2 : QString) (m : List (QString × β))
    (h : containsKey k m = false) : containsKey k (removeKey k2 m) = false := by
  induction m with
  | nil => rfl
  | cons p rest ih =>
    obtain ⟨k1, v1⟩ := p
    unfold removeKey at ih ⊢
    by_cases e : k1 = k
    · simp [containsKey, lookupKey, e] at h
    · simp only [containsKey, lookupKey, if_neg e] at h
      by_cases e2 : k1 = k2
      · simp only [List.filter, e2, ne_eq, not_true_eq_false, decide_False]
        exact ih h
      · simp only [List.filter, e2, ne_eq, not_false_eq_true, decide_True]
        simp only [containsKey, lookupKey, if_neg e]
        exact ih h

theorem processToken_ledgerBound (c : Collaborators) (L : Int) (href : QString)
    (s : PluginRunner) (t : XmlToken) (hadd : addsXhtml t = false)
    (h : ledgerBound L href s) :
    ledgerBound L href (processToken c s t) ∧
    (deletesXhtml c href t = true → containsKey href (processToken c s t).m_xhtmlFiles = false) := by
  obtain ⟨h1, h2⟩ := h
  cases t with
  | other => exact ⟨⟨h1, h2⟩, fun hd => absurd hd (by simp [deletesXhtml])⟩
  | startElement e =>
    unfold processToken
    dsimp only
    by_cases r1 : e.name = "result".toList
    · rw [if_pos r1]
      refine ⟨⟨h1, h2⟩, fun hd => ?_⟩
      simp only [deletesXhtml, decide_eq_true_eq] at hd
      rw [hd.1] at r1
      exact absurd r1 (by decide)
    rw [if_neg r1]
    by_cases r2 : e.name = "msg".toList
    · rw [if_pos r2]
      refine ⟨⟨h1, h2⟩, fun hd => ?_⟩
      simp only [deletesXhtml, decide_eq_true_eq] at hd
      rw [hd.1] at r2
      exact absurd r2 (by decide)
    rw [if_neg r2]
    by_cases r3 : e.name ∈ CHANGESTAGS
    · rw [if_pos r3]
      unfold processChange
      dsimp only
      by_cases d1 : e.name = "deleted".toList
      · rw [if_pos d1]
        by_cases d2 : attrValue e.attributes "media-type".toList = MIME_XHTML
        · rw [if_pos d2]
          by_cases d3 : containsKey (c.URLDecodePath (attrValue e.attributes "href".toList))
              s.m_xhtmlFiles = true
          · rw [if_pos d3]
            refine ⟨⟨by show s.m_xhtml_net_change - 1 ≤ L; omega, fun _ => by
              show s.m_xhtml_net_change - 1 ≤ L - 1; omega⟩, fun hd => ?_⟩
            simp only [deletesXhtml, decide_eq_true_eq] at hd
            show containsKey href (removeKey _ s.m_xhtmlFiles) = false
            rw [hd.2.2]
            exact containsKey_removeKey_self _ _
          · rw [if_neg d3]
            refine ⟨⟨h1, h2⟩, fun hd => ?_⟩
            simp only [deletesXhtml, decide_eq_true_eq] at hd
            rw [hd.2.2] at d3
            simpa using d3
        · rw [if_neg d2]
          refine ⟨⟨h1, h2⟩, fun hd => ?_⟩
          simp only [deletesXhtml, decide_eq_true_eq] at hd
          exact absurd hd.2.1 d2
      · rw [if_neg d1]
        have nd : deletesXhtml c href (XmlToken.startElement e) = true → False := by
          intro hd
          simp only [deletesXhtml, decide_eq_true_eq] at hd
          exact d1 hd.1
        by_cases a1 : e.name = "added".toList
        · rw [if_pos a1]
          have a2 : ¬ attrValue e.attributes "media-type".toList = MIME_XHTML := by
            intro a2
            simp only [addsXhtml, decide_eq_false_iff_not] at hadd
            exact hadd ⟨a1, a2⟩
          rw [if_neg a2]
          exact ⟨⟨h1, h2⟩, fun hd => (nd hd).elim⟩
        · rw [if_neg a1]
          exact ⟨⟨h1, h2⟩, fun hd => (nd hd).elim⟩
    rw [if_neg r3]
    have nd : deletesXhtml c href (XmlToken.startElement e) = true → False := by
      intro hd
      simp only [deletesXhtml, decide_eq_true_eq] at hd
      apply r3
      rw [hd.1]
      decide
    by_cases r4 : e.name = "validationresult".toList
    · rw [if_pos r4]
      unfold processValidation
      dsimp only
      split
      · exact ⟨⟨h1, h2⟩, fun hd => (nd hd).elim⟩
      · exact ⟨⟨h1, h2⟩, fun hd => (nd hd).elim⟩
    · rw [if_neg r4]
      exact ⟨⟨h1, h2⟩, fun hd => (nd hd).elim⟩

theorem foldl_processToken_ledgerBound (c : Collaborators) (L : Int) (href : QString)
    (ts : List XmlToken) (s : PluginRunner)
    (hadd : ∀ t ∈ ts, addsXhtml t = false)
    (h : ledgerBound L href s) :
    ledgerBound L href (ts.foldl (processToken c) s) ∧
    ((containsKey href s.m_xhtmlFiles = false ∨ ∃ t ∈ ts, deletesXhtml c href t = true) →
      containsKey href (ts.foldl (processToken c) s).m_xhtmlFiles = false) := by
  induction ts generalizing s with
  | nil =>
    refine ⟨h, fun hd => ?_⟩
    rcases hd with hd | ⟨t, ht, _⟩
    · exact hd
    · simp at ht
  | cons t rest ih =>
    obtain ⟨p1, p2⟩ := processToken_ledgerBound c L href s t (hadd t (List.mem_cons_self _ _)) h
    obtain ⟨i1, i2⟩ := ih (processToken c s t) (fun u hu => hadd u (List.mem_cons_of_mem _ hu)) p1
    rw [List.foldl_cons]
    refine ⟨i1, fun hd => i2 ?_⟩
    rcases hd with hd | ⟨u, hu, hud⟩
    · left
      cases t with
      | other => exact hd
      | startElement e =>
        unfold processToken
        dsimp only
        split_ifs
        · exact hd
        · exact hd
        · unfold processChange
          dsimp only
          split_ifs
          · exact containsKey_removeKey_of_false _ _ _ hd
          all_goals exact hd
        · unfold processValidation
          dsimp only
          split <;> exact hd
        · exact hd
    · rcases List.mem_cons.mp hu with e | e
      · left; exact p2 (e ▸ hud)
      · right; exact ⟨u, e, hud⟩

theorem ledger_after_reported_deletion (c : Collaborators) (s : PluginRunner) (href : QString)
    (htracked : containsKey href s.m_xhtmlFiles = true)
    (hadd : ∀ t ∈ (c.xmlRead (parseBuffer s.m_pluginOutput)).tokens, addsXhtml t = false)
    (hdel : ∃ t ∈ (c.xmlRead (parseBuffer s.m_pluginOutput)).tokens, deletesXhtml c href t = true) :
    (processResultXML c s).2.m_xhtml_net_change ≤ s.m_xhtml_net_change - 1 := by
  obtain ⟨⟨_, b2⟩, b3⟩ := foldl_processToken_ledgerBound c s.m_xhtml_net_change href
    (c.xmlRead (parseBuffer s.m_pluginOutput)).tokens
    { s with m_pluginOutput := parseBuffer s.m_pluginOutput } hadd
    ⟨le_refl _, fun hc => by
      have : containsKey href s.m_xhtmlFiles = false := hc
      rw [htracked] at this
      exact absurd this (by decide)⟩
  have key := b2 (b3 (Or.inr hdel))
  unfold processResultXML
  dsimp only
  split_ifs
  · exact key
  · exact key

theorem rejectedByGuard_of_ledger (c : Collaborators) (st st2 st3 : PluginRunner)
    (hundecided : alreadyDecided st = false)
    (hparse : processResultXML c (st.setStatus "Status: finished") = (true, st2))
    (hsuccess : st2.m_result = "success".toList)
    (hgate : checkIsWellFormed c st2 = some (true, st3))
    (hneg : st2.m_xhtml_net_change < 0)
    (hcount : ((st.book.GetResourceListByType ResourceType.HTMLResourceType).length : Int)
      + st2.m_xhtml_net_change ≤ 0) :
    rejectedByGuard c st st3 := by
  obtain ⟨p1, p2⟩ := processResultXML_frame c (st.setStatus "Status: finished")
  rw [hparse] at p1 p2
  obtain ⟨f1, f2, f3⟩ := checkIsWellFormed_frame c st2 st3 true hgate
  have hguard : removesLastXhtml st3 = true := by
    unfold removesLastXhtml
    rw [f1, f3, p1]
    simp only [Bool.and_eq_true, decide_eq_true_eq]
    exact ⟨hneg, hcount⟩
  obtain ⟨s, e1, e2, e3, e4, e5⟩ := gateAndCommit_guard c st2 st3 hgate hguard
  refine ⟨s, ?_, e2, e3.trans p1, e4.trans p2, e5⟩
  unfold pluginFinished
  dsimp only
  rw [hundecided]
  unfold parseAndApply
  rw [hparse]
  simp only [ne_eq, hsuccess, not_true_eq_false, if_false]
  exact e1

/-- What the last-document guard does: in a run that parses without reader error to
the result `success` and passes the well-formedness gate, (1) if the ledger is
negative and the number of HTML resources plus the ledger is at most zero,
`pluginFinished` sets the outcome to `failed`, leaves the book and the tabs as
they were, and logs only the error dialog and the status `No Changes Made` after
the gate, so no applier is entered; (2) this happens when the book has exactly
one content document, the run reports no added content document, and the
Deleted record of that document declares the content media type
`application/xhtml+xml`. A Deleted record that declares another media type is
not covered: the ledger does not count it. -/
theorem last_document_guard_rejects (c : Collaborators) (st st2 st3 : PluginRunner)
    (hundecided : alreadyDecided st = false)
    (hparse : processResultXML c (st.setStatus "Status: finished") = (true, st2))
    (hsuccess : st2.m_result = "success".toList)
    (hgate : checkIsWellFormed c st2 = some (true, st3)) :
    ((st2.m_xhtml_net_change < 0 ∧
        ((st.book.GetResourceListByType ResourceType.HTMLResourceType).length : Int)
          + st2.m_xhtml_net_change ≤ 0) →
      rejectedByGuard c st st3) ∧
    (∀ doc : Resource,
      st.book.GetResourceListByType ResourceType.HTMLResourceType = [doc] →
      containsKey doc.relPath st.m_xhtmlFiles = true →
      st.m_xhtml_net_change = 0 →
      (∀ t ∈ (c.xmlRead (parseBuffer st.m_pluginOutput)).tokens, addsXhtml t = false) →
      (∃ t ∈ (c.xmlRead (parseBuffer st.m_pluginOutput)).tokens,
        deletesXhtml c doc.relPath t = true) →
      rejectedByGuard c st st3 ∧
        ∀ st1, pluginFinished c ExitStatus.NormalExit st = some st1 →
          doc ∈ st1.book.resources) := by
  refine ⟨fun h => rejectedByGuard_of_ledger c st st2 st3 hundecided hparse hsuccess hgate h.1 h.2,
    ?_⟩
  intro doc hdoc htracked hzero hadd hdel
  have hl := ledger_after_reported_deletion c (st.setStatus "Status: finished") doc.relPath
    htracked hadd hdel
  rw [hparse] at hl
  have hl2 : st2.m_xhtml_net_change ≤ -1 := by
    have : (st.setStatus "Status: finished").m_xhtml_net_change = 0 := hzero
    rw [this] at hl
    simpa using hl
  have hr := rejectedByGuard_of_ledger c st st2 st3 hundecided hparse hsuccess hgate
    (by omega) (by rw [hdoc]; simp only [List.length_singleton]; omega)
  refine ⟨hr, ?_⟩
  intro st1 h1
  obtain ⟨s, e1, _, e3, _⟩ := hr
  rw [e1] at h1
  cases h1
  rw [e3]
  have : doc ∈ st.book.GetResourceListByType ResourceType.HTMLResourceType := by
    rw [hdoc]; exact List.mem_singleton_self _
  exact (List.mem_filter.mp this).1

/-- The guard on the EPUB 2 fixture: the only content document is reported deleted
with the content media type and nothing is added; the run fails and the document
is still tracked. -/
theorem last_document_guard_witness :
    ∃ st1, pluginFinished (Fixture.collaborators Fixture.lastDocumentRun) ExitStatus.NormalExit
        (Fixture.runner Fixture.epub2Book) = some st1 ∧
      st1.m_result = "failed".toList ∧ st1.book = Fixture.epub2Book ∧
      Fixture.ch1Res ∈ st1.book.resources := by
  obtain ⟨⟨st1, h1, h2, h3, _, _⟩, h4⟩ :=
    (last_document_guard_rejects (Fixture.collaborators Fixture.lastDocumentRun)
      (Fixture.runner Fixture.epub2Book) _ _ rfl rfl rfl rfl).2 Fixture.ch1Res
      (by decide) (by decide) rfl (by decide) (by decide)
  exact ⟨st1, h1, h2, h3, h4 st1 h1⟩

/-- C2, evaluation at the failing input: the book has exactly one content document,
tracked and with a tab on it; the run reports the result `success`, the deletion
of that document under the media type `text/plain`, and no addition. The parse
leaves the ledger at zero, the gate is passed, the test of the last-document
guard is false, and `pluginFinished` ends with the outcome `success`, not
`failed`: the Deleted record was applied, the document is no longer tracked and
its file is gone, and no content document is left. -/
theorem reported_last_document_not_kept :
    Fixture.epub2Book.GetResourceListByType ResourceType.HTMLResourceType = [Fixture.ch1Res] ∧
    containsKey Fixture.ch1Res.relPath (Fixture.runner Fixture.epub2Book).m_xhtmlFiles = true ∧
    (∀ t ∈ Fixture.mistypedDeleteRun.tokens, addsXhtml t = false) ∧
    ∃ st2 st3 st1,
      processResultXML (Fixture.collaborators Fixture.mistypedDeleteRun)
        ((Fixture.runner Fixture.epub2Book).setStatus "Status: finished") = (true, st2) ∧
      st2.m_result = "success".toList ∧
      st2.m_filesToAdd = [] ∧
      st2.m_filesToDelete
        = [join SEP [Fixture.ch1Res.relPath, "ch1".toList, "text/plain".toList]] ∧
      st2.m_xhtml_net_change = 0 ∧
      checkIsWellFormed (Fixture.collaborators Fixture.mistypedDeleteRun) st2 = some (true, st3) ∧
      removesLastXhtml st3 = false ∧
      pluginFinished (Fixture.collaborators Fixture.mistypedDeleteRun) ExitStatus.NormalExit
        (Fixture.runner Fixture.epub2Book) = some st1 ∧
      st1.m_result = "success".toList ∧
      Effect.RemoveResource Fixture.ch1Res ∈ st1.log ∧
      Effect.ResourceDelete Fixture.ch1Res ∈ st1.log ∧
      Fixture.ch1Res ∉ st1.book.resources ∧
      containsKey "/book/OEBPS/Text/ch1.xhtml".toList Fixture.epub2Book.disk = true ∧
      containsKey "/book/OEBPS/Text/ch1.xhtml".toList st1.book.disk = false ∧
      st1.book.GetResourceListByType ResourceType.HTMLResourceType = [] := by
  refine ⟨by decide, by decide, by decide, _, _, _, rfl, by decide, by decide, by decide,
    by decide, rfl, by decide, rfl, by decide, by decide, by decide, by decide, by decide,
    by decide, by decide⟩

/-- C3, evaluation at two failing inputs. First: the only content document is reported
deleted under the media type `text/plain`; the ledger stays at zero, the guard
passes, the run is committed with outcome `success`, and no HTML resource is
left. Second: a new content document is reported added, then the old one and the
new one are reported deleted, all with the content media type; the deletion of
the new one is not counted because it is not tracked yet when the record is
read, the ledger is zero, and again no HTML resource is left. -/
theorem last_xhtml_removed_by_committed_run :
    (Fixture.epub2Book.GetResourceListByType ResourceType.HTMLResourceType).length = 1 ∧
    (∃ st1, pluginFinished (Fixture.collaborators Fixture.mistypedDeleteRun)
        ExitStatus.NormalExit (Fixture.runner Fixture.epub2Book) = some st1 ∧
      st1.m_result = "success".toList ∧ st1.m_xhtml_net_change = 0 ∧
      st1.book.GetResourceListByType ResourceType.HTMLResourceType = []) ∧
    (∃ st1, pluginFinished (Fixture.collaborators Fixture.addThenDeleteRun)
        ExitStatus.NormalExit (Fixture.runner Fixture.epub2Book) = some st1 ∧
      st1.m_result = "success".toList ∧ st1.m_xhtml_net_change = 0 ∧
      st1.book.GetResourceListByType ResourceType.HTMLResourceType = []) := by
  refine ⟨by decide, ⟨_, rfl, by decide, by decide, by decide⟩,
    ⟨_, rfl, by decide, by decide, by decide⟩⟩

/-- C5, evaluation at the failing input: a Deleted record naming the manifest under the
media type `text/plain` makes `deleteFiles` stop tracking the manifest and remove
its file. -/
theorem manifest_removed_by_mistyped_delete :
    ∃ r, deleteFiles [join SEP ["OEBPS/content.opf".toList, "opf".toList, "text/plain".toList]]
        (Fixture.runner Fixture.epub2Book) = some r ∧
      r.1 = true ∧ Fixture.opfRes ∈ Fixture.epub2Book.resources ∧
      Fixture.opfRes ∉ r.2.book.resources ∧
      containsKey "/book/OEBPS/content.opf".toList Fixture.epub2Book.disk = true ∧
      containsKey "/book/OEBPS/content.opf".toList r.2.book.disk = false := by
  refine ⟨_, rfl, by decide, by decide, by decide, by decide, by decide⟩

/-- C7, evaluation at the failing input: in an EPUB 2 book a Deleted record naming the
NCX under the media type `text/plain` makes `deleteFiles` stop tracking the NCX. -/
theorem ncx_removed_by_mistyped_delete :
    ∃ r, deleteFiles [join SEP ["OEBPS/toc.ncx".toList, "ncx".toList, "text/plain".toList]]
        (Fixture.runner Fixture.epub2Book) = some r ∧
      Fixture.ncxRes ∈ Fixture.epub2Book.resources ∧
      startsWith Fixture.epub2Book.epubVersion ['3'] = false ∧
      Fixture.ncxRes ∉ r.2.book.resources := by
  refine ⟨_, rfl, by decide, by decide, by decide⟩

/-- C10, evaluation at the failing input: for the href `../../x` the path handed to the
raw file removal is `/book/../x`, which still has a parent-directory segment. -/
theorem raw_delete_path_escapes :
    rawDeletePath "/book".toList "../../x".toList = "/book/../x".toList ∧
    "..".toList ∈ split '/' (rawDeletePath "/book".toList "../../x".toList) ∧
    ∃ r, deleteFiles [join SEP ["../../x".toList, [], "text/plain".toList]]
        (Fixture.runner Fixture.epub2Book) = some r ∧
      Effect.SDeleteFile "/book/../x".toList ∈ r.2.log := by
  refine ⟨by decide, by decide, _, rfl, by decide⟩

/-! ## modifyFiles: order of application -/

theorem modifyOne_frame (st : PluginRunner) (href : QString) :
    (modifyOne st href).m_bookRoot = st.m_bookRoot ∧
    (modifyOne st href).log = st.log ++
      [Effect.setStatus ("Status: modifying".toList ++ " ".toList
          ++ fileName (st.m_bookRoot ++ "/".toList ++ href)),
       Effect.ForceCopyFile (st.m_outputDir ++ "/".toList ++ href)
          (st.m_bookRoot ++ "/".toList ++ href)] := by
  have hl : ∀ (l : List Effect) (a b : Effect), (l ++ [a]) ++ [b] = l ++ [a, b] := by
    intro l a b; simp
  unfold modifyOne
  dsimp only
  split
  · exact ⟨rfl, hl _ _ _⟩
  · split_ifs <;> exact ⟨rfl, hl _ _ _⟩

theorem copiedTo_append (l1 l2 : List Effect) : copiedTo (l1 ++ l2) = copiedTo l1 ++ copiedTo l2 := by
  unfold copiedTo
  exact List.filterMap_append _ _ _

theorem modifyLoop_copies (files : List QString) (st : PluginRunner)
    (hf : ∀ f ∈ files, (fields f).isSome = true) :
    ∃ st1, modifyLoop files st = some st1 ∧ st1.m_bookRoot = st.m_bookRoot ∧
      copiedTo st1.log = copiedTo st.log ++
        files.map (fun f => st.m_bookRoot ++ "/".toList ++ hrefOf f) := by
  induction files generalizing st with
  | nil => exact ⟨st, rfl, rfl, by simp⟩
  | cons f rest ih =>
    have hfs := hf f (List.mem_cons_self _ _)
    obtain ⟨⟨href, id, mime⟩, hfe⟩ := Option.isSome_iff_exists.mp hfs
    obtain ⟨m1, m2⟩ := modifyOne_frame st href
    obtain ⟨st1, e1, e2, e3⟩ := ih (modifyOne st href) (fun g hg => hf g (List.mem_cons_of_mem _ hg))
    refine ⟨st1, ?_, e2.trans m1, ?_⟩
    · rw [modifyLoop, hfe]
      exact e1
    · rw [e3, m2, m1, copiedTo_append]
      have : hrefOf f = href := by simp [hrefOf, hfe]
      simp [copiedTo, this]

theorem foldl_rearrangeStep (o n : QString) (files : List QString)
    (acc : List QString × QString × QString) :
    files.foldl (rearrangeStep o n) acc =
      (acc.1 ++ files.filter (fun f => decide (f ≠ o ∧ f ≠ n)),
       if o ∈ files then o else acc.2.1,
       if n ∈ files ∧ n ≠ o then n else acc.2.2) := by
  induction files generalizing acc with
  | nil => simp
  | cons f rest ih =>
    rw [List.foldl_cons, ih]
    unfold rearrangeStep
    by_cases h1 : f = o
    · subst h1
      by_cases h2 : n = f
      · subst h2; simp
      · by_cases h3 : n ∈ rest <;> simp [h2, h3]
    · by_cases h2 : f = n
      · subst h2
        have h1b : ¬ o = f := fun h => h1 h.symm
        by_cases h3 : o ∈ rest <;> simp [h1, h1b, h3]
      · have h1b : ¬ o = f := fun h => h1 h.symm
        have h2b : ¬ n = f := fun h => h2 h.symm
        simp [h1, h2, h1b, h2b]

theorem rearrange_eq (o n : QString) (ho : o ≠ []) (hn : n ≠ []) (files : List QString) :
    rearrange o n files = manifestLast o n files := by
  unfold rearrange manifestLast
  rw [foldl_rearrangeStep]
  dsimp only
  by_cases h1 : o ∈ files <;> by_cases h2 : n ∈ files ∧ n ≠ o <;> simp [h1, h2, ho, hn]

theorem OPFFILEINFO_ne_nil (b : Book) : OPFFILEINFO b ≠ [] := by
  unfold OPFFILEINFO
  intro h
  have := congrArg List.length h
  simp [SEP, MIME_OPF] at this

theorem NCXFILEINFO_ne_nil (b : Book) : NCXFILEINFO b ≠ [] := by
  unfold NCXFILEINFO
  cases b.ncx with
  | none => decide
  | some r =>
    intro h
    have := congrArg List.length h
    simp [SEP, MIME_NCX] at this

/-- The order of application in `modifyFiles`: it returns, and the files it copies are, in
order, the
records other than the manifest record (manifest path, empty id, manifest media
type) and the NCX record (NCX path, empty id, NCX media type) in reported order,
then the manifest record if it was reported, then the NCX record if it was
reported: these two records are applied strictly after every other record. -/
theorem modifyFiles_manifest_record_last (files : List QString) (st : PluginRunner)
    (hf : ∀ f ∈ files, (fields f).isSome = true) :
    ∃ st1, modifyFiles files st = some (true, st1) ∧
      copiedTo st1.log = copiedTo st.log ++
        (manifestLast (OPFFILEINFO st.book) (NCXFILEINFO st.book) files).map
          (fun f => st.m_bookRoot ++ "/".toList ++ hrefOf f) := by
  have hmem : ∀ f ∈ manifestLast (OPFFILEINFO st.book) (NCXFILEINFO st.book) files,
      (fields f).isSome = true := by
    intro f hfm
    apply hf
    unfold manifestLast at hfm
    simp only [List.mem_append, List.mem_filter] at hfm
    rcases hfm with (h | h) | h
    · exact h.1
    · split_ifs at h with h1
      · simp only [List.mem_singleton] at h; exact h ▸ h1
      · simp at h
    · split_ifs at h with h1
      · simp only [List.mem_singleton] at h; exact h ▸ h1.1
      · simp at h
  obtain ⟨st1, e1, _, e3⟩ := modifyLoop_copies _
    (st.setStatus "Status: cleaning up - modifying files") hmem
  refine ⟨st1, ?_, ?_⟩
  · unfold modifyFiles
    dsimp only
    rw [show (st.setStatus "Status: cleaning up - modifying files").book = st.book from rfl,
      rearrange_eq _ _ (OPFFILEINFO_ne_nil _) (NCXFILEINFO_ne_nil _), e1]
    rfl
  · rw [e3]
    congr 1
    rw [show (st.setStatus "Status: cleaning up - modifying files").log
        = st.log ++ [Effect.setStatus "Status: cleaning up - modifying files".toList] from rfl,
      copiedTo_append]
    simp [copiedTo]

/-- The manifest record with empty id, reported first, is applied last. -/
theorem modifyFiles_manifest_record_last_example :
    ∃ st1, modifyFiles [OPFFILEINFO Fixture.epub2Book,
        join SEP ["OEBPS/Text/ch1.xhtml".toList, "ch1".toList, MIME_XHTML]]
        (Fixture.runner Fixture.epub2Book) = some (true, st1) ∧
      copiedTo st1.log = ["/book/OEBPS/Text/ch1.xhtml".toList, "/book/OEBPS/content.opf".toList] := by
  obtain ⟨st1, h1, h2⟩ := modifyFiles_manifest_record_last
    [OPFFILEINFO Fixture.epub2Book,
      join SEP ["OEBPS/Text/ch1.xhtml".toList, "ch1".toList, MIME_XHTML]]
    (Fixture.runner Fixture.epub2Book) (by decide)
  exact ⟨st1, h1, h2.trans (by decide)⟩

/-- C4, evaluation at the failing input: a Modified record naming the manifest with the
id `opf` and the manifest media type is applied before the record of a content
document reported after it. -/
theorem manifest_record_with_id_not_last :
    ∃ st1, modifyFiles [join SEP ["OEBPS/content.opf".toList, "opf".toList, MIME_OPF],
        join SEP ["OEBPS/Text/ch1.xhtml".toList, "ch1".toList, MIME_XHTML]]
        (Fixture.runner Fixture.epub2Book) = some (true, st1) ∧
      Fixture.epub2Book.opf.relPath = "OEBPS/content.opf".toList ∧
      copiedTo st1.log = ["/book/OEBPS/content.opf".toList, "/book/OEBPS/Text/ch1.xhtml".toList] := by
  exact ⟨_, rfl, by decide, by decide⟩

/-! ## deleteFiles and addFiles: protected resources -/

/-- C6: a Deleted record whose media type is the manifest type and whose href is the
manifest path, which the runner tracks, is skipped: the loop body returns its
argument (state and `changes_made`), the loop goes on with the rest, and a call
with this record alone returns `false` with the book unchanged and the manifest
still tracked. -/
theorem deleteFiles_skips_manifest_record (tabResources : List Resource)
    (fileinfo id : QString) (rest : List QString) (st : PluginRunner) (changes_made : Bool)
    (hfields : fields fileinfo = some (st.book.opf.relPath, id, MIME_OPF))
    (htracked : containsKey st.book.opf.relPath st.m_hrefToRes = true) :
    deleteOne tabResources (changes_made, st) st.book.opf.relPath MIME_OPF = (changes_made, st) ∧
    deleteLoop tabResources (fileinfo :: rest) (changes_made, st)
      = deleteLoop tabResources rest (changes_made, st) ∧
    deleteFiles [fileinfo] st
      = some (false, st.setStatus "Status: cleaning up - deleting files") ∧
    (st.book.opf ∈ st.book.resources →
      ∀ r, deleteFiles [fileinfo] st = some r → r.2.book = st.book ∧ st.book.opf ∈ r.2.book.resources) := by
  have hc : ∀ (tabs : List Resource) (s : PluginRunner), s.m_hrefToRes = st.m_hrefToRes →
      ∀ b, deleteOne tabs (b, s) st.book.opf.relPath MIME_OPF = (b, s) := by
    intro tabs s hs b
    unfold deleteOne
    dsimp only
    rw [if_pos]
    refine ⟨rfl, ?_⟩
    rw [hs]
    exact htracked
  have h3 : deleteFiles [fileinfo] st
      = some (false, st.setStatus "Status: cleaning up - deleting files") := by
    unfold deleteFiles
    dsimp only
    rw [deleteLoop, hfields]
    dsimp only
    rw [hc st.tabs (st.setStatus "Status: cleaning up - deleting files") rfl false, deleteLoop]
    rfl
  refine ⟨hc _ st rfl _, ?_, h3, ?_⟩
  · rw [deleteLoop, hfields]
    dsimp only
    rw [hc _ st rfl]
  · intro hmem r hr
    rw [h3] at hr
    cases hr
    exact ⟨rfl, hmem⟩

/-- Witness of C6 on the EPUB 3 fixture. -/
theorem deleteFiles_skips_manifest_record_witness :
    deleteFiles [join SEP ["OEBPS/content.opf".toList, "opf".toList, MIME_OPF]]
        (Fixture.runner Fixture.epub3Book)
      = some (false, (Fixture.runner Fixture.epub3Book).setStatus
          "Status: cleaning up - deleting files") :=
  (deleteFiles_skips_manifest_record [] _ "opf".toList [] (Fixture.runner Fixture.epub3Book)
    false (by decide) (by decide)).2.2.1

theorem mem_RemoveResource (b : Book) (r n : Resource) (hn : n ∈ b.resources)
    (hne : r.ptr ≠ n.ptr) : n ∈ (b.RemoveResource r).resources := by
  unfold Book.RemoveResource
  simp only [List.mem_filter, decide_eq_true_eq]
  exact ⟨hn, fun h => hne h.symm⟩

theorem DeleteResource_frame (b : Book) (root : QString) (r : Resource) :
    (b.DeleteResource root r).resources = b.resources ∧ (b.DeleteResource root r).nav = b.nav ∧
    (b.DeleteResource root r).ncx = b.ncx ∧ (b.DeleteResource root r).opf = b.opf := by
  unfold Book.DeleteResource Book.SDeleteFile
  split_ifs <;> exact ⟨rfl, rfl, rfl, rfl⟩

theorem SDeleteFile_frame (b : Book) (path : QString) :
    (b.SDeleteFile path).2.resources = b.resources ∧ (b.SDeleteFile path).2.nav = b.nav ∧
    (b.SDeleteFile path).2.ncx = b.ncx ∧ (b.SDeleteFile path).2.opf = b.opf := by
  unfold Book.SDeleteFile
  split_ifs <;> exact ⟨rfl, rfl, rfl, rfl⟩

theorem deleteNCX_navProtected (n : Resource) (acc : Bool × PluginRunner)
    (h : navProtected n acc.2.book) : navProtected n (deleteNCX acc).2.book := by
  unfold deleteNCX
  dsimp only
  split
  · rename_i x hx
    split_ifs
    · obtain ⟨h1, h2, h3⟩ := h
      obtain ⟨d1, d2, d3, _⟩ := DeleteResource_frame
        ((acc.2.book.RemoveNCXOnSpine).RemoveNCXFromFolder) acc.2.m_bookRoot x
      have hr : (acc.2.book.RemoveNCXOnSpine).RemoveNCXFromFolder
          = { (acc.2.book.RemoveNCXOnSpine).RemoveResource x with ncx := none } := by
        unfold Book.RemoveNCXFromFolder
        rw [show (acc.2.book.RemoveNCXOnSpine).ncx = some x from hx]
      refine ⟨?_, ?_, ?_⟩
      · show (Book.DeleteResource _ _ _).nav = _
        rw [d2, hr]; exact h1
      · show n ∈ (Book.DeleteResource _ _ _).resources
        rw [d1, hr]
        exact mem_RemoveResource (acc.2.book.RemoveNCXOnSpine) x n h2 (h3 x hx)
      · intro y hy
        have : (Book.DeleteResource ((acc.2.book.RemoveNCXOnSpine).RemoveNCXFromFolder)
            acc.2.m_bookRoot x).ncx = some y := hy
        rw [d3, hr] at this
        exact absurd this (by simp)
    · exact h
  · exact h

theorem deleteOne_navProtected (n : Resource) (tabResources : List Resource)
    (acc : Bool × PluginRunner) (href mime : QString)
    (h : navProtected n acc.2.book) :
    navProtected n (deleteOne tabResources acc href mime).2.book := by
  unfold deleteOne
  dsimp only
  split_ifs
  · exact h
  · exact deleteNCX_navProtected n acc h
  · split
    · rename_i r hr
      split_ifs with hnav
      · exact h
      · obtain ⟨h1, h2, h3⟩ := h
        have hne : r.ptr ≠ n.ptr := by
          intro he
          apply hnav
          rw [h1]
          simp [he]
        unfold deleteResource
        dsimp only
        have key : ∀ (b : Book) (root : QString), b = acc.2.book →
            navProtected n ((b.RemoveResource r).DeleteResource root r) := by
          intro b root hb
          obtain ⟨d1, d2, d3, _⟩ := DeleteResource_frame (b.RemoveResource r) root r
          refine ⟨?_, ?_, ?_⟩
          · rw [d2, hb]; exact h1
          · rw [d1]; exact mem_RemoveResource b r n (hb ▸ h2) hne
          · intro y hy; rw [d3, hb] at hy; exact h3 y hy
        split_ifs
        · exact key _ _ rfl
        · exact key _ _ rfl
    · obtain ⟨h1, h2, h3⟩ := h
      obtain ⟨d1, d2, d3, _⟩ := SDeleteFile_frame acc.2.book (rawDeletePath acc.2.m_bookRoot href)
      refine ⟨?_, ?_, ?_⟩
      · show (Book.SDeleteFile _ _).2.nav = _
        rw [d2]; exact h1
      · show n ∈ (Book.SDeleteFile _ _).2.resources
        rw [d1]; exact h2
      · intro y hy
        have : (Book.SDeleteFile acc.2.book (rawDeletePath acc.2.m_bookRoot href)).2.ncx = some y := hy
        rw [d3] at this
        exact h3 y this

theorem deleteLoop_navProtected (n : Resource) (tabResources : List Resource)
    (files : List QString) (acc : Bool × PluginRunner)
    (hf : ∀ f ∈ files, (fields f).isSome = true)
    (h : navProtected n acc.2.book) :
    ∃ r, deleteLoop tabResources files acc = some r ∧ navProtected n r.2.book := by
  induction files generalizing acc with
  | nil => exact ⟨acc, rfl, h⟩
  | cons f rest ih =>
    obtain ⟨⟨href, id, mime⟩, hfe⟩ := Option.isSome_iff_exists.mp (hf f (List.mem_cons_self _ _))
    obtain ⟨r, e1, e2⟩ := ih (deleteOne tabResources acc href mime)
      (fun g hg => hf g (List.mem_cons_of_mem _ hg))
      (deleteOne_navProtected n tabResources acc href mime h)
    refine ⟨r, ?_, e2⟩
    rw [deleteLoop, hfe]
    exact e1

/-- C9: for every list of Deleted records, `deleteFiles` returns and the resource that is
the navigation document is still tracked and still designated. The navigation
document is tracked at the start and is not the NCX object. -/
theorem deleteFiles_keeps_navigation_document (files : List QString) (st : PluginRunner)
    (n : Resource)
    (hf : ∀ f ∈ files, (fields f).isSome = true)
    (hnav : st.book.nav = some n)
    (htracked : n ∈ st.book.resources)
    (hncx : ∀ x, st.book.ncx = some x → x.ptr ≠ n.ptr) :
    ∃ r, deleteFiles files st = some r ∧ n ∈ r.2.book.resources ∧ r.2.book.nav = some n := by
  obtain ⟨r, e1, e2, e3, _⟩ := deleteLoop_navProtected n st.tabs files
    (false, st.setStatus "Status: cleaning up - deleting files") hf ⟨hnav, htracked, hncx⟩
  unfold deleteFiles
  dsimp only
  rw [e1]
  by_cases hr : r.1 = true
  · exact ⟨(true, r.2.emit Effect.ResourcesDeleted),
      by simp only [Option.map_some', if_pos hr], e3, e2⟩
  · exact ⟨r, by simp only [Option.map_some', if_neg hr], e3, e2⟩

/-- Witness of C9: three records naming the navigation document under different media
types leave it tracked. -/
theorem deleteFiles_keeps_navigation_document_witness :
    ∃ r, deleteFiles
        [join SEP ["OEBPS/Text/nav.xhtml".toList, "nav".toList, MIME_XHTML],
         join SEP ["OEBPS/Text/nav.xhtml".toList, "nav".toList, MIME_NCX],
         join SEP ["OEBPS/Text/nav.xhtml".toList, "nav".toList, "text/plain".toList]]
        (Fixture.runner Fixture.epub3Book) = some r ∧
      Fixture.navRes ∈ r.2.book.resources ∧ r.2.book.nav = some Fixture.navRes :=
  deleteFiles_keeps_navigation_document _ (Fixture.runner Fixture.epub3Book) Fixture.navRes
    (by decide) rfl (by decide) (by decide)

/-! ## Records joined by processResultXML can be split again -/

theorem split_ne_nil (c : Char) (s : QString) : split c s ≠ [] := by
  cases s with
  | nil => simp [split]
  | cons a rest =>
    unfold split
    split_ifs
    · simp
    · split <;> simp

theorem split_cons_sep (c : Char) (s : QString) : split c (c :: s) = [] :: split c s := by
  rw [split, if_pos rfl]

theorem split_cons_other (c x : Char) (s : QString) (hx : x ≠ c) :
    (split c (x :: s)).length = (split c s).length := by
  have h := split_ne_nil c s
  rw [split, if_neg hx]
  cases hs : split c s with
  | nil => exact absurd hs h
  | cons f fs => rfl

theorem split_length_append (c : Char) (a b : QString) :
    (split c (a ++ c :: b)).length = (split c a).length + (split c b).length := by
  induction a with
  | nil =>
    rw [List.nil_append, split_cons_sep]
    simp [split]
    omega
  | cons x rest ih =>
    rw [List.cons_append]
    by_cases hx : x = c
    · subst hx
      rw [split_cons_sep, split_cons_sep, List.length_cons, List.length_cons, ih]
      omega
    · rw [split_cons_other c x _ hx, split_cons_other c x _ hx, ih]

theorem fields_join_isSome (href id mime : QString) :
    (fields (join SEP [href, id, mime])).isSome = true := by
  have h1 := split_ne_nil SEPchar href
  have h2 := split_ne_nil SEPchar id
  have h3 := split_ne_nil SEPchar mime
  have hlen : 3 ≤ (split SEPchar (join SEP [href, id, mime])).length := by
    have e : join SEP [href, id, mime] = href ++ SEPchar :: (id ++ SEPchar :: mime) := by
      simp [join, SEP]
    rw [e, split_length_append, split_length_append]
    have := List.length_pos.mpr h1
    have := List.length_pos.mpr h2
    have := List.length_pos.mpr h3
    omega
  unfold fields
  dsimp only
  generalize split SEPchar (join SEP [href, id, mime]) = l at hlen
  match l, hlen with
  | a :: b :: c :: rest, _ => rfl

/-! ## The href table built by the constructor -/

theorem containsKey_insertKey {β : Type} (k k2 : QString) (v : β) (m : List (QString × β))
    (h : k = k2 ∨ containsKey k m = true) : containsKey k (insertKey k2 v m) = true := by
  induction m with
  | nil =>
    rcases h with h | h
    · subst h; simp [insertKey, containsKey, lookupKey]
    · simp [containsKey, lookupKey] at h
  | cons p rest ih =>
    obtain ⟨k1, v1⟩ := p
    unfold insertKey
    by_cases e : k1 = k2
    · rw [if_pos e]
      rcases h with h | h
      · subst h; simp [containsKey, lookupKey]
      · by_cases e2 : k2 = k
        · simp [containsKey, lookupKey, e2]
        · have e3 : ¬ k1 = k := fun x => e2 (e ▸ x)
          simp only [containsKey, lookupKey, if_neg e3, if_neg e2] at h ⊢
          exact h
    · rw [if_neg e]
      by_cases e2 : k1 = k
      · simp [containsKey, lookupKey, e2]
      · simp only [containsKey, lookupKey, if_neg e2] at h ⊢
        exact ih h

theorem foldl_hashStep_tracks (rs : List Resource)
    (acc : List (QString × Resource) × List (QString × Resource)) (k : QString)
    (h : containsKey k acc.2 = true ∨ ∃ r ∈ rs, r.relPath = k) :
    containsKey k (rs.foldl hashStep acc).2 = true := by
  induction rs generalizing acc with
  | nil =>
    rcases h with h | ⟨r, hr, _⟩
    · exact h
    · simp at hr
  | cons x rest ih =>
    rw [List.foldl_cons]
    apply ih
    rcases h with h | ⟨r, hr, hk⟩
    · exact Or.inl (containsKey_insertKey k x.relPath x acc.2 (Or.inr h))
    · rcases List.mem_cons.mp hr with e | e
      · subst e
        exact Or.inl (containsKey_insertKey k r.relPath r acc.2 (Or.inl hk.symm))
      · exact Or.inr ⟨r, e, hk⟩

theorem construct_tracks (book : Book) (tabs : List Resource)
    (outputDir pluginType autoClose bookRoot : QString) (r : Resource)
    (hr : r ∈ book.resources) :
    containsKey r.relPath
      (PluginRunner.construct book tabs outputDir pluginType autoClose bookRoot).m_hrefToRes
      = true :=
  foldl_hashStep_tracks book.resources ([], []) r.relPath (Or.inr ⟨r, hr, rfl⟩)

/-! ## The buffer handed to the reader -/

theorem indexOfAux_none (pat : QString) (s : QString) (pos : Nat)
    (h : indexOfAux pat s pos = none) : ∀ i, ¬ occursAt pat s i := by
  induction s generalizing pos with
  | nil =>
    intro i hi
    have hi0 : i = 0 := by have := hi.1; simpa using this
    subst hi0
    unfold indexOfAux at h
    split_ifs at h with hp
    have := hi.2
    simp [startsWith] at this
    exact hp this
  | cons c cs ih =>
    unfold indexOfAux at h
    split_ifs at h with hs
    intro i hi
    cases i with
    | zero => exact hs hi.2
    | succ j =>
      apply ih (pos + 1) h j
      exact ⟨by have := hi.1; simpa using this, by simpa using hi.2⟩

theorem indexOfAux_some (pat : QString) (s : QString) (pos q : Nat)
    (h : indexOfAux pat s pos = some q) :
    ∃ i, q = pos + i ∧ occursAt pat s i ∧ ∀ j, j < i → ¬ occursAt pat s j := by
  induction s generalizing pos with
  | nil =>
    unfold indexOfAux at h
    split_ifs at h with hp
    cases h
    refine ⟨0, rfl, ⟨le_refl _, by subst hp; simp [startsWith]⟩, fun j hj => absurd hj (by omega)⟩
  | cons c cs ih =>
    unfold indexOfAux at h
    split_ifs at h with hs
    · cases h
      exact ⟨0, rfl, ⟨Nat.zero_le _, hs⟩, fun j hj => absurd hj (by omega)⟩
    · obtain ⟨i, e1, e2, e3⟩ := ih (pos + 1) h
      refine ⟨i + 1, by omega, ⟨by have := e2.1; simp; omega, by simpa using e2.2⟩, ?_⟩
      intro j hj hocc
      cases j with
      | zero => exact hs hocc.2
      | succ k =>
        apply e3 k (by omega)
        exact ⟨by have := hocc.1; simpa using this, by simpa using hocc.2⟩

theorem occursAt_drop (pat s : QString) (p i : Nat) (hp : p ≤ s.length) :
    occursAt pat (s.drop p) i ↔ occursAt pat s (p + i) := by
  unfold occursAt
  rw [List.drop_drop, List.length_drop]
  constructor
  · rintro ⟨h1, h2⟩; exact ⟨by omega, h2⟩
  · rintro ⟨h1, h2⟩; exact ⟨by omega, h2⟩

theorem indexOf_none (pat s : QString) (start : Nat) (h : indexOf pat s start = none) :
    ∀ i, start ≤ i → ¬ occursAt pat s i := by
  intro i hi hocc
  unfold indexOf at h
  split_ifs at h with hl
  · have := hocc.1; omega
  · have := indexOfAux_none pat (s.drop start) start h (i - start)
    apply this
    rw [occursAt_drop pat s start (i - start) (by omega)]
    rwa [Nat.add_sub_cancel' hi]

theorem indexOf_some (pat s : QString) (start q : Nat) (h : indexOf pat s start = some q) :
    start ≤ q ∧ occursAt pat s q ∧ ∀ j, start ≤ j → j < q → ¬ occursAt pat s j := by
  unfold indexOf at h
  split_ifs at h with hl
  obtain ⟨i, e1, e2, e3⟩ := indexOfAux_some pat (s.drop start) start q h
  subst e1
  refine ⟨by omega, (occursAt_drop pat s start i (by omega)).mp e2, ?_⟩
  intro j hj1 hj2 hocc
  apply e3 (j - start) (by omega)
  rw [occursAt_drop pat s start (j - start) (by omega)]
  rwa [Nat.add_sub_cancel' hj1]

theorem dropLeadingOutput_spec (fuel : Nat) (buf : QString) (p : Nat)
    (hocc : occursAt XMLDECL buf p) (hfuel : buf.length - p + 1 ≤ fuel) :
    ∃ q, p ≤ q ∧ occursAt XMLDECL buf q ∧ (∀ j, q < j → ¬ occursAt XMLDECL buf j) ∧
      dropLeadingOutput fuel buf (some p) = buf.drop q := by
  induction fuel generalizing buf p with
  | zero => omega
  | succ fuel ih =>
    rw [dropLeadingOutput]
    cases hnext : indexOf XMLDECL (buf.drop p) 1 with
    | none =>
      refine ⟨p, le_refl _, hocc, ?_, ?_⟩
      · intro j hj hoj
        have := indexOf_none XMLDECL (buf.drop p) 1 hnext (j - p) (by omega)
        apply this
        rw [occursAt_drop XMLDECL buf p (j - p) hocc.1, Nat.add_sub_cancel' (by omega)]
        exact hoj
      · cases fuel <;> rfl
    | some i =>
      obtain ⟨h1, h2, _⟩ := indexOf_some XMLDECL (buf.drop p) 1 i hnext
      have hlen : i ≤ (buf.drop p).length := h2.1
      rw [List.length_drop] at hlen
      obtain ⟨q, e1, e2, e3, e4⟩ := ih (buf.drop p) i h2
        (by rw [List.length_drop]; have := hocc.1; omega)
      refine ⟨p + q, by omega, (occursAt_drop XMLDECL buf p q hocc.1).mp e2, ?_, ?_⟩
      · intro j hj hoj
        apply e3 (j - p) (by omega)
        rw [occursAt_drop XMLDECL buf p (j - p) hocc.1, Nat.add_sub_cancel' (by omega)]
        exact hoj
      · rw [e4, List.drop_drop]

/-- C14: the loop at the head of `processResultXML` ends: with any fuel of at least the
length of the output plus one it returns the same buffer, and a further search
from index 1 in that buffer finds nothing. The buffer is the output itself when
`<?xml ` does not occur in it, and otherwise the suffix of the output that starts
at the last position where `<?xml ` occurs. -/
theorem parseBuffer_last_declaration (output : QString) :
    ((∀ i, ¬ occursAt XMLDECL output i) → parseBuffer output = output) ∧
    ((∃ i, occursAt XMLDECL output i) →
      ∃ q, occursAt XMLDECL output q ∧ (∀ j, q < j → ¬ occursAt XMLDECL output j) ∧
        parseBuffer output = output.drop q) ∧
    (∀ fuel, output.length + 1 ≤ fuel →
      dropLeadingOutput fuel output (indexOf XMLDECL output 0) = parseBuffer output) ∧
    indexOf XMLDECL (parseBuffer output) 1 = none := by
  have key : ∀ fuel, output.length + 1 ≤ fuel →
      (indexOf XMLDECL output 0 = none ∧
        dropLeadingOutput fuel output (indexOf XMLDECL output 0) = output) ∨
      (∃ q, occursAt XMLDECL output q ∧ (∀ j, q < j → ¬ occursAt XMLDECL output j) ∧
        dropLeadingOutput fuel output (indexOf XMLDECL output 0) = output.drop q) := by
    intro fuel hfuel
    cases h0 : indexOf XMLDECL output 0 with
    | none =>
      left
      refine ⟨rfl, ?_⟩
      cases fuel <;> rfl
    | some p =>
      right
      obtain ⟨_, h2, _⟩ := indexOf_some XMLDECL output 0 p h0
      obtain ⟨q, _, e2, e3, e4⟩ := dropLeadingOutput_spec fuel output p h2 (by omega)
      exact ⟨q, e2, e3, e4⟩
  have hpb := key (output.length + 1) (le_refl _)
  refine ⟨?_, ?_, ?_, ?_⟩
  · intro hno
    rcases hpb with ⟨_, h⟩ | ⟨q, hq, _⟩
    · exact h
    · exact absurd hq (hno q)
  · rintro ⟨i, hi⟩
    rcases hpb with ⟨h, _⟩ | h
    · exact absurd hi (indexOf_none XMLDECL output 0 h i (Nat.zero_le _))
    · exact h
  · intro fuel hfuel
    rcases key fuel hfuel with ⟨h1, h2⟩ | ⟨q, hq, hlast, h2⟩
    · rcases hpb with ⟨_, h3⟩ | ⟨q, hq, _⟩
      · rw [h2]; exact h3.symm
      · exact absurd hq (indexOf_none XMLDECL output 0 h1 q (Nat.zero_le _))
    · rcases hpb with ⟨h1, _⟩ | ⟨q2, hq2, hlast2, h3⟩
      · exact absurd hq (indexOf_none XMLDECL output 0 h1 q (Nat.zero_le _))
      · have : q = q2 := by
          by_contra hne
          rcases Nat.lt_or_gt_of_ne hne with hlt | hgt
          · exact hlast q2 hlt hq2
          · exact hlast2 q hgt hq
        rw [h2, this]; exact h3.symm
  · rcases hpb with ⟨h1, h2⟩ | ⟨q, hq, hlast, h2⟩
    · show indexOf XMLDECL (parseBuffer output) 1 = none
      have hpo : parseBuffer output = output := h2
      rw [hpo]
      cases h : indexOf XMLDECL output 1 with
      | none => rfl
      | some r =>
        obtain ⟨_, hr, _⟩ := indexOf_some XMLDECL output 1 r h
        exact absurd hr (indexOf_none XMLDECL output 0 h1 r (Nat.zero_le _))
    · have hpo : parseBuffer output = output.drop q := h2
      rw [hpo]
      cases h : indexOf XMLDECL (output.drop q) 1 with
      | none => rfl
      | some r =>
        obtain ⟨hr1, hr, _⟩ := indexOf_some XMLDECL (output.drop q) 1 r h
        have := (occursAt_drop XMLDECL output q r hq.1).mp hr
        exact absurd this (hlast (q + r) (by omega))

/-- Witness of C14: the output holds two declarations after some printed text; the buffer
starts at the second. -/
theorem parseBuffer_last_declaration_witness :
    ∃ q, occursAt XMLDECL "print<?xml a?><?xml b?>".toList q ∧
      parseBuffer "print<?xml a?><?xml b?>".toList = ("print<?xml a?><?xml b?>".toList).drop q ∧
      parseBuffer "print<?xml a?><?xml b?>".toList = "<?xml b?>".toList := by
  obtain ⟨q, h1, _, h3⟩ :=
    (parseBuffer_last_declaration "print<?xml a?><?xml b?>".toList).2.1
      ⟨5, by decide, by decide⟩
  exact ⟨q, h1, h3, by decide⟩

/-! ## The ledger and the diagnostics after parsing -/

theorem processToken_ledger (c : Collaborators) (s : PluginRunner) (t : XmlToken) :
    (processToken c s t).m_xhtml_net_change = s.m_xhtml_net_change
      + (if addsXhtml t then 1 else 0) - (if deletesTrackedXhtml c (s, t) then 1 else 0) := by
  cases t with
  | other => simp [processToken, addsXhtml, deletesTrackedXhtml]
  | startElement e =>
    unfold processToken
    dsimp only
    by_cases r1 : e.name = "result".toList
    · rw [if_pos r1]
      have a : addsXhtml (XmlToken.startElement e) = false := by
        simp only [addsXhtml, decide_eq_false_iff_not, r1]
        intro h; exact absurd h.1 (by decide)
      have d : deletesTrackedXhtml c (s, XmlToken.startElement e) = false := by
        simp only [deletesTrackedXhtml, r1, Bool.and_eq_false_imp, decide_eq_true_eq]
        intro h; exact absurd h.1 (by decide)
      rw [a, d]; simp
    rw [if_neg r1]
    by_cases r2 : e.name = "msg".toList
    · rw [if_pos r2]
      have a : addsXhtml (XmlToken.startElement e) = false := by
        simp only [addsXhtml, decide_eq_false_iff_not, r2]
        intro h; exact absurd h.1 (by decide)
      have d : deletesTrackedXhtml c (s, XmlToken.startElement e) = false := by
        simp only [deletesTrackedXhtml, r2, Bool.and_eq_false_imp, decide_eq_true_eq]
        intro h; exact absurd h.1 (by decide)
      rw [a, d]; simp
    rw [if_neg r2]
    by_cases r3 : e.name ∈ CHANGESTAGS
    · rw [if_pos r3]
      unfold processChange
      dsimp only
      by_cases d1 : e.name = "deleted".toList
      · rw [if_pos d1]
        have a : addsXhtml (XmlToken.startElement e) = false := by
          simp only [addsXhtml, decide_eq_false_iff_not, d1]
          intro h; exact absurd h.1 (by decide)
        rw [a]
        by_cases d2 : attrValue e.attributes "media-type".toList = MIME_XHTML
        · rw [if_pos d2]
          by_cases d3 : containsKey (c.URLDecodePath (attrValue e.attributes "href".toList))
              s.m_xhtmlFiles = true
          · rw [if_pos d3]
            have d : deletesTrackedXhtml c (s, XmlToken.startElement e) = true := by
              simp only [deletesTrackedXhtml, d1, d2, d3, and_self, decide_True, Bool.and_self]
            rw [d]
            show s.m_xhtml_net_change - 1 = _
            simp
          · rw [if_neg d3]
            have d : deletesTrackedXhtml c (s, XmlToken.startElement e) = false := by
              simp only [deletesTrackedXhtml, Bool.and_eq_false_imp]
              intro _
              simpa using d3
            rw [d]
            show s.m_xhtml_net_change = _
            simp
        · rw [if_neg d2]
          have d : deletesTrackedXhtml c (s, XmlToken.startElement e) = false := by
            simp only [deletesTrackedXhtml, Bool.and_eq_false_imp, decide_eq_true_eq]
            intro h; exact absurd h.2 d2
          rw [d]
          show s.m_xhtml_net_change = _
          simp
      · rw [if_neg d1]
        have d : deletesTrackedXhtml c (s, XmlToken.startElement e) = false := by
          simp only [deletesTrackedXhtml, Bool.and_eq_false_imp, decide_eq_true_eq]
          intro h; exact absurd h.1 d1
        rw [d]
        by_cases a1 : e.name = "added".toList
        · rw [if_pos a1]
          by_cases a2 : attrValue e.attributes "media-type".toList = MIME_XHTML
          · rw [if_pos a2]
            have a : addsXhtml (XmlToken.startElement e) = true := by
              simp only [addsXhtml, a1, a2, and_self, decide_True]
            rw [a]
            show s.m_xhtml_net_change + 1 = _
            simp
          · rw [if_neg a2]
            have a : addsXhtml (XmlToken.startElement e) = false := by
              simp only [addsXhtml, decide_eq_false_iff_not]
              intro h; exact a2 h.2
            rw [a]
            show s.m_xhtml_net_change = _
            simp
        · rw [if_neg a1]
          have a : addsXhtml (XmlToken.startElement e) = false := by
            simp only [addsXhtml, decide_eq_false_iff_not]
            intro h; exact a1 h.1
          rw [a]
          show s.m_xhtml_net_change = _
          simp
    rw [if_neg r3]
    have a : addsXhtml (XmlToken.startElement e) = false := by
      simp only [addsXhtml, decide_eq_false_iff_not]
      intro h; apply r3; rw [h.1]; decide
    have d : deletesTrackedXhtml c (s, XmlToken.startElement e) = false := by
      simp only [deletesTrackedXhtml, Bool.and_eq_false_imp, decide_eq_true_eq]
      intro h; exfalso; apply r3; rw [h.1]; decide
    rw [a, d]
    by_cases r4 : e.name = "validationresult".toList
    · rw [if_pos r4]
      unfold processValidation
      dsimp only
      split <;> simp
    · rw [if_neg r4]; simp

theorem foldl_processToken_ledger (c : Collaborators) (ts : List XmlToken) (s : PluginRunner) :
    (ts.foldl (processToken c) s).m_xhtml_net_change = s.m_xhtml_net_change
      + (ts.countP addsXhtml : Int) - ((readStates c s ts).countP (deletesTrackedXhtml c) : Int) := by
  induction ts generalizing s with
  | nil => simp [readStates]
  | cons t rest ih =>
    rw [List.foldl_cons, ih, processToken_ledger, readStates, List.countP_cons, List.countP_cons]
    push_cast
    split_ifs <;> omega

/-- C15: after `processResultXML` the ledger is its value before, plus the number of
`added` elements of the content media type, minus the number of `deleted`
elements of that media type whose decoded href is in `m_xhtmlFiles` in the state
in which the element is read. A `deleted` element whose href is not in the table
leaves the ledger as it is, an `added` element of the content media type adds
one, and a run consisting of one such element on a ledger of zero gives one. -/
theorem ledger_counts_records (c : Collaborators) (st : PluginRunner) :
    (processResultXML c st).2.m_xhtml_net_change = st.m_xhtml_net_change
      + ((c.xmlRead (parseBuffer st.m_pluginOutput)).tokens.countP addsXhtml : Int)
      - ((readStates c { st with m_pluginOutput := parseBuffer st.m_pluginOutput }
            (c.xmlRead (parseBuffer st.m_pluginOutput)).tokens).countP
          (deletesTrackedXhtml c) : Int) ∧
    (∀ (s : PluginRunner) (e : XmlStartElement), e.name = "deleted".toList →
      containsKey (c.URLDecodePath (attrValue e.attributes "href".toList)) s.m_xhtmlFiles = false →
      (processToken c s (XmlToken.startElement e)).m_xhtml_net_change = s.m_xhtml_net_change) ∧
    (∀ (s : PluginRunner) (t : XmlToken), addsXhtml t = true →
      (processToken c s t).m_xhtml_net_change = s.m_xhtml_net_change + 1) ∧
    (∀ t : XmlToken, st.m_xhtml_net_change = 0 → addsXhtml t = true →
      (c.xmlRead (parseBuffer st.m_pluginOutput)).tokens = [t] →
      (processResultXML c st).2.m_xhtml_net_change = 1) := by
  have h1 : (processResultXML c st).2.m_xhtml_net_change = st.m_xhtml_net_change
      + ((c.xmlRead (parseBuffer st.m_pluginOutput)).tokens.countP addsXhtml : Int)
      - ((readStates c { st with m_pluginOutput := parseBuffer st.m_pluginOutput }
            (c.xmlRead (parseBuffer st.m_pluginOutput)).tokens).countP
          (deletesTrackedXhtml c) : Int) := by
    have key := foldl_processToken_ledger c (c.xmlRead (parseBuffer st.m_pluginOutput)).tokens
      { st with m_pluginOutput := parseBuffer st.m_pluginOutput }
    unfold processResultXML
    dsimp only
    split_ifs
    · exact key
    · exact key
  have h3 : ∀ (s : PluginRunner) (t : XmlToken), addsXhtml t = true →
      (processToken c s t).m_xhtml_net_change = s.m_xhtml_net_change + 1 := by
    intro s t ht
    have hd : deletesTrackedXhtml c (s, t) = false := by
      cases t with
      | other => rfl
      | startElement e =>
        simp only [addsXhtml, decide_eq_true_eq] at ht
        simp only [deletesTrackedXhtml, Bool.and_eq_false_imp, decide_eq_true_eq]
        intro h
        rw [ht.1] at h
        exact absurd h.1 (by decide)
    rw [processToken_ledger, ht, hd]
    simp
  refine ⟨h1, ?_, h3, ?_⟩
  · intro s e hdel hc
    have ha : addsXhtml (XmlToken.startElement e) = false := by
      simp only [addsXhtml, decide_eq_false_iff_not]
      intro h
      rw [hdel] at h
      exact absurd h.1 (by decide)
    have hd : deletesTrackedXhtml c (s, XmlToken.startElement e) = false := by
      simp only [deletesTrackedXhtml, hc, Bool.and_false]
    rw [processToken_ledger, ha, hd]
    simp
  · intro t h0 ht htok
    have e := h1
    rw [htok] at e
    have hd : deletesTrackedXhtml c
        ({ st with m_pluginOutput := parseBuffer st.m_pluginOutput }, t) = false := by
      cases t with
      | other => rfl
      | startElement e =>
        simp only [addsXhtml, decide_eq_true_eq] at ht
        simp only [deletesTrackedXhtml, Bool.and_eq_false_imp, decide_eq_true_eq]
        intro h
        rw [ht.1] at h
        exact absurd h.1 (by decide)
    simp only [readStates, List.countP_cons, List.countP_nil, ht, hd, if_true, Nat.zero_add,
      Nat.cast_one, Bool.false_eq_true, if_false, Nat.cast_zero, sub_zero] at e
    rw [e, h0]
    rfl

/-- Witness of C15: a fresh run reports one added content document; the ledger is one.
A run that reports the deletion of a file that is not tracked leaves it at zero. -/
theorem ledger_counts_records_witness :
    (processResultXML
      (Fixture.collaborators
        { tokens := [Fixture.changeElement "added" "Text/new.xhtml" "new1" "application/xhtml+xml"],
          hasError := false })
      (Fixture.runner Fixture.epub2Book)).2.m_xhtml_net_change = 1 ∧
    (processResultXML
      (Fixture.collaborators
        { tokens := [Fixture.changeElement "deleted" "Text/none.xhtml" "x" "application/xhtml+xml"],
          hasError := false })
      (Fixture.runner Fixture.epub2Book)).2.m_xhtml_net_change = 0 :=
  ⟨(ledger_counts_records
      (Fixture.collaborators
        { tokens := [Fixture.changeElement "added" "Text/new.xhtml" "new1" "application/xhtml+xml"],
          hasError := false })
      (Fixture.runner Fixture.epub2Book)).2.2.2 _ rfl (by decide) rfl,
   by decide⟩

theorem processToken_diagnostics (c : Collaborators) (s : PluginRunner) (t : XmlToken) :
    (processToken c s t).m_validationResults
      = s.m_validationResults ++ (diagnosticOf c t).toList := by
  cases t with
  | other => simp [processToken, diagnosticOf]
  | startElement e =>
    unfold processToken diagnosticOf
    dsimp only
    by_cases r4 : e.name = "validationresult".toList
    · rw [if_neg (by rw [r4]; decide), if_neg (by rw [r4]; decide), if_neg (by rw [r4]; decide),
        if_pos r4, if_pos r4]
      unfold processValidation severityOf intOrMinusOne
      dsimp only
      split_ifs
      all_goals
        dsimp only [Option.map, Option.toList]
        try simp only [List.append_nil]
      all_goals
        cases c.toInt (attrValue e.attributes "linenumber".toList) <;>
          cases c.toInt (attrValue e.attributes "charoffset".toList) <;> rfl
    · rw [if_neg r4]
      split_ifs
      · simp
      · simp
      · unfold processChange
        dsimp only
        split_ifs <;> simp
      · simp

theorem foldl_processToken_diagnostics (c : Collaborators) (ts : List XmlToken)
    (s : PluginRunner) :
    (ts.foldl (processToken c) s).m_validationResults
      = s.m_validationResults ++ ts.filterMap (diagnosticOf c) := by
  induction ts generalizing s with
  | nil => simp
  | cons t rest ih =>
    rw [List.foldl_cons, ih, processToken_diagnostics, List.filterMap_cons]
    cases diagnosticOf c t <;> simp

/-- C16: `processResultXML` appends to `m_validationResults`, in order, one diagnostic for
every `validationresult` element whose type is `info`, `warning` or `error`, and
nothing else. The line and the column of the diagnostic are the value `toInt`
gives for the attribute text and `-1` when `toInt` fails, which includes an
absent attribute (its text is empty) when `toInt` fails on the empty text. -/
theorem validation_diagnostics (c : Collaborators) (st : PluginRunner) :
    (processResultXML c st).2.m_validationResults = st.m_validationResults
      ++ (c.xmlRead (parseBuffer st.m_pluginOutput)).tokens.filterMap (diagnosticOf c) ∧
    (∀ (e : XmlStartElement) (v : ResType), e.name = "validationresult".toList →
      severityOf (attrValue e.attributes "type".toList) = some v →
      ∀ s : PluginRunner,
        (processToken c s (XmlToken.startElement e)).m_validationResults
          = s.m_validationResults ++
            [{ vtype := v,
               bookpath := attrValue e.attributes "bookpath".toList,
               linenumber := intOrMinusOne c (attrValue e.attributes "linenumber".toList),
               charoffset := intOrMinusOne c (attrValue e.attributes "charoffset".toList),
               message := attrValue e.attributes "message".toList }]) ∧
    (∀ (text : QString) (n : Int), c.toInt text = some n → intOrMinusOne c text = n) ∧
    (∀ text : QString, c.toInt text = none → intOrMinusOne c text = -1) ∧
    (∀ (attrs : List (QString × QString)) (name : QString),
      lookupKey name attrs = none → c.toInt [] = none →
      intOrMinusOne c (attrValue attrs name) = -1) := by
  refine ⟨?_, ?_, ?_, ?_, ?_⟩
  · have key := foldl_processToken_diagnostics c
      (c.xmlRead (parseBuffer st.m_pluginOutput)).tokens
      { st with m_pluginOutput := parseBuffer st.m_pluginOutput }
    unfold processResultXML
    dsimp only
    split_ifs
    · exact key
    · exact key
  · intro e v hn hv s
    rw [processToken_diagnostics]
    unfold diagnosticOf
    dsimp only
    rw [if_pos hn, hv]
    rfl
  · intro text n h
    unfold intOrMinusOne
    rw [h]
  · intro text h
    unfold intOrMinusOne
    rw [h]
  · intro attrs name h1 h2
    unfold intOrMinusOne attrValue
    rw [h1]
    show (match c.toInt [] with | some n => n | none => -1) = -1
    rw [h2]

/-- An element with an unparseable line number and no column still gives its diagnostic,
with `-1` for both. -/
theorem validation_diagnostics_example :
    (processResultXML
      (Fixture.collaborators
        { tokens := [XmlToken.startElement
            { name := "validationresult".toList,
              attributes := [("type".toList, "warning".toList),
                             ("linenumber".toList, "x12".toList),
                             ("bookpath".toList, "OEBPS/Text/ch1.xhtml".toList),
                             ("message".toList, "odd".toList)],
              elementText := [] }],
          hasError := false })
      (Fixture.runner Fixture.epub2Book)).2.m_validationResults
      = [{ vtype := ResType.ResType_Warn, bookpath := "OEBPS/Text/ch1.xhtml".toList,
           linenumber := -1, charoffset := -1, message := "odd".toList }] := by
  decide

/-! ## Cancelled and crashed runs -/

theorem pluginFinished_crash (c : Collaborators) (st : PluginRunner) :
    pluginFinished c ExitStatus.CrashExit st
      = some { st with textEdit := st.textEdit ++ ["Launcher process crashed".toList],
                       m_result := "crashed".toList } := rfl

theorem pluginFinished_decided (c : Collaborators) (st : PluginRunner)
    (h : alreadyDecided st = true) : pluginFinished c ExitStatus.NormalExit st = some st := by
  unfold pluginFinished
  dsimp only
  rw [h]
  rfl

theorem alreadyDecided_cancelled (st : PluginRunner) (h : st.m_result = "cancelled".toList) :
    alreadyDecided st = true := by
  unfold alreadyDecided
  rw [h]
  decide

theorem alreadyDecided_crashed (st : PluginRunner) (h : st.m_result = "crashed".toList) :
    alreadyDecided st = true := by
  unfold alreadyDecided
  rw [h]
  decide

/-- A `finished` signal delivered while the outcome is `cancelled` or `crashed` leaves the
book, the tabs and the change lists alone and the outcome `cancelled` or `crashed`. -/
theorem waitForFinished_decided (c : Collaborators) (signal : Option ExitStatus)
    (st : PluginRunner)
    (h : st.m_result = "cancelled".toList ∨ st.m_result = "crashed".toList) :
    ∃ st1, waitForFinished c signal st = some st1 ∧ st1.book = st.book ∧ st1.tabs = st.tabs ∧
      st1.log = st.log ∧
      (st1.m_result = "cancelled".toList ∨ st1.m_result = "crashed".toList) := by
  cases signal with
  | none => exact ⟨st, rfl, rfl, rfl, rfl, h⟩
  | some es =>
    cases es with
    | CrashExit => exact ⟨_, pluginFinished_crash c st, rfl, rfl, rfl, Or.inr rfl⟩
    | NormalExit =>
      refine ⟨st, pluginFinished_decided c st ?_, rfl, rfl, rfl, h⟩
      rcases h with h | h
      · exact alreadyDecided_cancelled st h
      · exact alreadyDecided_crashed st h

/-- C17: whatever the child process does while `cancelPlugin` runs (running or not at
either test, a `finished` signal with either exit status in either wait),
`cancelPlugin` returns with the outcome `cancelled`; the book and the tabs are
as before. -/
theorem cancelPlugin_leaves_cancelled (c : Collaborators) (p : ChildProcess)
    (st : PluginRunner) :
    ∃ st1, cancelPlugin c p st = some st1 ∧ st1.m_result = "cancelled".toList ∧
      st1.book = st.book ∧ st1.tabs = st.tabs := by
  have hrun : ∀ (b : Bool) (e : Effect) (s : PluginRunner),
      (if b = true then s.emit e else s).book = s.book ∧
      (if b = true then s.emit e else s).tabs = s.tabs ∧
      (if b = true then s.emit e else s).m_result = s.m_result := by
    intro b e s
    cases b <;> exact ⟨rfl, rfl, rfl⟩
  obtain ⟨a1, a2, a3⟩ := hrun p.runningAtStart Effect.terminate
    { st with m_result := "cancelled".toList }
  obtain ⟨st3, e1, e2, e3, _, e5⟩ := waitForFinished_decided c p.finishedInFirstWait
    (if p.runningAtStart = true then
      ({ st with m_result := "cancelled".toList } : PluginRunner).emit Effect.terminate
     else { st with m_result := "cancelled".toList }) (Or.inl a3)
  obtain ⟨b1, b2, b3⟩ := hrun p.runningAfterFirstWait Effect.kill st3
  obtain ⟨st5, f1, f2, f3, _, _⟩ := waitForFinished_decided c p.finishedInSecondWait
    (if p.runningAfterFirstWait = true then st3.emit Effect.kill else st3) (b3 ▸ e5)
  refine ⟨{ (st5.setStatus "Status: cancelled") with
              textEdit := st5.textEdit ++ ["Plugin cancelled".toList],
              m_result := "cancelled".toList }, ?_, rfl, ?_, ?_⟩
  · unfold cancelPlugin
    dsimp only
    rw [e1]
    dsimp only
    rw [f1]
  · show st5.book = st.book
    rw [f2, b1, e2, a1]
  · show st5.tabs = st.tabs
    rw [f3, b2, e3, a2]

/-- The child is terminated and reports a crash exit in the first wait: `pluginFinished`
logs the crash, and `cancelPlugin` still ends with the outcome `cancelled`. -/
theorem cancelPlugin_after_crash_example :
    ∃ st1, cancelPlugin (Fixture.collaborators Fixture.lastDocumentRun)
        { runningAtStart := true, finishedInFirstWait := some ExitStatus.CrashExit,
          runningAfterFirstWait := false, finishedInSecondWait := none }
        (Fixture.runner Fixture.epub2Book) = some st1 ∧
      st1.m_result = "cancelled".toList ∧
      st1.textEdit = ["Launcher process crashed".toList, "Plugin cancelled".toList] ∧
      st1.log = [Effect.terminate, Effect.setStatus "Status: cancelled".toList] :=
  ⟨_, rfl, by decide, by decide, by decide⟩

/-- C18 (amended): when the outcome is already `cancelled` or the exit status is
`CrashExit`, `pluginFinished` returns without parsing (buffer, change lists,
diagnostics and ledger as before), without running the gate (working files as
before) and without applying anything (book, tabs and log as before), for every
reader and so for every result keyword in the output. The outcome it leaves is
`crashed` when the exit status is `CrashExit` and `cancelled` otherwise. -/
theorem pluginFinished_cancelled_or_crashed (c : Collaborators) (exitstatus : ExitStatus)
    (st : PluginRunner)
    (h : st.m_result = "cancelled".toList ∨ exitstatus = ExitStatus.CrashExit) :
    ∃ st1, pluginFinished c exitstatus st = some st1 ∧
      st1.book = st.book ∧ st1.tabs = st.tabs ∧ st1.log = st.log ∧
      st1.outFiles = st.outFiles ∧ st1.m_pluginOutput = st.m_pluginOutput ∧
      st1.m_filesToAdd = st.m_filesToAdd ∧ st1.m_filesToDelete = st.m_filesToDelete ∧
      st1.m_filesToModify = st.m_filesToModify ∧
      st1.m_validationResults = st.m_validationResults ∧
      st1.m_xhtml_net_change = st.m_xhtml_net_change ∧
      st1.m_result = (match exitstatus with
        | ExitStatus.CrashExit => "crashed".toList
        | ExitStatus.NormalExit => "cancelled".toList) := by
  cases exitstatus with
  | CrashExit =>
    exact ⟨_, pluginFinished_crash c st, rfl, rfl, rfl, rfl, rfl, rfl, rfl, rfl, rfl, rfl, rfl⟩
  | NormalExit =>
    have hc : st.m_result = "cancelled".toList := by
      rcases h with h | h
      · exact h
      · exact absurd h (by decide)
    exact ⟨st, pluginFinished_decided c st (alreadyDecided_cancelled st hc),
      rfl, rfl, rfl, rfl, rfl, rfl, rfl, rfl, rfl, rfl, hc⟩

/-- Witness of C18 (amended): a cancelled run whose output says `success` stays cancelled
and nothing is parsed or applied. -/
theorem pluginFinished_cancelled_or_crashed_witness :
    ∃ st1, pluginFinished (Fixture.collaborators Fixture.lastDocumentRun) ExitStatus.NormalExit
        { Fixture.runner Fixture.epub2Book with m_result := "cancelled".toList } = some st1 ∧
      st1.book = Fixture.epub2Book ∧ st1.log = [] ∧ st1.m_filesToDelete = [] ∧
      st1.m_result = "cancelled".toList := by
  obtain ⟨st1, h1, h2, _, h4, _, _, _, h8, _, _, _, h12⟩ :=
    pluginFinished_cancelled_or_crashed (Fixture.collaborators Fixture.lastDocumentRun)
      ExitStatus.NormalExit
      { Fixture.runner Fixture.epub2Book with m_result := "cancelled".toList } (Or.inl rfl)
  exact ⟨st1, h1, h2, h4, h8, h12⟩

/-- Counterexample to C18: the outcome is already `cancelled` and the exit status is
`CrashExit`; the outcome `pluginFinished` leaves is `crashed`, not `cancelled`. -/
theorem cancelled_outcome_replaced_by_crashed :
    ∃ st1, pluginFinished (Fixture.collaborators Fixture.lastDocumentRun) ExitStatus.CrashExit
        { Fixture.runner Fixture.epub2Book with m_result := "cancelled".toList } = some st1 ∧
      ({ Fixture.runner Fixture.epub2Book with m_result := "cancelled".toList } :
        PluginRunner).m_result = "cancelled".toList ∧
      st1.m_result = "crashed".toList ∧ st1.m_result ≠ "cancelled".toList :=
  ⟨_, rfl, rfl, rfl, by decide⟩

/-! ## The handshake file -/

theorem lookupKey_insertKey_self {β : Type} (k : QString) (v : β) (m : List (QString × β)) :
    lookupKey k (insertKey k v m) = some v := by
  induction m with
  | nil => simp [insertKey, lookupKey]
  | cons p rest ih =>
    obtain ⟨k1, v1⟩ := p
    unfold insertKey
    by_cases e : k1 = k
    · rw [if_pos e]; simp [lookupKey]
    · rw [if_neg e]; simp only [lookupKey, if_neg e]; exact ih

/-- C19 (amended): the fields `writeSigilCFG` writes are, in order: manifest relative
path, application directory, preferences directory, on Linux the dictionary
search paths, then UI language, active dictionary, book-modified boolean, book
file path, light/dark tag, the five comma-joined colors, the constant `detect`,
the font descriptor, the automation tag, the automation parameter, the
font-obfuscation blob, and one field per selected resource. The text written to
`sigil.cfg` is these fields joined by newlines. The field after the colors is
`detect`, and the font descriptor is the field after that. -/
theorem cfgFields_layout (h : HostContext) (st : PluginRunner) :
    cfgFields h st = cfgHead h st ++
      [h.uiLanguage, h.dictionary,
       if h.isWindowModified then "True".toList else "False".toList,
       h.GetCurrentFilePath,
       if h.IsDarkMode then "dark".toList else "light".toList,
       cfgColors h,
       "detect".toList,
       h.font,
       if h.UsingAutomate then "InAutomate".toList else "NoAutomate".toList,
       h.AutomatePluginParameter,
       st.m_fontMangling] ++ h.AllSelectedResources.map (fun r => r.relPath) ∧
    lookupKey (st.m_outputDir ++ "/sigil.cfg".toList) (writeSigilCFG h st).outFiles
      = some (join "\n".toList (cfgFields h st)) ∧
    (cfgFields h st).get? ((cfgHead h st).length + 5) = some (cfgColors h) ∧
    (cfgFields h st).get? ((cfgHead h st).length + 6) = some "detect".toList ∧
    (cfgFields h st).get? ((cfgHead h st).length + 7) = some h.font ∧
    (cfgFields h st).length = (cfgHead h st).length + 11 + h.AllSelectedResources.length := by
  have e : cfgFields h st = cfgHead h st ++
      [h.uiLanguage, h.dictionary,
       if h.isWindowModified then "True".toList else "False".toList,
       h.GetCurrentFilePath,
       if h.IsDarkMode then "dark".toList else "light".toList,
       cfgColors h,
       "detect".toList,
       h.font,
       if h.UsingAutomate then "InAutomate".toList else "NoAutomate".toList,
       h.AutomatePluginParameter,
       st.m_fontMangling] ++ h.AllSelectedResources.map (fun r => r.relPath) := by
    unfold cfgFields cfgHead cfgColors
    cases h.platform <;> simp
  refine ⟨e, ?_, ?_, ?_, ?_, ?_⟩
  · exact lookupKey_insertKey_self _ _ _
  · rw [e, List.append_assoc, List.get?_eq_getElem?, List.getElem?_append_right (by omega)]
    simp
  · rw [e, List.append_assoc, List.get?_eq_getElem?, List.getElem?_append_right (by omega)]
    simp
  · rw [e, List.append_assoc, List.get?_eq_getElem?, List.getElem?_append_right (by omega)]
    simp
  · rw [e]
    simp
    omega

/-- Counterexample to C19: on Linux the colors are field 9, field 10 is `detect` and not
the font descriptor, and with one selected resource there are 16 fields. -/
theorem font_descriptor_not_after_colors :
    (cfgFields (Fixture.hostContext Platform.Linux "") (Fixture.runner Fixture.epub2Book)).get? 9
      = some (cfgColors (Fixture.hostContext Platform.Linux "")) ∧
    (cfgFields (Fixture.hostContext Platform.Linux "") (Fixture.runner Fixture.epub2Book)).get? 10
      = some "detect".toList ∧
    (cfgFields (Fixture.hostContext Platform.Linux "") (Fixture.runner Fixture.epub2Book)).get? 10
      ≠ some (Fixture.hostContext Platform.Linux "").font ∧
    (cfgFields (Fixture.hostContext Platform.Linux "") (Fixture.runner Fixture.epub2Book)).length
      = 16 := by
  decide

theorem split_no_sep (c : Char) (x : QString) (h : c ∉ x) : split c x = [x] := by
  induction x with
  | nil => rfl
  | cons a rest ih =>
    have ha : a ≠ c := fun e => h (e ▸ List.mem_cons_self _ _)
    have hr : c ∉ rest := fun e => h (List.mem_cons_of_mem _ e)
    rw [split, if_neg ha, ih hr]

theorem split_append_sep (c : Char) (x rest : QString) (h : c ∉ x) :
    split c (x ++ c :: rest) = x :: split c rest := by
  induction x with
  | nil => rw [List.nil_append, split, if_pos rfl]
  | cons a xs ih =>
    have ha : a ≠ c := fun e => h (e ▸ List.mem_cons_self _ _)
    have hr : c ∉ xs := fun e => h (List.mem_cons_of_mem _ e)
    rw [List.cons_append, split, if_neg ha, ih hr]

theorem split_join (c : Char) (l : List QString) (hne : l ≠ [])
    (h : ∀ x ∈ l, c ∉ x) : split c (join [c] l) = l := by
  induction l with
  | nil => exact absurd rfl hne
  | cons x rest ih =>
    cases rest with
    | nil =>
      rw [join]
      exact split_no_sep c x (h x (List.mem_cons_self _ _))
    | cons y ys =>
      rw [join, List.append_assoc, List.singleton_append,
        split_append_sep c x _ (h x (List.mem_cons_self _ _)),
        ih (by simp) (fun z hz => h z (List.mem_cons_of_mem _ hz))]

theorem cfgFields_ne_nil (h : HostContext) (st : PluginRunner) : cfgFields h st ≠ [] := by
  intro e
  have := congrArg List.length e
  unfold cfgFields at this
  simp at this

/-- C20 (amended): when no field of the list `writeSigilCFG` assembles contains a newline
character, splitting the written text on the newline character gives that list
back, with the same count and order. -/
theorem handshake_split_recovers_fields (h : HostContext) (st : PluginRunner)
    (hnl : ∀ f ∈ cfgFields h st, '\n' ∉ f) :
    split '\n' (cfgText h st) = cfgFields h st ∧
    (split '\n' (cfgText h st)).length = (cfgFields h st).length := by
  have e : split '\n' (cfgText h st) = cfgFields h st :=
    split_join '\n' (cfgFields h st) (cfgFields_ne_nil h st) hnl
  exact ⟨e, by rw [e]⟩

/-- Witness of C20 (amended) on the fixture context, whose fields have no newline. -/
theorem handshake_split_recovers_fields_witness :
    split '\n' (cfgText (Fixture.hostContext Platform.Linux "") (Fixture.runner Fixture.epub2Book))
      = cfgFields (Fixture.hostContext Platform.Linux "") (Fixture.runner Fixture.epub2Book) :=
  (handshake_split_recovers_fields (Fixture.hostContext Platform.Linux "")
    (Fixture.runner Fixture.epub2Book) (by decide)).1

/-- Counterexample to C20: the automation parameter holds a newline; splitting the
written text gives 17 fields where 16 were assembled. -/
theorem newline_in_parameter_breaks_split :
    split '\n' (cfgText (Fixture.hostContext Platform.Linux "a\nb")
        (Fixture.runner Fixture.epub2Book))
      ≠ cfgFields (Fixture.hostContext Platform.Linux "a\nb") (Fixture.runner Fixture.epub2Book) ∧
    (split '\n' (cfgText (Fixture.hostContext Platform.Linux "a\nb")
        (Fixture.runner Fixture.epub2Book))).length = 17 ∧
    (cfgFields (Fixture.hostContext Platform.Linux "a\nb")
        (Fixture.runner Fixture.epub2Book)).length = 16 := by
  decide

/-! ## Input plugins, the modification flag, and copy destinations -/

theorem addNCX_lists (st : PluginRunner) (href : QString) :
    (addNCX st href).m_pluginType = st.m_pluginType ∧
    (addNCX st href).m_filesToDelete = st.m_filesToDelete ∧
    (addNCX st href).m_filesToModify = st.m_filesToModify := by
  unfold addNCX
  dsimp only
  split_ifs <;> exact ⟨rfl, rfl, rfl⟩

theorem addContent_lists (c : Collaborators) (st : PluginRunner) (href mime : QString) :
    (addContent c st href mime).m_pluginType = st.m_pluginType ∧
    (addContent c st href mime).m_filesToDelete = st.m_filesToDelete ∧
    (addContent c st href mime).m_filesToModify = st.m_filesToModify := by
  unfold addContent
  dsimp only
  split_ifs <;> exact ⟨rfl, rfl, rfl⟩

theorem addOther_lists (c : Collaborators) (st : PluginRunner) (href mime : QString) :
    (addOther c st href mime).m_pluginType = st.m_pluginType ∧
    (addOther c st href mime).m_filesToDelete = st.m_filesToDelete ∧
    (addOther c st href mime).m_filesToModify = st.m_filesToModify := by
  unfold addOther
  split_ifs
  · exact ⟨rfl, rfl, rfl⟩
  · exact addNCX_lists st href
  · exact addContent_lists c st href mime

theorem addLoop_cons_other (c : Collaborators) (f : QString) (l : List QString)
    (st : PluginRunner) (href id mime : QString)
    (hf : fields f = some (href, id, mime)) (hm : mime ≠ MIME_EPUB) :
    addLoop c (f :: l) st = addLoop c l (addOther c st href mime) := by
  have hm2 : ¬ (st.m_pluginType = "input".toList ∧ mime = MIME_EPUB) := fun x => hm x.2
  rw [addLoop, hf]
  dsimp only
  rw [if_neg hm2]
  unfold addOther
  split_ifs <;> rfl

/-- The records before the first whole-archive record are processed as usual, the
loop ends at that record, and the records after it are not looked at. -/
theorem addLoop_until_archive (c : Collaborators) (pre : List QString) (st : PluginRunner)
    (fileinfo href id : QString) (rest : List QString)
    (hinput : st.m_pluginType = "input".toList)
    (hpre : ∀ f ∈ pre, ∃ t, fields f = some t ∧ t.2.2 ≠ MIME_EPUB)
    (hfields : fields fileinfo = some (href, id, MIME_EPUB)) :
    ∃ s, addLoop c pre st = some s ∧ s.m_pluginType = "input".toList ∧
      s.m_filesToDelete = st.m_filesToDelete ∧ s.m_filesToModify = st.m_filesToModify ∧
      addLoop c (pre ++ fileinfo :: rest) st = some (addEpub c s href) := by
  induction pre generalizing st with
  | nil =>
    refine ⟨st, rfl, hinput, rfl, rfl, ?_⟩
    rw [List.nil_append, addLoop, hfields]
    dsimp only
    rw [if_pos ⟨hinput, rfl⟩]
  | cons f fs ih =>
    obtain ⟨⟨h1, i1, m1⟩, hf, hm⟩ := hpre f (List.mem_cons_self _ _)
    have hrest : ∀ g ∈ fs, ∃ t, fields g = some t ∧ t.2.2 ≠ MIME_EPUB :=
      fun g hg => hpre g (List.mem_cons_of_mem _ hg)
    obtain ⟨o1, o2, o3⟩ := addOther_lists c st h1 m1
    obtain ⟨s, e1, e2, e3, e4, e5⟩ := ih (addOther c st h1 m1) (o1.trans hinput) hrest
    refine ⟨s, ?_, e2, e3.trans o2, e4.trans o3, ?_⟩
    · rw [addLoop_cons_other c f _ st h1 i1 m1 hf hm]; exact e1
    · rw [List.cons_append, addLoop_cons_other c f _ st h1 i1 m1 hf hm]; exact e5

theorem addEpub_frame (c : Collaborators) (s : PluginRunner) (href : QString) :
    (addEpub c s href).book = s.book ∧ (addEpub c s href).tabs = s.tabs ∧
    (addEpub c s href).m_filesToDelete = s.m_filesToDelete ∧
    (addEpub c s href).m_filesToModify = s.m_filesToModify := by
  unfold addEpub
  dsimp only
  split_ifs <;> exact ⟨rfl, rfl, rfl, rfl⟩

/-- C12 (amended): for an input plugin whose Added list has a first whole-archive
record, `addFiles` processes the records before it, ends at it with the result
`true`, and does not look at the records after it. `pluginFinished` then goes on
as in every committed run: the result of `commitChanges` is that of
`applyDeletes` followed by `applyModifies` on the state `addFiles` left, in
which the Deleted and Modified lists are those of the run. -/
theorem input_archive_ends_addFiles (c : Collaborators) (st : PluginRunner)
    (pre : List QString) (fileinfo href id : QString) (rest : List QString)
    (hinput : st.m_pluginType = "input".toList)
    (hpre : ∀ f ∈ pre, ∃ t, fields f = some t ∧ t.2.2 ≠ MIME_EPUB)
    (hfields : fields fileinfo = some (href, id, MIME_EPUB))
    (hadd : st.m_filesToAdd = pre ++ fileinfo :: rest) :
    ∃ s, addLoop c pre
          ((st.emit Effect.SuspendWatchingResources).setStatus "Status: adding files") = some s ∧
      addFiles c (pre ++ fileinfo :: rest) (st.emit Effect.SuspendWatchingResources)
        = some (true, addEpub c s href) ∧
      commitChanges c st
        = (applyDeletes (true, addEpub c s href)).bind
            (fun r2 => (applyModifies r2).map (fun r3 => finishRun r3.1 r3.2)) ∧
      (addEpub c s href).m_filesToDelete = st.m_filesToDelete ∧
      (addEpub c s href).m_filesToModify = st.m_filesToModify := by
  obtain ⟨s, e1, _, e3, e4, e5⟩ := addLoop_until_archive c pre
    ((st.emit Effect.SuspendWatchingResources).setStatus "Status: adding files")
    fileinfo href id rest hinput hpre hfields
  have hfiles : addFiles c (pre ++ fileinfo :: rest) (st.emit Effect.SuspendWatchingResources)
      = some (true, addEpub c s href) := by
    unfold addFiles
    rw [e5]
    rfl
  refine ⟨s, e1, hfiles, ?_, (addEpub_frame c s href).2.2.1.trans e3,
    (addEpub_frame c s href).2.2.2.trans e4⟩
  unfold commitChanges applyAdds
  dsimp only
  have hne : (st.emit Effect.SuspendWatchingResources).m_filesToAdd ≠ [] := by
    show st.m_filesToAdd ≠ []
    rw [hadd]; simp
  rw [if_pos hne,
    show (st.emit Effect.SuspendWatchingResources).m_filesToAdd = pre ++ fileinfo :: rest from hadd,
    hfiles]
  dsimp only [Option.map]
  rw [Bool.or_false]
  generalize applyDeletes (true, addEpub c s href) = d
  cases d with
  | none => rfl
  | some r2 =>
    dsimp only [Option.bind]
    cases applyModifies r2 <;> rfl

/-- Witness of C12 (amended): a style sheet, a whole archive and a content document are
reported added; the loop ends at the archive. -/
theorem input_archive_ends_addFiles_witness :
    ∃ s, addLoop (Fixture.collaborators Fixture.archiveAndDeleteRun)
          [join SEP ["OEBPS/Styles/new.css".toList, "n".toList, "text/css".toList]]
          ((Fixture.archiveRunner.emit Effect.SuspendWatchingResources).setStatus
            "Status: adding files") = some s ∧
      commitChanges (Fixture.collaborators Fixture.archiveAndDeleteRun) Fixture.archiveRunner
        = (applyDeletes (true, addEpub (Fixture.collaborators Fixture.archiveAndDeleteRun) s
              "new.epub".toList)).bind
            (fun r2 => (applyModifies r2).map (fun r3 => finishRun r3.1 r3.2)) := by
  obtain ⟨s, h1, _, h3, _, _⟩ := input_archive_ends_addFiles
    (Fixture.collaborators Fixture.archiveAndDeleteRun) Fixture.archiveRunner
    [join SEP ["OEBPS/Styles/new.css".toList, "n".toList, "text/css".toList]]
    (join SEP ["new.epub".toList, [], MIME_EPUB]) "new.epub".toList []
    [join SEP ["OEBPS/Text/late.xhtml".toList, "l".toList, MIME_XHTML]]
    rfl (by decide) (by decide) rfl
  exact ⟨s, h1, h3⟩

/-- Counterexample to C12: an input plugin reports a whole archive and the deletion of
the style sheet; the archive is loaded and the style sheet is removed all the
same. -/
theorem deleted_applied_after_archive :
    ∃ st1, pluginFinished (Fixture.collaborators Fixture.archiveAndDeleteRun)
        ExitStatus.NormalExit (Fixture.inputRunner Fixture.epub2Book) = some st1 ∧
      Effect.LoadFile "/work/new.epub".toList ∈ st1.log ∧
      Fixture.cssRes ∈ Fixture.epub2Book.resources ∧
      Fixture.cssRes ∉ st1.book.resources ∧
      Effect.RemoveResource Fixture.cssRes ∈ st1.log := by
  exact ⟨_, rfl, by decide, by decide, by decide, by decide⟩

/-- C13, evaluation at two failing inputs. First: the only record is an Added record of
the manifest media type, which `addFiles` ignores; nothing in the book changes,
yet `book_modified` is true: the book is set modified and the browser is told.
Second: an input plugin reports a whole archive, the book has unsaved changes
and the replacement is declined; nothing is loaded, yet `book_modified` is true. -/
theorem ignored_add_marks_book_modified :
    (∃ st1, pluginFinished (Fixture.collaborators Fixture.ignoredAddRun) ExitStatus.NormalExit
        (Fixture.runner Fixture.epub2Book) = some st1 ∧
      st1.book = { Fixture.epub2Book with modified := true } ∧
      Fixture.epub2Book.modified = false ∧
      Effect.BookContentModified ∈ st1.log) ∧
    (∃ st1, pluginFinished (Fixture.collaborators Fixture.archiveRun) ExitStatus.NormalExit
        (Fixture.inputRunner { Fixture.epub2Book with modified := true }) = some st1 ∧
      st1.book = { Fixture.epub2Book with modified := true } ∧
      Effect.LoadFile "/work/new.epub".toList ∉ st1.log ∧
      Effect.BookContentModified ∈ st1.log) := by
  exact ⟨⟨_, rfl, by decide, by decide, by decide⟩, ⟨_, rfl, by decide, by decide, by decide⟩⟩

/-- C11, evaluation at the failing input: `modifyFiles` copies every record to the book
root, a slash and the href as it stands; for the href `../x` the destination is
`/book/../x`, which has a parent-directory segment. -/
theorem modify_destination_keeps_parent_segment :
    (∀ (st : PluginRunner) (href : QString),
      (modifyOne st href).log = st.log ++
        [Effect.setStatus ("Status: modifying".toList ++ " ".toList
            ++ fileName (st.m_bookRoot ++ "/".toList ++ href)),
         Effect.ForceCopyFile (st.m_outputDir ++ "/".toList ++ href)
            (st.m_bookRoot ++ "/".toList ++ href)]) ∧
    (∃ st1, modifyFiles [join SEP ["../x".toList, [], "text/plain".toList]]
        (Fixture.runner Fixture.epub2Book) = some (true, st1) ∧
      copiedTo st1.log = ["/book/../x".toList] ∧
      "..".toList ∈ split '/' "/book/../x".toList) :=
  ⟨fun st href => (modifyOne_frame st href).2, ⟨_, rfl, by decide, by decide⟩⟩

/-! ## The two lists of the gate -/

theorem classifyFiles_eq (files : List QString) (acc : List QString × List QString)
    (h : ∀ f ∈ files, (fields f).isSome = true) :
    classifyFiles files acc = some (acc.1 ++ strictHrefs files, acc.2 ++ repairHrefs files) := by
  induction files generalizing acc with
  | nil => simp [classifyFiles, strictHrefs, repairHrefs]
  | cons f rest ih =>
    obtain ⟨xs, xm⟩ := acc
    obtain ⟨t, ht⟩ := Option.isSome_iff_exists.mp (h f (List.mem_cons_self _ _))
    obtain ⟨href, id, mime⟩ := t
    have ih2 := fun a => ih a (fun g hg => h g (List.mem_cons_of_mem _ hg))
    have e1 : MIME_OPF ≠ MIME_XHTML := by decide
    have e2 : MIME_NCX ≠ MIME_XHTML := by decide
    have e3 : MIME_PAGEMAP ≠ MIME_XHTML := by decide
    have e4 : MIME_SMIL ≠ MIME_XHTML := by decide
    have hs : strictHrefs (f :: rest) =
        (if mime = MIME_XHTML then [href] else []) ++ strictHrefs rest := by
      unfold strictHrefs
      rw [List.filterMap_cons, ht]
      by_cases hm : mime = MIME_XHTML
      · simp [hm]
      · simp [hm]
    have hr : repairHrefs (f :: rest) =
        (if mime ∈ auxiliaryTypes then [href] else []) ++ repairHrefs rest := by
      unfold repairHrefs
      rw [List.filterMap_cons, ht]
      by_cases hm : mime ∈ auxiliaryTypes
      · simp [hm]
      · simp [hm]
    rw [classifyFiles, ht, hs, hr]
    dsimp only
    by_cases h1 : mime = MIME_OPF
    · subst h1
      rw [if_pos rfl, ih2, if_neg e1, if_pos (by simp [auxiliaryTypes])]
      simp
    rw [if_neg h1]
    by_cases h2 : mime = MIME_NCX
    · subst h2
      rw [if_pos rfl, ih2, if_neg e2, if_pos (by simp [auxiliaryTypes])]
      simp
    rw [if_neg h2]
    by_cases h3 : mime = MIME_PAGEMAP
    · subst h3
      rw [if_pos rfl, ih2, if_neg e3, if_pos (by simp [auxiliaryTypes])]
      simp
    rw [if_neg h3]
    by_cases h4 : mime = MIME_XHTML
    · subst h4
      rw [if_pos rfl, ih2, if_pos rfl, if_neg (by simp [auxiliaryTypes, h1, h2, h3, Ne.symm e4])]
      simp
    rw [if_neg h4]
    by_cases h5 : mime = MIME_SMIL
    · subst h5
      rw [if_pos rfl, ih2, if_neg h4, if_pos (by simp [auxiliaryTypes])]
      simp
    rw [if_neg h5, ih2, if_neg h4, if_neg (by simp [auxiliaryTypes, h1, h2, h3, h5])]
    simp

theorem strictHrefs_append (a b : List QString) :
    strictHrefs (a ++ b) = strictHrefs a ++ strictHrefs b := by
  unfold strictHrefs
  rw [List.filterMap_append]

theorem repairHrefs_append (a b : List QString) :
    repairHrefs (a ++ b) = repairHrefs a ++ repairHrefs b := by
  unfold repairHrefs
  rw [List.filterMap_append]

theorem classify_lists (st : PluginRunner)
    (hfields : ∀ f ∈ st.m_filesToAdd ++ st.m_filesToModify, (fields f).isSome = true) :
    (classifyFiles st.m_filesToAdd ([], [])).bind (classifyFiles st.m_filesToModify) =
      some (strictHrefs (st.m_filesToAdd ++ st.m_filesToModify),
            repairHrefs (st.m_filesToAdd ++ st.m_filesToModify)) := by
  rw [classifyFiles_eq _ _ (fun f hf => hfields f (List.mem_append_left _ hf))]
  rw [Option.some_bind,
    classifyFiles_eq _ _ (fun f hf => hfields f (List.mem_append_right _ hf))]
  simp [strictHrefs_append, repairHrefs_append]

theorem checkIsWellFormed_of_lists (c : Collaborators) (st : PluginRunner)
    (xs xm : List QString)
    (h : (classifyFiles st.m_filesToAdd ([], [])).bind (classifyFiles st.m_filesToModify)
      = some (xs, xm)) :
    checkIsWellFormed c st =
      some (if (checkXhtml c st xs).1 ≠ [] then c.checkReportYes (checkXhtml c st xs).1 else true,
            repairXml c xm (checkXhtml c st xs).2) := by
  unfold checkIsWellFormed
  cases h1 : classifyFiles st.m_filesToAdd ([], []) with
  | none => rw [h1] at h; simp at h
  | some acc1 =>
    rw [h1, Option.some_bind] at h
    dsimp only
    rw [h]
    dsimp only
    split_ifs <;> rfl

theorem lists_of_checkIsWellFormed (c : Collaborators) (st st3 : PluginRunner) (b : Bool)
    (h : checkIsWellFormed c st = some (b, st3)) :
    ∃ xs xm, (classifyFiles st.m_filesToAdd ([], [])).bind (classifyFiles st.m_filesToModify)
      = some (xs, xm) := by
  unfold checkIsWellFormed at h
  cases h1 : classifyFiles st.m_filesToAdd ([], []) with
  | none => rw [h1] at h; simp at h
  | some acc1 =>
    rw [h1] at h
    dsimp only at h
    cases h2 : classifyFiles st.m_filesToModify acc1 with
    | none => rw [h2] at h; simp at h
    | some l => exact ⟨l.1, l.2, by simp [h2]⟩

/-- C24: for a change set whose records all split into three fields,
`checkIsWellFormed` hands to the strict check exactly the hrefs of the Added and
Modified records whose media type is `application/xhtml+xml`, and to the repair
pass exactly the hrefs of the Added and Modified records whose media type is one
of the four auxiliary XML types, both in list order; the Deleted list is not
read. -/
theorem checkIsWellFormed_lists (c : Collaborators) (st : PluginRunner)
    (hfields : ∀ f ∈ st.m_filesToAdd ++ st.m_filesToModify, (fields f).isSome = true) :
    (classifyFiles st.m_filesToAdd ([], [])).bind (classifyFiles st.m_filesToModify) =
      some (strictHrefs (st.m_filesToAdd ++ st.m_filesToModify),
            repairHrefs (st.m_filesToAdd ++ st.m_filesToModify)) ∧
    (∃ b, checkIsWellFormed c st = some (b,
      repairXml c (repairHrefs (st.m_filesToAdd ++ st.m_filesToModify))
        (checkXhtml c st (strictHrefs (st.m_filesToAdd ++ st.m_filesToModify))).2)) ∧
    (∀ href, href ∈ strictHrefs (st.m_filesToAdd ++ st.m_filesToModify) ↔
      ∃ f ∈ st.m_filesToAdd ++ st.m_filesToModify, ∃ id,
        fields f = some (href, id, MIME_XHTML)) ∧
    (∀ href, href ∈ repairHrefs (st.m_filesToAdd ++ st.m_filesToModify) ↔
      ∃ f ∈ st.m_filesToAdd ++ st.m_filesToModify, ∃ id mime,
        fields f = some (href, id, mime) ∧
        (mime = MIME_OPF ∨ mime = MIME_NCX ∨ mime = MIME_PAGEMAP ∨ mime = MIME_SMIL)) := by
  refine ⟨classify_lists st hfields, ⟨_, checkIsWellFormed_of_lists c st _ _
    (classify_lists st hfields)⟩, ?_, ?_⟩
  · intro href
    unfold strictHrefs
    rw [List.mem_filterMap]
    constructor
    · rintro ⟨f, hf, hm⟩
      cases hfd : fields f with
      | none => rw [hfd] at hm; simp at hm
      | some t =>
        obtain ⟨h0, id, mime⟩ := t
        rw [hfd] at hm
        dsimp only at hm
        by_cases hx : mime = MIME_XHTML
        · rw [if_pos hx] at hm
          injection hm with hm
          exact ⟨f, hf, id, by rw [← hm, ← hx]; exact hfd⟩
        · rw [if_neg hx] at hm; exact absurd hm (by simp)
    · rintro ⟨f, hf, id, hfd⟩
      exact ⟨f, hf, by rw [hfd]; simp⟩
  · intro href
    unfold repairHrefs
    rw [List.mem_filterMap]
    constructor
    · rintro ⟨f, hf, hm⟩
      cases hfd : fields f with
      | none => rw [hfd] at hm; simp at hm
      | some t =>
        obtain ⟨h0, id, mime⟩ := t
        rw [hfd] at hm
        dsimp only at hm
        by_cases hx : mime ∈ auxiliaryTypes
        · rw [if_pos hx] at hm
          injection hm with hm
          refine ⟨f, hf, id, mime, by rw [← hm]; exact hfd, ?_⟩
          simpa [auxiliaryTypes] using hx
        · rw [if_neg hx] at hm; exact absurd hm (by simp)
    · rintro ⟨f, hf, id, mime, hfd, hm⟩
      refine ⟨f, hf, ?_⟩
      rw [hfd]
      dsimp only
      rw [if_pos (by simpa [auxiliaryTypes] using hm)]

/-! ## The gate -/

theorem checkXhtml_errors (c : Collaborators) (hrefs : List QString) (st : PluginRunner) :
    (checkXhtml c st hrefs).1 = [] ↔ ∀ href ∈ hrefs, wellFormed c st href = true := by
  induction hrefs generalizing st with
  | nil => simp [checkXhtml]
  | cons href rest ih =>
    have ih2 := ih (st.emit (Effect.setStatus ("Status: checking".toList ++ " ".toList ++ href)))
    have hw : ∀ x, wellFormed c
        (st.emit (Effect.setStatus ("Status: checking".toList ++ " ".toList ++ href))) x
        = wellFormed c st x := fun _ => rfl
    simp only [hw] at ih2
    unfold checkXhtml
    dsimp only
    by_cases he : (c.WellFormedErrorForSource
        (readFile st.outFiles (st.m_outputDir ++ "/".toList ++ href))).line = -1
    · have he2 : (c.WellFormedErrorForSource (readFile
          (st.emit (Effect.setStatus ("Status: checking".toList ++ " ".toList ++ href))).outFiles
          (st.m_outputDir ++ "/".toList ++ href))).line = -1 := he
      rw [if_neg (not_not.mpr he2), ih2]
      constructor
      · intro h x hx
        rcases List.mem_cons.mp hx with rfl | hx
        · exact decide_eq_true he
        · exact h x hx
      · intro h x hx
        exact h x (List.mem_cons_of_mem _ hx)
    · have he2 : (c.WellFormedErrorForSource (readFile
          (st.emit (Effect.setStatus ("Status: checking".toList ++ " ".toList ++ href))).outFiles
          (st.m_outputDir ++ "/".toList ++ href))).line ≠ -1 := he
      rw [if_pos he2]
      constructor
      · intro h; exact absurd h (by simp)
      · intro h
        exact absurd (of_decide_eq_true (h href (List.mem_cons_self _ _))) he

theorem checkXhtml_log (c : Collaborators) (hrefs : List QString) (st : PluginRunner) :
    ∃ L, (checkXhtml c st hrefs).2.log = st.log ++ L ∧ ∀ e ∈ L, ∃ t, e = Effect.setStatus t := by
  induction hrefs generalizing st with
  | nil => exact ⟨[], by simp [checkXhtml], by simp⟩
  | cons href rest ih =>
    obtain ⟨L, hL, hk⟩ :=
      ih (st.emit (Effect.setStatus ("Status: checking".toList ++ " ".toList ++ href)))
    refine ⟨Effect.setStatus ("Status: checking".toList ++ " ".toList ++ href) :: L, ?_, ?_⟩
    · unfold checkXhtml
      dsimp only
      split_ifs
      · dsimp only
        rw [hL]
        simp [PluginRunner.emit]
      · rw [hL]
        simp [PluginRunner.emit]
    · intro e he
      rcases List.mem_cons.mp he with rfl | he
      · exact ⟨_, rfl⟩
      · exact hk e he

theorem repairXml_log (c : Collaborators) (hrefs : List QString) (st : PluginRunner) :
    ∃ L, (repairXml c hrefs st).log = st.log ++ L ∧ ∀ e ∈ L, ∃ t, e = Effect.setStatus t := by
  induction hrefs generalizing st with
  | nil => exact ⟨[], by simp [repairXml], by simp⟩
  | cons href rest ih =>
    unfold repairXml
    dsimp only
    obtain ⟨L, hL, hk⟩ := ih
      { st.emit (Effect.setStatus ("Status: checking".toList ++ " ".toList ++ href)) with
        outFiles := insertKey (st.m_outputDir ++ "/".toList ++ href)
          (c.ProcessXML (readFile st.outFiles (st.m_outputDir ++ "/".toList ++ href))
            (repairType href)) st.outFiles }
    refine ⟨Effect.setStatus ("Status: checking".toList ++ " ".toList ++ href) :: L, ?_, ?_⟩
    · exact hL.trans (by simp [PluginRunner.emit])
    · intro e he
      rcases List.mem_cons.mp he with rfl | he
      · exact ⟨_, rfl⟩
      · exact hk e he

theorem checkIsWellFormed_log (c : Collaborators) (st st3 : PluginRunner) (b : Bool)
    (h : checkIsWellFormed c st = some (b, st3)) :
    ∃ L, st3.log = st.log ++ L ∧ ∀ e ∈ L, ∃ t, e = Effect.setStatus t := by
  unfold checkIsWellFormed at h
  cases h1 : classifyFiles st.m_filesToAdd ([], []) with
  | none => rw [h1] at h; simp at h
  | some acc1 =>
    rw [h1] at h
    dsimp only at h
    cases h2 : classifyFiles st.m_filesToModify acc1 with
    | none => rw [h2] at h; simp at h
    | some l =>
      obtain ⟨xs, xm⟩ := l
      rw [h2] at h
      dsimp only at h
      obtain ⟨L1, hL1, hk1⟩ := checkXhtml_log c xs st
      obtain ⟨L2, hL2, hk2⟩ := repairXml_log c xm (checkXhtml c st xs).2
      have hst : st3 = repairXml c xm (checkXhtml c st xs).2 := by
        split_ifs at h <;> · injection h with h; injection h with _ h; exact h.symm
      refine ⟨L1 ++ L2, ?_, ?_⟩
      · rw [hst, hL2, hL1, List.append_assoc]
      · intro e he
        rcases List.mem_append.mp he with he | he
        · exact hk1 e he
        · exact hk2 e he

theorem processResultXML_ok (c : Collaborators) (st st2 : PluginRunner)
    (h : processResultXML c st = (true, st2)) :
    st2.log = st.log ∧ st2.book = st.book ∧ st2.tabs = st.tabs := by
  have hf := processResultXML_frame c st
  rw [h] at hf
  refine ⟨?_, hf.1, hf.2⟩
  unfold processResultXML at h
  dsimp only at h
  split_ifs at h
  · injection h with h1 _; exact absurd h1 (by simp)
  · injection h with _ h2
    rw [← h2]
    exact (foldl_processToken_frame c _ _).2.2.1

theorem parseAndApply_gate_false (c : Collaborators) (st1 st2 st3 : PluginRunner)
    (hp : processResultXML c st1 = (true, st2)) (hr : st2.m_result = "success".toList)
    (hg : checkIsWellFormed c st2 = some (false, st3)) :
    parseAndApply c st1 =
      some { st3.setStatus "Status: No Changes Made" with m_result := "failed".toList } := by
  unfold parseAndApply
  rw [hp]
  dsimp only
  rw [if_neg (not_not.mpr hr)]
  unfold gateAndCommit
  rw [hg]

/-- C26: when `checkIsWellFormed` returns, its result is `true` if every document of
the strict list is well formed; if one is not, its result is the answer to the
Check Report prompt (Yes is `true`, anything else `false`); and when the result
is `false`, `pluginFinished` ends with the outcome `failed`, the book and the
tabs as they were, and nothing logged but status texts. -/
theorem gate_decision (c : Collaborators) (st st3 : PluginRunner) (b : Bool)
    (h : checkIsWellFormed c st = some (b, st3)) :
    ∃ xs xm,
      (classifyFiles st.m_filesToAdd ([], [])).bind (classifyFiles st.m_filesToModify)
        = some (xs, xm) ∧
      ((∀ href ∈ xs, wellFormed c st href = true) → b = true) ∧
      ((∃ href ∈ xs, wellFormed c st href = false) →
        b = c.checkReportYes (checkXhtml c st xs).1) ∧
      (b = false → ∀ st0 : PluginRunner, alreadyDecided st0 = false →
        processResultXML c (st0.setStatus "Status: finished") = (true, st) →
        st.m_result = "success".toList →
        ∃ s, pluginFinished c ExitStatus.NormalExit st0 = some s ∧
          s.m_result = "failed".toList ∧ s.book = st0.book ∧ s.tabs = st0.tabs ∧
          ∀ e ∈ s.log, e ∈ st0.log ∨ ∃ t, e = Effect.setStatus t) := by
  obtain ⟨xs, xm, hl⟩ := lists_of_checkIsWellFormed c st st3 b h
  have h2 := checkIsWellFormed_of_lists c st xs xm hl
  rw [h] at h2
  injection h2 with h2
  injection h2 with hb hst
  refine ⟨xs, xm, hl, ?_, ?_, ?_⟩
  · intro hall
    rw [hb, if_neg (not_not.mpr ((checkXhtml_errors c xs st).mpr hall))]
  · rintro ⟨href, hmem, hbad⟩
    have hne : (checkXhtml c st xs).1 ≠ [] := by
      intro hnil
      have := (checkXhtml_errors c xs st).mp hnil href hmem
      rw [hbad] at this
      exact absurd this (by simp)
    rw [hb, if_pos hne]
  · intro hfalse st0 hnd hparse hres
    subst hfalse
    obtain ⟨L, hL, hk⟩ := checkIsWellFormed_log c st st3 false h
    obtain ⟨hplog, hpbook, hptabs⟩ := processResultXML_ok c _ st hparse
    obtain ⟨hgbook, hgtabs, _⟩ := checkIsWellFormed_frame c st st3 false h
    refine ⟨{ st3.setStatus "Status: No Changes Made" with m_result := "failed".toList },
      ?_, rfl, ?_, ?_, ?_⟩
    · unfold pluginFinished
      dsimp only
      rw [hnd]
      exact parseAndApply_gate_false c _ st st3 hparse hres h
    · exact hgbook.trans hpbook
    · exact hgtabs.trans hptabs
    · intro e he
      have he2 : e ∈ (st0.log ++ [Effect.setStatus "Status: finished".toList]) ++ L
          ++ [Effect.setStatus "Status: No Changes Made".toList] := by
        have e1 : ({ st3.setStatus "Status: No Changes Made" with
            m_result := "failed".toList } : PluginRunner).log
            = st3.log ++ [Effect.setStatus "Status: No Changes Made".toList] := rfl
        rw [e1, hL, hplog] at he
        exact he
      rcases List.mem_append.mp he2 with he3 | he3
      · rcases List.mem_append.mp he3 with he4 | he4
        · rcases List.mem_append.mp he4 with he5 | he5
          · exact Or.inl he5
          · exact Or.inr ⟨_, List.mem_singleton.mp he5⟩
        · exact Or.inr (hk e he4)
      · exact Or.inr ⟨_, List.mem_singleton.mp he3⟩

/-! ## The outcome text -/

theorem processChange_result (c : Collaborators) (st : PluginRunner) (e : XmlStartElement) :
    (processChange c st e).m_result = st.m_result := by
  unfold processChange
  dsimp only
  split_ifs <;> rfl

theorem processValidation_result (c : Collaborators) (st : PluginRunner)
    (attr : List (QString × QString)) :
    (processValidation c st attr).m_result = st.m_result := by
  unfold processValidation
  dsimp only
  split <;> rfl

theorem foldl_processToken_result (c : Collaborators) (ts : List XmlToken) (st : PluginRunner) :
    (ts.foldl (processToken c) st).m_result = resultText ts st.m_result := by
  induction ts generalizing st with
  | nil => rfl
  | cons t rest ih =>
    rw [List.foldl_cons, ih]
    unfold resultText
    rw [List.foldl_cons]
    congr 1
    cases t with
    | other => rfl
    | startElement e =>
      unfold processToken
      dsimp only
      by_cases h1 : e.name = "result".toList
      · rw [if_pos h1, if_pos h1]
      · rw [if_neg h1, if_neg h1]
        split_ifs
        · rfl
        · exact processChange_result c st e
        · exact processValidation_result c st e.attributes
        · rfl

theorem processResultXML_no_error (c : Collaborators) (st : PluginRunner)
    (hwf : (c.xmlRead (parseBuffer st.m_pluginOutput)).hasError = false) :
    (processResultXML c st).1 = true ∧
    (processResultXML c st).2.m_result
      = resultText (c.xmlRead (parseBuffer st.m_pluginOutput)).tokens st.m_result := by
  unfold processResultXML
  dsimp only
  rw [hwf]
  exact ⟨rfl, foldl_processToken_result c _ _⟩

theorem parseAndApply_not_success (c : Collaborators) (st1 st2 : PluginRunner)
    (hp : processResultXML c st1 = (true, st2)) (hr : st2.m_result ≠ "success".toList) :
    parseAndApply c st1 = some (st2.setStatus "Status: failed") := by
  unfold parseAndApply
  rw [hp]
  dsimp only
  rw [if_pos hr]

/-- C28: when the reader reports no error and the text of the last `result`
element (the outcome the runner held before, when the document has none) is not
`success`, `pluginFinished` returns with the book and the tabs as they were and
with nothing logged but status texts: no Added, Deleted or Modified record is
applied. -/
theorem not_success_applies_nothing (c : Collaborators) (exitstatus : ExitStatus)
    (st : PluginRunner)
    (hwf : (c.xmlRead (parseBuffer st.m_pluginOutput)).hasError = false)
    (hres : resultText (c.xmlRead (parseBuffer st.m_pluginOutput)).tokens st.m_result
      ≠ "success".toList) :
    ∃ s, pluginFinished c exitstatus st = some s ∧ s.book = st.book ∧ s.tabs = st.tabs ∧
      s.m_result ≠ "success".toList ∧
      ∀ e ∈ s.log, e ∈ st.log ∨ ∃ t, e = Effect.setStatus t := by
  cases exitstatus with
  | CrashExit =>
    exact ⟨{ st with textEdit := st.textEdit ++ ["Launcher process crashed".toList],
                     m_result := "crashed".toList }, rfl, rfl, rfl,
      (by show "crashed".toList ≠ "success".toList; decide), fun e he => Or.inl he⟩
  | NormalExit =>
    unfold pluginFinished
    dsimp only
    by_cases hd : alreadyDecided st = true
    · rw [if_pos hd]
      refine ⟨st, rfl, rfl, rfl, ?_, fun e he => Or.inl he⟩
      intro hs
      rw [alreadyDecided, hs] at hd
      exact absurd hd (by decide)
    · rw [if_neg hd]
      obtain ⟨h1, h2⟩ := processResultXML_no_error c (st.setStatus "Status: finished") hwf
      have hp : processResultXML c (st.setStatus "Status: finished")
          = (true, (processResultXML c (st.setStatus "Status: finished")).2) := by
        rw [← h1]
      have hr2 : (processResultXML c (st.setStatus "Status: finished")).2.m_result
          ≠ "success".toList := by
        rw [h2]; exact hres
      obtain ⟨hplog, hpbook, hptabs⟩ := processResultXML_ok c _ _ hp
      refine ⟨(processResultXML c (st.setStatus "Status: finished")).2.setStatus "Status: failed",
        parseAndApply_not_success c _ _ hp hr2, hpbook, hptabs, hr2, ?_⟩
      intro e he
      have he2 : e ∈ (st.log ++ [Effect.setStatus "Status: finished".toList])
          ++ [Effect.setStatus "Status: failed".toList] := by
        have e1 : (PluginRunner.setStatus
            (processResultXML c (st.setStatus "Status: finished")).2 "Status: failed").log
            = (processResultXML c (st.setStatus "Status: finished")).2.log
              ++ [Effect.setStatus "Status: failed".toList] := rfl
        rw [e1, hplog] at he
        exact he
      rcases List.mem_append.mp he2 with he3 | he3
      · rcases List.mem_append.mp he3 with he4 | he4
        · exact Or.inl he4
        · exact Or.inr ⟨_, List.mem_singleton.mp he4⟩
      · exact Or.inr ⟨_, List.mem_singleton.mp he3⟩

/-! ## The repair type and the stored records -/

/-- C25 (amended): the repair loop hands `CleanSource::ProcessXML` the media type
`repairType href`, which depends on the href alone; for an href that does not end
in `.smil` it is the manifest type when the href ends in `.opf`, the NCX type
when it ends in `.ncx`, and the page-map type otherwise. -/
theorem repair_type_by_extension (c : Collaborators) (href : QString) (rest : List QString)
    (st : PluginRunner) :
    repairXml c (href :: rest) st =
      repairXml c rest
        { st.emit (Effect.setStatus ("Status: checking".toList ++ " ".toList ++ href)) with
          outFiles := insertKey (st.m_outputDir ++ "/".toList ++ href)
            (c.ProcessXML (readFile st.outFiles (st.m_outputDir ++ "/".toList ++ href))
              (repairType href)) st.outFiles } ∧
    (endsWith href ".smil".toList = false →
      (endsWith href ".opf".toList = true → repairType href = MIME_OPF) ∧
      (endsWith href ".ncx".toList = true → repairType href = MIME_NCX) ∧
      (endsWith href ".opf".toList = false → endsWith href ".ncx".toList = false →
        repairType href = MIME_PAGEMAP)) := by
  refine ⟨rfl, fun hs => ⟨fun ho => ?_, fun hn => ?_, fun ho hn => ?_⟩⟩
  · have hn : endsWith href ".ncx".toList = false := by
      cases hx : endsWith href ".ncx".toList with
      | false => rfl
      | true =>
        have a := of_decide_eq_true ho
        have b := of_decide_eq_true hx
        have e : (".opf".toList.length) = (".ncx".toList.length) := rfl
        rw [e, b] at a
        exact absurd a (by decide)
    unfold repairType
    simp only [hs, ho, hn, if_true, if_false, Bool.false_eq_true]
  · unfold repairType
    simp only [hs, hn, if_true, if_false, Bool.false_eq_true]
  · unfold repairType
    simp only [hs, ho, hn, if_true, if_false, Bool.false_eq_true]

/-- Counterexample to C25: a Modified record of the NCX media type at the href
`OEBPS/toc.xml` is repaired under the page-map media type. -/
theorem ncx_record_repaired_as_page_map :
    ∃ st3, checkIsWellFormed Fixture.typeEchoCollaborators Fixture.repairRunner = some (true, st3) ∧
      fields (join SEP ["OEBPS/toc.xml".toList, "ncx".toList, MIME_NCX])
        = some ("OEBPS/toc.xml".toList, "ncx".toList, MIME_NCX) ∧
      readFile st3.outFiles "/work/OEBPS/toc.xml".toList = MIME_PAGEMAP ∧
      MIME_PAGEMAP ≠ MIME_NCX :=
  ⟨_, rfl, by decide, by decide, by decide⟩

/-- C30 (amended): the string stored for a `deleted`, `added` or `modified` element
is the decoded href, the id and the media type joined by U+001F; it always
splits into at least three fields, and the three fields read back are the href,
the id and the media type when none of the three contains U+001F. -/
theorem stored_record_fields (c : Collaborators) (st : PluginRunner) (e : XmlStartElement) :
    (e.name = "deleted".toList →
      (processToken c st (XmlToken.startElement e)).m_filesToDelete
        = st.m_filesToDelete ++ [storedRecord c e]) ∧
    (e.name = "added".toList →
      (processToken c st (XmlToken.startElement e)).m_filesToAdd
        = st.m_filesToAdd ++ [storedRecord c e]) ∧
    (e.name = "modified".toList →
      (processToken c st (XmlToken.startElement e)).m_filesToModify
        = st.m_filesToModify ++ [storedRecord c e]) ∧
    (fields (storedRecord c e)).isSome = true ∧
    (SEPchar ∉ c.URLDecodePath (attrValue e.attributes "href".toList) →
      SEPchar ∉ attrValue e.attributes "id".toList →
      SEPchar ∉ attrValue e.attributes "media-type".toList →
      fields (storedRecord c e) =
        some (c.URLDecodePath (attrValue e.attributes "href".toList),
              attrValue e.attributes "id".toList,
              attrValue e.attributes "media-type".toList)) := by
  refine ⟨fun hn => ?_, fun hn => ?_, fun hn => ?_, fields_join_isSome _ _ _, fun h1 h2 h3 => ?_⟩
  · unfold processToken
    dsimp only
    rw [if_neg (by rw [hn]; decide), if_neg (by rw [hn]; decide),
      if_pos (by rw [hn]; decide)]
    unfold processChange
    dsimp only
    rw [if_pos hn]
    split_ifs <;> rfl
  · unfold processToken
    dsimp only
    rw [if_neg (by rw [hn]; decide), if_neg (by rw [hn]; decide),
      if_pos (by rw [hn]; decide)]
    unfold processChange
    dsimp only
    rw [if_neg (by rw [hn]; decide), if_pos hn]
    split_ifs <;> rfl
  · unfold processToken
    dsimp only
    rw [if_neg (by rw [hn]; decide), if_neg (by rw [hn]; decide),
      if_pos (by rw [hn]; decide)]
    unfold processChange
    dsimp only
    rw [if_neg (by rw [hn]; decide), if_neg (by rw [hn]; decide)]
    rfl
  · unfold fields storedRecord
    have hsplit := split_join SEPchar
      [c.URLDecodePath (attrValue e.attributes "href".toList),
       attrValue e.attributes "id".toList, attrValue e.attributes "media-type".toList]
      (by simp) (by
        intro x hx
        simp only [List.mem_cons, List.mem_singleton, List.not_mem_nil, or_false] at hx
        rcases hx with rfl | rfl | rfl
        · exact h1
        · exact h2
        · exact h3)
    have hsep : SEP = [SEPchar] := rfl
    rw [hsep]
    dsimp only
    rw [hsplit]
    rfl

/-- Counterexample to C30: the href `OEBPS/Text/a%1Fb.xhtml` decodes to a text that
holds U+001F; the stored record splits into four fields, and the fields read as
href, id and media type are `OEBPS/Text/a`, `b.xhtml` and the id. -/
theorem decoded_separator_shifts_fields :
    (processToken Fixture.decodingCollaborators (Fixture.runner Fixture.epub2Book)
        (XmlToken.startElement Fixture.escapedElement)).m_filesToDelete
      = [storedRecord Fixture.decodingCollaborators Fixture.escapedElement] ∧
    fields (storedRecord Fixture.decodingCollaborators Fixture.escapedElement)
      = some ("OEBPS/Text/a".toList, "b.xhtml".toList, "x".toList) ∧
    Fixture.decodingCollaborators.URLDecodePath
        (attrValue Fixture.escapedElement.attributes "href".toList)
      ≠ "OEBPS/Text/a".toList ∧
    attrValue Fixture.escapedElement.attributes "media-type".toList ≠ "x".toList := by
  refine ⟨by decide, by decide, by decide, by decide⟩

/-! ## The order of the appliers -/

theorem callsOf_nil (a : Applier) : callsOf a [] := by
  intro e he; simp at he

theorem callsOf_append (a : Applier) (l1 l2 : List Effect) (h1 : callsOf a l1)
    (h2 : callsOf a l2) : callsOf a (l1 ++ l2) := by
  intro e he
  rcases List.mem_append.mp he with he | he
  · exact h1 e he
  · exact h2 e he

theorem callsOf_of_forall (a : Applier) (l : List Effect)
    (h : l.all (fun e => decide (applierOf e = none ∨ applierOf e = some a)) = true) :
    callsOf a l := by
  intro e he
  exact of_decide_eq_true (List.all_eq_true.mp h e he)

theorem log_segment (a : Applier) (l l0 A : List Effect) (h : l = l0 ++ A)
    (hk : A.all (fun e => decide (applierOf e = none ∨ applierOf e = some a)) = true) :
    ∃ A, l = l0 ++ A ∧ callsOf a A :=
  ⟨A, h, callsOf_of_forall a A hk⟩

/-! ### addFiles -/

theorem addEpub_log (c : Collaborators) (st : PluginRunner) (href : QString) :
    ∃ A, (addEpub c st href).log = st.log ++ A ∧ callsOf Applier.addFiles A := by
  unfold addEpub
  dsimp only
  split_ifs
  · exact log_segment _ _ _ [_, _] (List.append_assoc _ _ _) rfl
  · exact log_segment _ _ _ [_] rfl rfl
  · exact log_segment _ _ _ [_, _] (List.append_assoc _ _ _) rfl
  · exact log_segment _ _ _ [_] rfl rfl

theorem addNCX_log (st : PluginRunner) (href : QString) :
    ∃ A, (addNCX st href).log = st.log ++ A ∧ callsOf Applier.addFiles A := by
  unfold addNCX
  dsimp only
  split_ifs
  · exact log_segment _ _ _ [_, _] (List.append_assoc _ _ _) rfl
  · exact ⟨[], by simp, callsOf_nil _⟩

theorem addContent_log (c : Collaborators) (st : PluginRunner) (href mime : QString) :
    ∃ A, (addContent c st href mime).log = st.log ++ A ∧ callsOf Applier.addFiles A := by
  refine ⟨[Effect.setStatus ("Status: adding".toList ++ " ".toList
      ++ fileName (st.m_outputDir ++ "/".toList ++ href)),
    Effect.AddContentFileToFolder (st.m_outputDir ++ "/".toList ++ href) mime href], ?_,
    callsOf_of_forall _ _ rfl⟩
  unfold addContent
  dsimp only
  split_ifs <;> simp only [PluginRunner.emit, List.append_assoc, List.singleton_append]

theorem addLoop_log (c : Collaborators) (files : List QString) (st s : PluginRunner)
    (h : addLoop c files st = some s) :
    ∃ A, s.log = st.log ++ A ∧ callsOf Applier.addFiles A := by
  induction files generalizing st with
  | nil =>
    rw [addLoop] at h
    injection h with h
    exact ⟨[], by rw [h]; simp, callsOf_nil _⟩
  | cons f rest ih =>
    rw [addLoop] at h
    cases hf : fields f with
    | none => rw [hf] at h; simp at h
    | some t =>
      obtain ⟨href, id, mime⟩ := t
      rw [hf] at h
      dsimp only at h
      split_ifs at h
      · injection h with h
        rw [← h]
        exact addEpub_log c st href
      · exact ih st h
      · obtain ⟨A1, h1, k1⟩ := addNCX_log st href
        obtain ⟨A2, h2, k2⟩ := ih _ h
        exact ⟨A1 ++ A2, by rw [h2, h1, List.append_assoc], callsOf_append _ _ _ k1 k2⟩
      · obtain ⟨A1, h1, k1⟩ := addContent_log c st href mime
        obtain ⟨A2, h2, k2⟩ := ih _ h
        exact ⟨A1 ++ A2, by rw [h2, h1, List.append_assoc], callsOf_append _ _ _ k1 k2⟩

theorem applyAdds_log (c : Collaborators) (acc r : Bool × PluginRunner)
    (h : applyAdds c acc = some r) :
    ∃ A, r.2.log = acc.2.log ++ A ∧ callsOf Applier.addFiles A := by
  unfold applyAdds at h
  split_ifs at h
  · unfold addFiles at h
    cases hl : addLoop c acc.2.m_filesToAdd (acc.2.setStatus "Status: adding files") with
    | none => rw [hl] at h; simp at h
    | some s =>
      rw [hl] at h
      simp only [Option.map_some'] at h
      injection h with h
      obtain ⟨A, hA, kA⟩ := addLoop_log c _ _ _ hl
      refine ⟨Effect.setStatus "Status: adding files".toList :: A, ?_, ?_⟩
      · rw [← h]
        exact hA.trans (by simp [PluginRunner.setStatus, PluginRunner.emit])
      · exact callsOf_append _ [_] A (callsOf_of_forall _ _ rfl) kA
  · injection h with h
    exact ⟨[], by rw [h]; simp, callsOf_nil _⟩

/-! ### deleteFiles -/

theorem deleteNCX_log (acc : Bool × PluginRunner) :
    ∃ D, (deleteNCX acc).2.log = acc.2.log ++ D ∧ callsOf Applier.deleteFiles D := by
  unfold deleteNCX
  dsimp only
  split
  · split_ifs
    · exact log_segment _ _ _ [_, _] rfl rfl
    · exact ⟨[], by simp, callsOf_nil _⟩
  · exact ⟨[], by simp, callsOf_nil _⟩

theorem deleteResource_log (tabResources : List Resource) (st : PluginRunner) (r : Resource) :
    ∃ D, (deleteResource tabResources st r).log = st.log ++ D ∧
      callsOf Applier.deleteFiles D := by
  unfold deleteResource
  dsimp only
  split_ifs
  · refine log_segment _ _ _ [Effect.setStatus
        ("Status: deleting".toList ++ " ".toList ++ ShortPathName r),
      Effect.CloseTabForResource r, Effect.RemoveResource r, Effect.ResourceDelete r] ?_ rfl
    simp only [PluginRunner.emit, List.append_assoc, List.singleton_append, List.cons_append,
      List.nil_append]
  · refine log_segment _ _ _ [Effect.setStatus
        ("Status: deleting".toList ++ " ".toList ++ ShortPathName r),
      Effect.RemoveResource r, Effect.ResourceDelete r] ?_ rfl
    simp only [PluginRunner.emit, List.append_assoc, List.singleton_append, List.cons_append,
      List.nil_append]

theorem deleteOne_log (tabResources : List Resource) (acc : Bool × PluginRunner)
    (href mime : QString) :
    ∃ D, (deleteOne tabResources acc href mime).2.log = acc.2.log ++ D ∧
      callsOf Applier.deleteFiles D := by
  unfold deleteOne
  dsimp only
  split_ifs
  · exact ⟨[], by simp, callsOf_nil _⟩
  · exact deleteNCX_log acc
  · split
    · split_ifs
      · exact ⟨[], by simp, callsOf_nil _⟩
      · exact deleteResource_log tabResources acc.2 _
    · exact ⟨[_], rfl, callsOf_of_forall _ _ rfl⟩

theorem deleteLoop_log (tabResources : List Resource) (files : List QString)
    (acc r : Bool × PluginRunner) (h : deleteLoop tabResources files acc = some r) :
    ∃ D, r.2.log = acc.2.log ++ D ∧ callsOf Applier.deleteFiles D := by
  induction files generalizing acc with
  | nil =>
    rw [deleteLoop] at h
    injection h with h
    exact ⟨[], by rw [h]; simp, callsOf_nil _⟩
  | cons f rest ih =>
    rw [deleteLoop] at h
    cases hf : fields f with
    | none => rw [hf] at h; simp at h
    | some t =>
      obtain ⟨href, id, mime⟩ := t
      rw [hf] at h
      dsimp only at h
      obtain ⟨D1, h1, k1⟩ := deleteOne_log tabResources acc href mime
      obtain ⟨D2, h2, k2⟩ := ih _ h
      exact ⟨D1 ++ D2, by rw [h2, h1, List.append_assoc], callsOf_append _ _ _ k1 k2⟩

theorem deleteFiles_log (files : List QString) (st : PluginRunner) (r : Bool × PluginRunner)
    (h : deleteFiles files st = some r) :
    ∃ D, r.2.log = st.log ++ D ∧ callsOf Applier.deleteFiles D := by
  unfold deleteFiles at h
  dsimp only at h
  cases hl : deleteLoop st.tabs files (false, st.setStatus "Status: cleaning up - deleting files") with
  | none => rw [hl] at h; simp at h
  | some r1 =>
    rw [hl] at h
    simp only [Option.map_some'] at h
    injection h with h
    obtain ⟨D, hD, kD⟩ := deleteLoop_log _ _ _ _ hl
    have hD2 : r1.2.log = st.log ++
        (Effect.setStatus "Status: cleaning up - deleting files".toList :: D) :=
      hD.trans (by simp [PluginRunner.setStatus, PluginRunner.emit])
    have kD2 : callsOf Applier.deleteFiles
        (Effect.setStatus "Status: cleaning up - deleting files".toList :: D) :=
      callsOf_append _ [_] D (callsOf_of_forall _ _ rfl) kD
    split_ifs at h
    · refine ⟨(Effect.setStatus "Status: cleaning up - deleting files".toList :: D)
        ++ [Effect.ResourcesDeleted], ?_, callsOf_append _ _ _ kD2 (callsOf_of_forall _ _ rfl)⟩
      rw [← h]
      show r1.2.log ++ [Effect.ResourcesDeleted] = _
      rw [hD2, List.append_assoc]
    · rw [← h]
      exact ⟨_, hD2, kD2⟩

theorem applyDeletes_log (acc r : Bool × PluginRunner) (h : applyDeletes acc = some r) :
    ∃ D, r.2.log = acc.2.log ++ D ∧ callsOf Applier.deleteFiles D := by
  unfold applyDeletes at h
  dsimp only at h
  split_ifs at h with h1 h2
  · dsimp only at h
    cases hd : deleteFiles acc.2.m_filesToDelete acc.2 with
    | none => rw [hd] at h; simp at h
    | some r1 =>
      rw [hd] at h
      simp only [Option.map_some'] at h
      injection h with h
      obtain ⟨D, hD, kD⟩ := deleteFiles_log _ _ _ hd
      exact ⟨D, by rw [← h]; exact hD, kD⟩
  · cases hg : (acc.2.m_xhtmlFiles.map Prod.snd).get? 0 with
    | none => rw [hg] at h; simp at h
    | some x =>
      rw [hg] at h
      dsimp only at h
      cases hd : deleteFiles acc.2.m_filesToDelete
          { acc.2 with tabs := acc.2.tabs ++ [x], log := acc.2.log ++ [Effect.OpenResource x] } with
      | none => rw [hd] at h; simp at h
      | some r1 =>
        rw [hd] at h
        simp only [Option.map_some'] at h
        injection h with h
        obtain ⟨D, hD, kD⟩ := deleteFiles_log _ _ _ hd
        refine ⟨Effect.OpenResource x :: D, ?_, callsOf_append _ [_] D (callsOf_of_forall _ _ rfl) kD⟩
        rw [← h]
        exact hD.trans (by simp)
  · injection h with h
    exact ⟨[], by rw [h]; simp, callsOf_nil _⟩

/-! ### modifyFiles -/

theorem modifyOne_log (st : PluginRunner) (href : QString) :
    ∃ M, (modifyOne st href).log = st.log ++ M ∧ callsOf Applier.modifyFiles M := by
  refine ⟨[Effect.setStatus ("Status: modifying".toList ++ " ".toList
      ++ fileName (st.m_bookRoot ++ "/".toList ++ href)),
    Effect.ForceCopyFile (st.m_outputDir ++ "/".toList ++ href)
      (st.m_bookRoot ++ "/".toList ++ href)], ?_, callsOf_of_forall _ _ rfl⟩
  unfold modifyOne
  dsimp only
  split
  · simp only [PluginRunner.emit, List.append_assoc, List.singleton_append]
  · split_ifs <;> simp only [PluginRunner.emit, List.append_assoc, List.singleton_append]

theorem modifyLoop_log (files : List QString) (st s : PluginRunner)
    (h : modifyLoop files st = some s) :
    ∃ M, s.log = st.log ++ M ∧ callsOf Applier.modifyFiles M := by
  induction files generalizing st with
  | nil =>
    rw [modifyLoop] at h
    injection h with h
    exact ⟨[], by rw [h]; simp, callsOf_nil _⟩
  | cons f rest ih =>
    rw [modifyLoop] at h
    cases hf : fields f with
    | none => rw [hf] at h; simp at h
    | some t =>
      obtain ⟨href, id, mime⟩ := t
      rw [hf] at h
      dsimp only at h
      obtain ⟨M1, h1, k1⟩ := modifyOne_log st href
      obtain ⟨M2, h2, k2⟩ := ih _ h
      exact ⟨M1 ++ M2, by rw [h2, h1, List.append_assoc], callsOf_append _ _ _ k1 k2⟩

theorem applyModifies_log (acc r : Bool × PluginRunner) (h : applyModifies acc = some r) :
    ∃ M, r.2.log = acc.2.log ++ M ∧ callsOf Applier.modifyFiles M := by
  unfold applyModifies at h
  split_ifs at h
  · unfold modifyFiles at h
    dsimp only at h
    cases hl : modifyLoop (rearrange
        (OPFFILEINFO (acc.2.setStatus "Status: cleaning up - modifying files").book)
        (NCXFILEINFO (acc.2.setStatus "Status: cleaning up - modifying files").book)
        acc.2.m_filesToModify) (acc.2.setStatus "Status: cleaning up - modifying files") with
    | none => rw [hl] at h; simp at h
    | some s =>
      rw [hl] at h
      simp only [Option.map_some'] at h
      injection h with h
      obtain ⟨M, hM, kM⟩ := modifyLoop_log _ _ _ hl
      refine ⟨Effect.setStatus "Status: cleaning up - modifying files".toList :: M, ?_,
        callsOf_append _ [_] M (callsOf_of_forall _ _ rfl) kM⟩
      rw [← h]
      exact hM.trans (by simp [PluginRunner.setStatus, PluginRunner.emit])
  · injection h with h
    exact ⟨[], by rw [h]; simp, callsOf_nil _⟩

theorem quiet_of_all (F : List Effect)
    (h : F.all (fun e => decide (applierOf e = none)) = true) : ∀ e ∈ F, applierOf e = none := by
  intro e he
  exact of_decide_eq_true (List.all_eq_true.mp h e he)

theorem finishRun_log (b : Bool) (st : PluginRunner) :
    ∃ F, (finishRun b st).log = st.log ++ F ∧ ∀ e ∈ F, applierOf e = none := by
  unfold finishRun
  dsimp only
  split_ifs
  all_goals
    exact ⟨_, (by simp only [PluginRunner.emit, List.append_assoc]; rfl),
      quiet_of_all _ (by rfl)⟩

/-! ### The committed run -/

theorem processResultXML_false_result (c : Collaborators) (st st2 : PluginRunner)
    (h : processResultXML c st = (false, st2)) : st2.m_result = "failed".toList := by
  unfold processResultXML at h
  dsimp only at h
  split_ifs at h
  · injection h with _ h2
    rw [← h2]
  · injection h with h1 _
    exact absurd h1 (by simp)

theorem gateAndCommit_success (c : Collaborators) (st2 s : PluginRunner)
    (h : gateAndCommit c st2 = some s) (hs : s.m_result = "success".toList) :
    ∃ st3, checkIsWellFormed c st2 = some (true, st3) ∧ commitChanges c st3 = some s := by
  have hne : "failed".toList ≠ "success".toList := by decide
  unfold gateAndCommit at h
  cases hg : checkIsWellFormed c st2 with
  | none => rw [hg] at h; simp at h
  | some r =>
    obtain ⟨b, st3⟩ := r
    rw [hg] at h
    cases b with
    | false =>
      dsimp only at h
      injection h with h
      rw [← h] at hs
      exact absurd hs hne
    | true =>
      dsimp only at h
      split_ifs at h
      · injection h with h
        rw [← h] at hs
        exact absurd hs hne
      · exact ⟨st3, rfl, h⟩

theorem parseAndApply_success (c : Collaborators) (st1 s : PluginRunner)
    (h : parseAndApply c st1 = some s) (hs : s.m_result = "success".toList) :
    ∃ st2 st3, processResultXML c st1 = (true, st2) ∧
      checkIsWellFormed c st2 = some (true, st3) ∧ commitChanges c st3 = some s := by
  have hne : "failed".toList ≠ "success".toList := by decide
  unfold parseAndApply at h
  cases hp : processResultXML c st1 with
  | mk b st2 =>
    rw [hp] at h
    cases b with
    | false =>
      dsimp only at h
      injection h with h
      have hf := processResultXML_false_result c st1 st2 hp
      rw [← h] at hs
      exact absurd (hf.symm.trans hs) hne
    | true =>
      dsimp only at h
      split_ifs at h with hr
      · injection h with h
        rw [← h] at hs
        exact absurd hs hr
      · obtain ⟨st3, hg, hc⟩ := gateAndCommit_success c st2 s h hs
        exact ⟨st2, st3, rfl, hg, hc⟩

theorem pluginFinished_success (c : Collaborators) (exitstatus : ExitStatus)
    (st s : PluginRunner) (h : pluginFinished c exitstatus st = some s)
    (hs : s.m_result = "success".toList) :
    ∃ st2 st3, processResultXML c (st.setStatus "Status: finished") = (true, st2) ∧
      checkIsWellFormed c st2 = some (true, st3) ∧ commitChanges c st3 = some s := by
  cases exitstatus with
  | CrashExit =>
    have h2 : some { st with textEdit := st.textEdit ++ ["Launcher process crashed".toList],
                             m_result := "crashed".toList } = some s := h
    injection h2 with h2
    rw [← h2] at hs
    exact absurd hs (by show "crashed".toList ≠ "success".toList; decide)
  | NormalExit =>
    unfold pluginFinished at h
    dsimp only at h
    split_ifs at h with hd
    · injection h with h
      rw [← h] at hs
      rw [alreadyDecided, hs] at hd
      exact absurd hd (by decide)
    · exact parseAndApply_success c _ s h hs

theorem commitChanges_steps (c : Collaborators) (st3 s : PluginRunner)
    (h : commitChanges c st3 = some s) :
    ∃ r1 r2 r3, applyAdds c (false, st3.emit Effect.SuspendWatchingResources) = some r1 ∧
      applyDeletes r1 = some r2 ∧ applyModifies r2 = some r3 ∧ s = finishRun r3.1 r3.2 := by
  unfold commitChanges at h
  dsimp only at h
  cases h1 : applyAdds c (false, st3.emit Effect.SuspendWatchingResources) with
  | none => rw [h1] at h; simp at h
  | some r1 =>
    rw [h1] at h
    dsimp only at h
    cases h2 : applyDeletes r1 with
    | none => rw [h2] at h; simp at h
    | some r2 =>
      rw [h2] at h
      dsimp only at h
      cases h3 : applyModifies r2 with
      | none => rw [h3] at h; simp at h
      | some r3 =>
        rw [h3] at h
        dsimp only at h
        injection h with h
        exact ⟨r1, r2, r3, rfl, h2, h3, h.symm⟩

/-- C22: a run that `pluginFinished` ends with the outcome `success` passed the
parse, the gate and the guard, and then ran the addition step, the deletion step
and the modification step in this order, each to its end: the log after the gate
is extended by the calls of `addFiles`, then by those of the deletion step, then
by those of `modifyFiles`, then by the closing calls, whatever tokens the
reader returned and in whatever order. -/
theorem appliers_run_in_order (c : Collaborators) (exitstatus : ExitStatus)
    (st s : PluginRunner) (h : pluginFinished c exitstatus st = some s)
    (hs : s.m_result = "success".toList) :
    ∃ st2 st3 r1 r2 r3 A D M F,
      processResultXML c (st.setStatus "Status: finished") = (true, st2) ∧
      checkIsWellFormed c st2 = some (true, st3) ∧
      applyAdds c (false, st3.emit Effect.SuspendWatchingResources) = some r1 ∧
      applyDeletes r1 = some r2 ∧ applyModifies r2 = some r3 ∧ s = finishRun r3.1 r3.2 ∧
      r1.2.log = st3.log ++ [Effect.SuspendWatchingResources] ++ A ∧
      r2.2.log = r1.2.log ++ D ∧ r3.2.log = r2.2.log ++ M ∧
      s.log = st3.log ++ [Effect.SuspendWatchingResources] ++ A ++ D ++ M ++ F ∧
      callsOf Applier.addFiles A ∧ callsOf Applier.deleteFiles D ∧
      callsOf Applier.modifyFiles M ∧ ∀ e ∈ F, applierOf e = none := by
  obtain ⟨st2, st3, hp, hg, hc⟩ := pluginFinished_success c exitstatus st s h hs
  obtain ⟨r1, r2, r3, h1, h2, h3, hf⟩ := commitChanges_steps c st3 s hc
  obtain ⟨A, hA, kA⟩ := applyAdds_log c _ _ h1
  obtain ⟨D, hD, kD⟩ := applyDeletes_log _ _ h2
  obtain ⟨M, hM, kM⟩ := applyModifies_log _ _ h3
  obtain ⟨F, hF, kF⟩ := finishRun_log r3.1 r3.2
  have hA2 : r1.2.log = st3.log ++ [Effect.SuspendWatchingResources] ++ A := hA
  refine ⟨st2, st3, r1, r2, r3, A, D, M, F, hp, hg, h1, h2, h3, hf, hA2, hD, hM, ?_,
    kA, kD, kM, kF⟩
  rw [hf, hF, hM, hD, hA2]

/-! ## exec: the choice of the interpreter -/

theorem scanEngines_ne (db : PluginDB) (engines : List QString) (old : QString)
    (hne : engines ≠ []) :
    scanEngines db engines old = (firstRegistered db engines).getD [] := by
  induction engines generalizing old with
  | nil => exact absurd rfl hne
  | cons e rest ih =>
    unfold scanEngines firstRegistered
    rw [List.map_cons, List.find?_cons]
    by_cases hp : db.get_engine_path e ≠ []
    · rw [if_pos hp, decide_eq_true hp]
      rfl
    · rw [if_neg hp, decide_eq_false hp]
      dsimp only
      cases rest with
      | nil =>
        rw [scanEngines]
        exact not_not.mp hp
      | cons e2 rest2 => exact ih _ (by simp)

theorem indexOfAux_char (ch : Char) (s : QString) (pos : Nat) (h : ch ∈ s) :
    (indexOfAux [ch] s pos).isSome = true := by
  induction s generalizing pos with
  | nil => simp at h
  | cons x xs ih =>
    unfold indexOfAux
    by_cases hx : x = ch
    · subst hx
      have hsw : startsWith (x :: xs) [x] = true := by simp [startsWith]
      rw [if_pos hsw]
      rfl
    · have hsw : ¬ startsWith (x :: xs) [ch] = true := by simp [startsWith, hx]
      rw [if_neg hsw]
      rcases List.mem_cons.mp h with h1 | h1
      · exact absurd h1.symm hx
      · exact ih _ h1

theorem engineList_eq (m_engine : QString) : engineList m_engine = split ',' m_engine := by
  unfold engineList
  split_ifs with h
  · rfl
  · have hno : ',' ∉ m_engine := by
      intro hmem
      apply h
      have := indexOfAux_char ',' m_engine 0 hmem
      unfold contains indexOf
      rw [if_neg (by omega)]
      exact this
    exact (split_no_sep ',' m_engine hno).symm

theorem rejectWith_notStarted (c : Collaborators) (text : QString) (st : PluginRunner) :
    rejectWith c notStarted text st =
      some (ExecResult.Rejected,
        { st with
            m_result := "cancelled".toList,
            textEdit := st.textEdit ++ ["Plugin cancelled".toList],
            log := st.log ++ [Effect.DisplayStdErrorDialog text,
              Effect.setStatus "Status: cancelled".toList, Effect.reject] }) := by
  unfold rejectWith reject cancelPlugin notStarted waitForFinished
  simp [PluginRunner.emit, PluginRunner.setStatus]

theorem execLauncher_enginePath (c : Collaborators) (db : PluginDB) (s : LaunchContext)
    (plugin : Plugin) (st : PluginRunner) :
    ∃ r, execLauncher c db s notStarted plugin st = some r ∧
      r.2.m_enginePath = st.m_enginePath := by
  unfold execLauncher
  dsimp only
  split_ifs
  all_goals exact ⟨_, rfl, rfl⟩

theorem firstRegistered_ne (db : PluginDB) (engines : List QString) (path : QString)
    (h : firstRegistered db engines = some path) : path ≠ [] := by
  unfold firstRegistered at h
  have := List.find?_some h
  exact of_decide_eq_true this

/-- C21: when the plugin is known and the bundled interpreter is not selected,
`exec` returns; if some engine of the comma-separated engine string has a
registered path, `m_enginePath` is the registered path of the first such engine;
if none has, `exec` returns `Rejected` with `m_ready` false, having logged the
error dialog and the calls of `reject` and nothing else, and `startPlugin` on
the state it leaves starts no process. -/
theorem exec_engine_choice (c : Collaborators) (db : PluginDB) (s : LaunchContext)
    (name : QString) (plugin : Plugin) (st : PluginRunner)
    (hplugin : db.get_plugin name = some plugin)
    (hbundled : ¬ bundledSelected db s plugin) :
    ∃ r, exec c db s notStarted name st = some r ∧
      (∀ path, firstRegistered db (split ',' plugin.get_engine) = some path →
        r.2.m_enginePath = path) ∧
      (firstRegistered db (split ',' plugin.get_engine) = none →
        r.1 = ExecResult.Rejected ∧ r.2.m_ready = false ∧
        r.2.log = st.log ++
          [Effect.DisplayStdErrorDialog ("Error: Interpreter".toList ++ " ".toList
             ++ plugin.get_engine ++ " ".toList ++ "has no path set".toList),
           Effect.setStatus "Status: cancelled".toList, Effect.reject] ∧
        ∀ h l env, (startPlugin h l env r.2).log = r.2.log ++
          [Effect.DisplayStdErrorDialog "Error: plugin cannot start".toList]) := by
  have hscan : ∀ old, scanEngines db (engineList plugin.get_engine) old
      = (firstRegistered db (split ',' plugin.get_engine)).getD [] := by
    intro old
    rw [engineList_eq]
    exact scanEngines_ne db _ old (split_ne_nil _ _)
  unfold exec
  dsimp only
  rw [hplugin]
  dsimp only
  have hb : ¬ (contains plugin.get_engine "python3.4".toList = true ∧
      s.useBundledInterp = true ∧ db.buildBundledInterpPath ≠ []) := hbundled
  rw [if_neg hb, hscan]
  cases hf : firstRegistered db (split ',' plugin.get_engine) with
  | none =>
    rw [Option.getD_none, if_pos rfl, rejectWith_notStarted]
    refine ⟨_, rfl, fun path hp => absurd hp (by simp), fun _ => ⟨rfl, rfl, rfl, ?_⟩⟩
    intro h l env
    rfl
  | some path =>
    rw [Option.getD_some, if_neg (firstRegistered_ne db _ path hf)]
    obtain ⟨r, hr, hpath⟩ := execLauncher_enginePath c db s plugin
      { st with m_ready := false, m_pluginName := name, m_pluginsFolder := db.pluginsPath,
                m_pluginType := plugin.get_type, m_pluginAutoClose := plugin.get_autoclose,
                m_engine := plugin.get_engine, m_enginePath := path }
    refine ⟨r, hr, fun p hp => ?_, fun hnone => absurd hnone (by simp)⟩
    injection hp with hp
    rw [← hp]
    exact hpath

/-- Witness of C21 on the fixture registry: with a path registered for `python3.4`
alone, `exec` of the plugin `demo`, which declares `python2.7,python3.4`, takes
that path; with no path registered, it returns `Rejected` and leaves `m_ready`
false. -/
theorem exec_engine_choice_witness :
    (∃ r, exec (Fixture.collaborators Fixture.lastDocumentRun) (Fixture.pluginDB true)
        Fixture.launchContext notStarted "demo".toList (Fixture.runner Fixture.epub2Book) = some r ∧
      r.2.m_enginePath = "/usr/bin/python3".toList) ∧
    (∃ r, exec (Fixture.collaborators Fixture.lastDocumentRun) (Fixture.pluginDB false)
        Fixture.launchContext notStarted "demo".toList (Fixture.runner Fixture.epub2Book) = some r ∧
      r.1 = ExecResult.Rejected ∧ r.2.m_ready = false) := by
  constructor
  · obtain ⟨r, hr, hpath, _⟩ := exec_engine_choice (Fixture.collaborators Fixture.lastDocumentRun)
      (Fixture.pluginDB true) Fixture.launchContext "demo".toList Fixture.plugin
      (Fixture.runner Fixture.epub2Book) (by decide) (fun h => absurd h.2.1 (by decide))
    exact ⟨r, hr, hpath _ (by decide)⟩
  · obtain ⟨r, hr, _, hrej⟩ := exec_engine_choice (Fixture.collaborators Fixture.lastDocumentRun)
      (Fixture.pluginDB false) Fixture.launchContext "demo".toList Fixture.plugin
      (Fixture.runner Fixture.epub2Book) (by decide) (fun h => absurd h.2.1 (by decide))
    exact ⟨r, hr, (hrej (by decide)).1, (hrej (by decide)).2.1⟩

/-- C23 fails: an input plugin reports success, a whole archive, a new content
document and the deletion of the only old content document. The ledger is 0, so
the guard lets the run pass; `addFiles` returns at the archive record, so the new
document is never added; the deletion step is reached with a Deleted list that
is not empty, no open tab on a surviving content document and an empty
`m_xhtmlFiles`, and the read of its first element has no value. -/
theorem tab_redirect_without_surviving_document :
    ∃ st2 st3 r1,
      processResultXML (Fixture.collaborators Fixture.archiveReplacesDocumentRun)
        ((Fixture.inputRunner Fixture.epub2Book).setStatus "Status: finished") = (true, st2) ∧
      st2.m_result = "success".toList ∧ st2.m_xhtml_net_change = 0 ∧
      checkIsWellFormed (Fixture.collaborators Fixture.archiveReplacesDocumentRun) st2
        = some (true, st3) ∧
      removesLastXhtml st3 = false ∧
      applyAdds (Fixture.collaborators Fixture.archiveReplacesDocumentRun)
        (false, st3.emit Effect.SuspendWatchingResources) = some r1 ∧
      r1.2.m_filesToDelete ≠ [] ∧
      r1.2.tabs.any (fun t => (r1.2.m_xhtmlFiles.map Prod.snd).any
        (fun r => decide (r.ptr = t.ptr))) = false ∧
      r1.2.m_xhtmlFiles = [] ∧
      (r1.2.m_xhtmlFiles.map Prod.snd).get? 0 = none ∧
      applyDeletes r1 = none ∧
      pluginFinished (Fixture.collaborators Fixture.archiveReplacesDocumentRun)
        ExitStatus.NormalExit (Fixture.inputRunner Fixture.epub2Book) = none :=
  ⟨_, _, _, rfl, by decide, by decide, rfl, by decide, rfl, by decide, by decide, by decide,
    by decide, by decide, by decide⟩

/-! ## The environment of the launcher process -/

theorem insertKey_of_lookup {β : Type} (k : QString) (v : β) (m : List (QString × β))
    (h : lookupKey k m = some v) : insertKey k v m = m := by
  induction m with
  | nil => simp [lookupKey] at h
  | cons p rest ih =>
    obtain ⟨k2, v2⟩ := p
    unfold lookupKey at h
    unfold insertKey
    by_cases hk : k2 = k
    · rw [if_pos hk] at h
      rw [if_pos hk]
      injection h with h
      rw [hk, h]
    · rw [if_neg hk] at h
      rw [if_neg hk, ih h]

theorem lookupKey_insertKey_ne {β : Type} (k k2 : QString) (v : β) (m : List (QString × β))
    (h : k2 ≠ k) : lookupKey k (insertKey k2 v m) = lookupKey k m := by
  induction m with
  | nil =>
    unfold insertKey lookupKey
    rw [if_neg h]
    rfl
  | cons p rest ih =>
    obtain ⟨k3, v3⟩ := p
    unfold insertKey
    by_cases hk : k3 = k2
    · rw [if_pos hk]
      unfold lookupKey
      rw [if_neg h, if_neg (by rw [hk]; exact h)]
    · rw [if_neg hk]
      unfold lookupKey
      rw [ih]

theorem split_parts_no_sep (c : Char) (s : QString) : ∀ x ∈ split c s, c ∉ x := by
  induction s with
  | nil =>
    intro x hx
    unfold split at hx
    rw [List.mem_singleton] at hx
    rw [hx]
    simp
  | cons a rest ih =>
    intro x hx
    unfold split at hx
    by_cases ha : a = c
    · rw [if_pos ha] at hx
      rcases List.mem_cons.mp hx with h1 | h1
      · rw [h1]; simp
      · exact ih x h1
    · rw [if_neg ha] at hx
      cases hs : split c rest with
      | nil => exact absurd hs (split_ne_nil c rest)
      | cons f fs =>
        rw [hs] at hx ih
        dsimp only at hx
        rcases List.mem_cons.mp hx with h1 | h1
        · rw [h1]
          intro hmem
          rcases List.mem_cons.mp hmem with h2 | h2
          · exact ha h2.symm
          · exact ih f (List.mem_cons_self _ _) h2
        · exact ih x (List.mem_cons_of_mem _ h1)

theorem prependLibraryDir_split (delim : Char) (dir value : QString) (hd : delim ∉ dir) :
    split delim (prependLibraryDir delim dir value)
      = dir :: (split delim value).filter (fun x => decide (x ≠ dir)) := by
  unfold prependLibraryDir
  dsimp only
  apply split_join
  · simp
  · intro x hx
    rcases List.mem_cons.mp hx with h1 | h1
    · rw [h1]; exact hd
    · exact split_parts_no_sep delim value x (List.mem_filter.mp h1).1

theorem prependLibraryDir_idem (delim : Char) (dir value : QString) (hd : delim ∉ dir) :
    prependLibraryDir delim dir (prependLibraryDir delim dir value)
      = prependLibraryDir delim dir value := by
  have h := prependLibraryDir_split delim dir value hd
  have e : prependLibraryDir delim dir (prependLibraryDir delim dir value)
      = join [delim] (dir :: (split delim (prependLibraryDir delim dir value)).filter
          (fun x => decide (x ≠ dir))) := rfl
  rw [e, h, List.filter_cons_of_neg (by simp), List.filter_filter]
  simp only [Bool.and_self]
  rfl

theorem insertKey_twice {β : Type} (k : QString) (v : β) (m : List (QString × β)) :
    insertKey k v (insertKey k v m) = insertKey k v m :=
  insertKey_of_lookup k v _ (lookupKey_insertKey_self k v m)

theorem macEnvironment_idem (h : HostContext) (s : LaunchContext) (q : QString)
    (env : Environment) :
    insertKey "SIGIL_QT_RUNTIME_VERSION".toList q (macEnvironment h s
        (insertKey "SIGIL_QT_RUNTIME_VERSION".toList q (macEnvironment h s env)))
      = insertKey "SIGIL_QT_RUNTIME_VERSION".toList q (macEnvironment h s env) := by
  unfold macEnvironment
  dsimp only
  split_ifs
  · rw [insertKey_of_lookup "SSL_CERT_FILE".toList _ _ (by
          rw [lookupKey_insertKey_ne _ _ _ _ (by decide),
            lookupKey_insertKey_ne _ _ _ _ (by decide),
            lookupKey_insertKey_ne _ _ _ _ (by decide), lookupKey_insertKey_self]),
      insertKey_of_lookup "QT_PLUGIN_PATH".toList _ _ (by
          rw [lookupKey_insertKey_ne _ _ _ _ (by decide),
            lookupKey_insertKey_ne _ _ _ _ (by decide), lookupKey_insertKey_self]),
      insertKey_of_lookup "QT_QPA_PLATFORM_PLUGIN_PATH".toList _ _ (by
          rw [lookupKey_insertKey_ne _ _ _ _ (by decide), lookupKey_insertKey_self]),
      insertKey_twice]
  · exact insertKey_twice _ _ _

theorem linuxEnvironment_idem (h : HostContext) (s : LaunchContext) (q : QString)
    (env : Environment)
    (hs : (s.useBundledInterp = true ∧ s.PATH_LIST_DELIM ∉ AppImageLibs h s) ∨
      (s.useBundledInterp = false ∧ s.APPIMAGE_BUILD = false ∧
        s.PATH_LIST_DELIM ∉ h.applicationDirPath)) :
    insertKey "SIGIL_QT_RUNTIME_VERSION".toList q (linuxEnvironment h s
        (insertKey "SIGIL_QT_RUNTIME_VERSION".toList q (linuxEnvironment h s env)))
      = insertKey "SIGIL_QT_RUNTIME_VERSION".toList q (linuxEnvironment h s env) := by
  unfold linuxEnvironment
  rcases hs with ⟨hb, hd⟩ | ⟨hb, ha, hd⟩
  · rw [hb]
    dsimp only
    simp only [if_true]
    have hv : ∀ e : Environment, envValue (insertKey "SSL_CERT_FILE".toList
        (AppImageLibs h s ++ s.PYTHON_LIB_PATH ++ "/site-packages".toList
          ++ "/certifi/cacert.pem".toList) e) "LD_LIBRARY_PATH" = envValue e "LD_LIBRARY_PATH" := by
      intro e
      unfold envValue
      rw [lookupKey_insertKey_ne _ _ _ _ (by decide)]
    rw [hv, hv]
    have hv2 : envValue (insertKey "SIGIL_QT_RUNTIME_VERSION".toList q
        (insertKey "SIGIL_APPIMAGE_BUILD".toList "1".toList
          (insertKey "LD_LIBRARY_PATH".toList
            (prependLibraryDir s.PATH_LIST_DELIM (AppImageLibs h s) (envValue env "LD_LIBRARY_PATH"))
            (insertKey "SSL_CERT_FILE".toList
              (AppImageLibs h s ++ s.PYTHON_LIB_PATH ++ "/site-packages".toList
                ++ "/certifi/cacert.pem".toList) env)))) "LD_LIBRARY_PATH"
        = prependLibraryDir s.PATH_LIST_DELIM (AppImageLibs h s)
            (envValue env "LD_LIBRARY_PATH") := by
      unfold envValue
      rw [lookupKey_insertKey_ne _ _ _ _ (by decide),
        lookupKey_insertKey_ne _ _ _ _ (by decide), lookupKey_insertKey_self]
      rfl
    rw [hv2, prependLibraryDir_idem _ _ _ hd]
    rw [insertKey_of_lookup "SSL_CERT_FILE".toList _ _ (by
          rw [lookupKey_insertKey_ne _ _ _ _ (by decide),
            lookupKey_insertKey_ne _ _ _ _ (by decide),
            lookupKey_insertKey_ne _ _ _ _ (by decide), lookupKey_insertKey_self]),
      insertKey_of_lookup "LD_LIBRARY_PATH".toList _ _ (by
          rw [lookupKey_insertKey_ne _ _ _ _ (by decide),
            lookupKey_insertKey_ne _ _ _ _ (by decide), lookupKey_insertKey_self]),
      insertKey_of_lookup "SIGIL_APPIMAGE_BUILD".toList _ _ (by
          rw [lookupKey_insertKey_ne _ _ _ _ (by decide), lookupKey_insertKey_self]),
      insertKey_twice]
  · rw [hb, ha]
    dsimp only
    simp only [Bool.false_eq_true, if_false]
    have hv2 : envValue (insertKey "SIGIL_QT_RUNTIME_VERSION".toList q
          (insertKey "LD_LIBRARY_PATH".toList
            (prependLibraryDir s.PATH_LIST_DELIM h.applicationDirPath
              (envValue env "LD_LIBRARY_PATH")) env)) "LD_LIBRARY_PATH"
        = prependLibraryDir s.PATH_LIST_DELIM h.applicationDirPath
            (envValue env "LD_LIBRARY_PATH") := by
      unfold envValue
      rw [lookupKey_insertKey_ne _ _ _ _ (by decide), lookupKey_insertKey_self]
      rfl
    rw [hv2, prependLibraryDir_idem _ _ _ hd]
    rw [insertKey_of_lookup "LD_LIBRARY_PATH".toList _ _ (by
          rw [lookupKey_insertKey_ne _ _ _ _ (by decide), lookupKey_insertKey_self]),
      insertKey_twice]

/-- C27 (amended): for stable settings the environment construction of
`startPlugin`, applied to its own result, gives the same environment; and for
every directory that holds no path delimiter and every value of
`LD_LIBRARY_PATH`, rewriting the value twice (split on the delimiter, remove
every occurrence of the directory, prepend the directory, join) gives the same
string as rewriting it once, whose parts are the directory followed by parts
that differ from it. -/
theorem processEnvironment_idempotent (h : HostContext) (s : LaunchContext)
    (m_enginePath : QString) (env : Environment) (hs : stableSettings h s) :
    processEnvironment h s m_enginePath (processEnvironment h s m_enginePath env)
      = processEnvironment h s m_enginePath env ∧
    ∀ dir value : QString, s.PATH_LIST_DELIM ∉ dir →
      prependLibraryDir s.PATH_LIST_DELIM dir (prependLibraryDir s.PATH_LIST_DELIM dir value)
        = prependLibraryDir s.PATH_LIST_DELIM dir value ∧
      ∃ rest, split s.PATH_LIST_DELIM (prependLibraryDir s.PATH_LIST_DELIM dir value)
        = dir :: rest ∧ dir ∉ rest := by
  constructor
  · unfold processEnvironment
    unfold stableSettings at hs
    cases hp : h.platform with
    | Mac =>
      dsimp only
      exact macEnvironment_idem h s s.qVersion env
    | Windows =>
      rw [hp] at hs
      dsimp only at hs ⊢
      unfold windowsEnvironment
      rw [hs]
      simp only [Bool.false_eq_true, if_false]
      exact insertKey_twice _ _ _
    | Linux =>
      rw [hp] at hs
      dsimp only at hs ⊢
      exact linuxEnvironment_idem h s s.qVersion env hs
  · intro dir value hd
    refine ⟨prependLibraryDir_idem _ _ _ hd, _, prependLibraryDir_split _ _ _ hd, ?_⟩
    intro hmem
    have := (List.mem_filter.mp hmem).2
    simp at this

/-! ## URLInterceptor -/

theorem startsWith_of_append (s a b : QString) (h : startsWith s (a ++ b) = true) :
    startsWith s a = true := by
  unfold startsWith at h ⊢
  have h1 := of_decide_eq_true h
  apply decide_eq_true
  have h2 := congrArg (List.take a.length) h1
  rw [List.take_take] at h2
  have e1 : min a.length (a ++ b).length = a.length := by
    rw [List.length_append]; omega
  rw [e1] at h2
  rw [h2]
  simp

theorem findBookFolder_spec (sourcefolder : QString) (ws : List (Option QWidget))
    (h : (findBookFolder sourcefolder ws).1 ≠ []) :
    ∃ b ∈ openBooks ws, findBookFolder sourcefolder ws = (b.1 ++ "/".toList, b.2) ∧
      startsWith sourcefolder (b.1 ++ "/".toList) = true := by
  induction ws with
  | nil => exact absurd rfl h
  | cons w rest ih =>
    have hrest : (findBookFolder sourcefolder rest).1 ≠ [] →
        ∃ b ∈ openBooks (w :: rest), findBookFolder sourcefolder rest = (b.1 ++ "/".toList, b.2) ∧
          startsWith sourcefolder (b.1 ++ "/".toList) = true := by
      intro h2
      obtain ⟨b, hb, e, hs⟩ := ih h2
      refine ⟨b, ?_, e, hs⟩
      unfold openBooks at hb ⊢
      rw [List.filterMap_cons]
      split
      · exact hb
      · exact List.mem_cons_of_mem _ hb
    cases w with
    | none =>
      rw [findBookFolder] at h ⊢
      exact hrest h
    | some w =>
      rw [findBookFolder] at h ⊢
      by_cases hw : w.isWindow = true ∧ ¬ w.isDesktop = true
      · rw [if_pos hw] at h ⊢
        cases hm : w.mainWindow with
        | none =>
          rw [hm] at h
          exact hrest h
        | some mw =>
          rw [hm] at h
          dsimp only at h ⊢
          cases hf : mw.GetFullPathToMainFolder with
          | none =>
            rw [hf] at h
            exact hrest h
          | some folder =>
            rw [hf] at h
            dsimp only at h ⊢
            by_cases hs : startsWith sourcefolder (folder ++ "/".toList) = true
            · rw [if_pos hs]
              refine ⟨(folder, mw.GetMathJaxFolder), ?_, rfl, hs⟩
              unfold openBooks
              rw [List.filterMap_cons]
              dsimp only
              rw [if_pos hw, hm]
              dsimp only
              rw [hf]
              exact List.mem_cons_self _ _
            · rw [if_neg hs] at h ⊢
              exact hrest h
      · rw [if_neg hw] at h ⊢
        exact hrest h

/-- C29 (amended): a GET request whose destination, after the remapping of the
`sigil` scheme, has the scheme `file` is allowed only if the destination path
starts with the preferences directory and a slash, or some main window has a
current book whose main folder and a slash is a prefix of the path of the source
URL, and the destination path starts with that folder and a slash or with the
MathJax folder of that window. The source URL is the remapped first-party URL,
except for a typed navigation, where it is the destination itself. When the
destination is not below the preferences directory and no such book exists, the
request is blocked. -/
theorem interceptRequest_allows_only (prefsDir : QString) (all_widgets : List (Option QWidget))
    (info : QWebEngineUrlRequestInfo)
    (hget : info.requestMethod = "GET".toList)
    (hfile : (remapSigil info.requestUrl).scheme = "file".toList) :
    (interceptRequest prefsDir all_widgets info = false →
      startsWith (remapSigil info.requestUrl).toLocalFile (prefsDir ++ "/".toList) = true ∨
      ∃ b ∈ openBooks all_widgets,
        startsWith (sourceUrl info).toLocalFile (b.1 ++ "/".toList) = true ∧
        (startsWith (remapSigil info.requestUrl).toLocalFile (b.1 ++ "/".toList) = true ∨
         startsWith (remapSigil info.requestUrl).toLocalFile b.2 = true)) ∧
    (startsWith (remapSigil info.requestUrl).toLocalFile (prefsDir ++ "/".toList) = false →
      (∀ b ∈ openBooks all_widgets,
        startsWith (sourceUrl info).toLocalFile (b.1 ++ "/".toList) = false) →
      interceptRequest prefsDir all_widgets info = true) := by
  have main : interceptRequest prefsDir all_widgets info = false →
      startsWith (remapSigil info.requestUrl).toLocalFile (prefsDir ++ "/".toList) = true ∨
      ∃ b ∈ openBooks all_widgets,
        startsWith (sourceUrl info).toLocalFile (b.1 ++ "/".toList) = true ∧
        (startsWith (remapSigil info.requestUrl).toLocalFile (b.1 ++ "/".toList) = true ∨
         startsWith (remapSigil info.requestUrl).toLocalFile b.2 = true) := by
    intro hallow
    unfold interceptRequest at hallow
    rw [if_neg (not_not.mpr hget)] at hallow
    dsimp only at hallow
    rw [if_pos hfile] at hallow
    by_cases h1 : startsWith (remapSigil info.requestUrl).toLocalFile
        (prefsDir ++ "/repo/".toList) = true
    · left
      have e : prefsDir ++ "/repo/".toList = (prefsDir ++ "/".toList) ++ "repo/".toList := by
        rw [List.append_assoc]; rfl
      rw [e] at h1
      exact startsWith_of_append _ _ _ h1
    rw [if_neg h1] at hallow
    by_cases h2 : startsWith (remapSigil info.requestUrl).toLocalFile
        (prefsDir ++ "/".toList) = true
    · exact Or.inl h2
    rw [if_neg h2] at hallow
    by_cases h3 : (findBookFolder (sourceUrl info).toLocalFile all_widgets).1 = []
    · rw [if_pos h3] at hallow
      exact absurd hallow (by simp)
    rw [if_neg h3] at hallow
    obtain ⟨b, hb, e, hs⟩ := findBookFolder_spec _ _ h3
    rw [e] at hallow
    dsimp only at hallow
    right
    refine ⟨b, hb, hs, ?_⟩
    by_cases h4 : startsWith (remapSigil info.requestUrl).toLocalFile (b.1 ++ "/".toList) = true
    · exact Or.inl h4
    rw [if_neg h4] at hallow
    by_cases h5 : startsWith (remapSigil info.requestUrl).toLocalFile b.2 = true
    · exact Or.inr h5
    rw [if_neg h5] at hallow
    exact absurd hallow (by simp)
  refine ⟨main, fun hp hb => ?_⟩
  cases hi : interceptRequest prefsDir all_widgets info with
  | true => rfl
  | false =>
    rcases main hi with h | ⟨b, hmem, hs, _⟩
    · rw [hp] at h; exact absurd h (by simp)
    · rw [hb b hmem] at hs; exact absurd hs (by simp)

/-- Witness of C29 (amended): a link from a page of the book in `/tmp/book1` to a file
of that book is allowed, and the theorem names the book folder. -/
theorem interceptRequest_allows_only_witness :
    interceptRequest "/home/u/.local/share/sigil".toList Fixture.widgets
        (Fixture.bookRequest "/tmp/book1/OEBPS/Text/nav.xhtml" NavigationType.NavigationTypeLink)
      = false ∧
    ∃ b ∈ openBooks Fixture.widgets,
      startsWith (sourceUrl (Fixture.bookRequest "/tmp/book1/OEBPS/Text/nav.xhtml"
        NavigationType.NavigationTypeLink)).toLocalFile (b.1 ++ "/".toList) = true := by
  refine ⟨by decide, ?_⟩
  rcases (interceptRequest_allows_only "/home/u/.local/share/sigil".toList Fixture.widgets
    (Fixture.bookRequest "/tmp/book1/OEBPS/Text/nav.xhtml" NavigationType.NavigationTypeLink)
    (by decide) (by decide)).1 (by decide) with h | ⟨b, hb, hs, _⟩
  · exact absurd h (by decide)
  · exact ⟨b, hb, hs⟩

/-- Counterexample to C29: a typed navigation to a file of the open book, requested
by a first party outside every open book and outside the preferences directory,
is allowed, although no open book folder is a prefix of the first-party path. -/
theorem typed_request_checked_against_destination :
    interceptRequest "/home/u/.local/share/sigil".toList Fixture.widgets
        (Fixture.bookRequest "/home/u/Downloads/page.html" NavigationType.NavigationTypeTyped)
      = false ∧
    startsWith (remapSigil (Fixture.bookRequest "/home/u/Downloads/page.html"
        NavigationType.NavigationTypeTyped).requestUrl).toLocalFile
      "/home/u/.local/share/sigil".toList = false ∧
    (∀ b ∈ openBooks Fixture.widgets,
      startsWith (remapSigil (Fixture.bookRequest "/home/u/Downloads/page.html"
        NavigationType.NavigationTypeTyped).firstPartyUrl).toLocalFile b.1 = false ∧
      startsWith (remapSigil (Fixture.bookRequest "/home/u/Downloads/page.html"
        NavigationType.NavigationTypeTyped).requestUrl).toLocalFile b.2 = false) ∧
    interceptRequest "/home/u/.local/share/sigil".toList Fixture.widgets
        (Fixture.bookRequest "/home/u/Downloads/page.html" NavigationType.NavigationTypeLink)
      = true := by
  refine ⟨by decide, by decide, by decide, by decide⟩

/-! ## Concrete runs -/

/-- Witness of C22 on a run whose document lists a Modified, a Deleted and an Added
element in this order: the run ends with the outcome `success`, and the calls of
the appliers in its log are those of `addFiles`, then those of the deletion
step, then those of `modifyFiles`. -/
theorem appliers_run_in_order_witness :
    (pluginFinished (Fixture.collaborators Fixture.reversedOrderRun) ExitStatus.NormalExit
        (Fixture.runner Fixture.epub2Book) = some Fixture.reversedOrderFinal ∧
      Fixture.reversedOrderFinal.log.filterMap applierOf =
        [Applier.addFiles, Applier.deleteFiles, Applier.deleteFiles, Applier.deleteFiles,
         Applier.modifyFiles]) ∧
    ∃ (st3 : PluginRunner) (A D M F : List Effect),
      Fixture.reversedOrderFinal.log
        = st3.log ++ [Effect.SuspendWatchingResources] ++ A ++ D ++ M ++ F ∧
      callsOf Applier.addFiles A ∧ callsOf Applier.deleteFiles D ∧
      callsOf Applier.modifyFiles M := by
  refine ⟨⟨by decide, by decide⟩, ?_⟩
  obtain ⟨_, st3, _, _, _, A, D, M, F, _, _, _, _, _, _, _, _, _, hlog, kA, kD, kM, _⟩ :=
    appliers_run_in_order (Fixture.collaborators Fixture.reversedOrderRun) ExitStatus.NormalExit
      (Fixture.runner Fixture.epub2Book) Fixture.reversedOrderFinal (by decide) (by decide)
  exact ⟨st3, A, D, M, F, hlog, kA, kD, kM⟩

/-- Witness of C24 on a change set of three Added, four Modified and one Deleted
record: the strict list holds the two content documents, the repair list the
four auxiliary XML files. -/
theorem checkIsWellFormed_lists_witness :
    (classifyFiles Fixture.classifiedRunner.m_filesToAdd ([], [])).bind
        (classifyFiles Fixture.classifiedRunner.m_filesToModify)
      = some (["OEBPS/Text/new.xhtml".toList, "OEBPS/Text/ch1.xhtml".toList],
              ["OEBPS/Audio/ch1.smil".toList, "OEBPS/content.opf".toList,
               "OEBPS/toc.ncx".toList, "OEBPS/page-map.xml".toList]) :=
  ((checkIsWellFormed_lists (Fixture.collaborators Fixture.lastDocumentRun)
    Fixture.classifiedRunner (by decide)).1).trans (by decide)

/-- Witness of C26: the only checked document is missing from the working directory,
so it reads as an empty source with an error; the user does not answer Yes; the
gate returns `false` and `pluginFinished` ends with the outcome `failed` and the
book unchanged. -/
theorem gate_decision_witness :
    ∃ s, pluginFinished (Fixture.strictCollaborators Fixture.modifiedDocumentRun)
        ExitStatus.NormalExit (Fixture.runner Fixture.epub2Book) = some s ∧
      s.m_result = "failed".toList ∧ s.book = Fixture.epub2Book := by
  obtain ⟨_, _, _, _, _, hfail⟩ :=
    gate_decision (Fixture.strictCollaborators Fixture.modifiedDocumentRun)
      Fixture.modifiedDocumentParsed Fixture.modifiedDocumentChecked false (by decide)
  obtain ⟨s, hs, hr, hb, _⟩ := hfail rfl (Fixture.runner Fixture.epub2Book) (by decide)
    (by decide) (by decide)
  exact ⟨s, hs, hr, hb⟩

/-- Witness of C28: a document whose outcome is `failed` and a document without a
`result` element, each listing a deletion, leave the book as it was. -/
theorem not_success_applies_nothing_witness :
    (∃ s, pluginFinished (Fixture.collaborators Fixture.failedResultRun) ExitStatus.NormalExit
        (Fixture.runner Fixture.epub2Book) = some s ∧ s.book = Fixture.epub2Book) ∧
    (∃ s, pluginFinished (Fixture.collaborators Fixture.noResultRun) ExitStatus.NormalExit
        (Fixture.runner Fixture.epub2Book) = some s ∧ s.book = Fixture.epub2Book) := by
  constructor
  · obtain ⟨s, hs, hb, _⟩ := not_success_applies_nothing
      (Fixture.collaborators Fixture.failedResultRun) ExitStatus.NormalExit
      (Fixture.runner Fixture.epub2Book) (by decide) (by decide)
    exact ⟨s, hs, hb⟩
  · obtain ⟨s, hs, hb, _⟩ := not_success_applies_nothing
      (Fixture.collaborators Fixture.noResultRun) ExitStatus.NormalExit
      (Fixture.runner Fixture.epub2Book) (by decide) (by decide)
    exact ⟨s, hs, hb⟩

/-- Witness of C27 (amended) on a Linux build outside an AppImage with an external
interpreter: the application directory `/usr/bin` is moved to the front of
`LD_LIBRARY_PATH`, and a second application changes nothing. -/
theorem processEnvironment_idempotent_witness :
    processEnvironment (Fixture.hostContext Platform.Linux "") Fixture.launchContext
        "/usr/bin/python3".toList
        (processEnvironment (Fixture.hostContext Platform.Linux "") Fixture.launchContext
          "/usr/bin/python3".toList Fixture.linuxEnv)
      = processEnvironment (Fixture.hostContext Platform.Linux "") Fixture.launchContext
          "/usr/bin/python3".toList Fixture.linuxEnv ∧
    processEnvironment (Fixture.hostContext Platform.Linux "") Fixture.launchContext
        "/usr/bin/python3".toList Fixture.linuxEnv
      = [("HOME".toList, "/home/u".toList),
         ("LD_LIBRARY_PATH".toList, "/usr/bin:/opt/lib:/usr/lib".toList),
         ("SIGIL_QT_RUNTIME_VERSION".toList, "6.5.2".toList)] :=
  ⟨(processEnvironment_idempotent (Fixture.hostContext Platform.Linux "") Fixture.launchContext
      "/usr/bin/python3".toList Fixture.linuxEnv (Or.inr ⟨rfl, rfl, by decide⟩)).1,
    by decide⟩

/-- Counterexample to C27. On a Windows build with the bundled interpreter every
application prepends the application directory to `PATH`. On a Linux build
outside an AppImage whose application directory holds a colon, the second
rewriting of `LD_LIBRARY_PATH` prepends the directory again. On a Linux AppImage
build with an external interpreter and `LD_LIBRARY_PATH` equal to the AppImage
library directory, the first application removes the variable and the second
sets it to the empty string. -/
theorem environment_construction_not_idempotent :
    (lookupKey "PATH".toList
        (processEnvironment Fixture.windowsHost Fixture.windowsBundledContext
          "C:/Sigil/python3/python.exe".toList [("PATH".toList, "C:/Windows".toList)])
      = some (Fixture.windowsSeparators "C:/Sigil;C:/Windows".toList) ∧
     lookupKey "PATH".toList
        (processEnvironment Fixture.windowsHost Fixture.windowsBundledContext
          "C:/Sigil/python3/python.exe".toList
          (processEnvironment Fixture.windowsHost Fixture.windowsBundledContext
            "C:/Sigil/python3/python.exe".toList [("PATH".toList, "C:/Windows".toList)]))
      = some (Fixture.windowsSeparators "C:/Sigil;C:/Sigil;C:/Windows".toList)) ∧
    (prependLibraryDir ':' "/opt/a:b/bin".toList "/usr/lib".toList
      = "/opt/a:b/bin:/usr/lib".toList ∧
     prependLibraryDir ':' "/opt/a:b/bin".toList
        (prependLibraryDir ':' "/opt/a:b/bin".toList "/usr/lib".toList)
      = "/opt/a:b/bin:/opt/a:b/bin:/usr/lib".toList ∧
     processEnvironment Fixture.colonHost Fixture.launchContext "/usr/bin/python3".toList
        (processEnvironment Fixture.colonHost Fixture.launchContext "/usr/bin/python3".toList
          [("LD_LIBRARY_PATH".toList, "/usr/lib".toList)])
      ≠ processEnvironment Fixture.colonHost Fixture.launchContext "/usr/bin/python3".toList
          [("LD_LIBRARY_PATH".toList, "/usr/lib".toList)]) ∧
    (AppImageLibs (Fixture.hostContext Platform.Linux "") Fixture.appImageExternalContext
      = "/usr/lib".toList ∧
     lookupKey "LD_LIBRARY_PATH".toList
        (processEnvironment (Fixture.hostContext Platform.Linux "")
          Fixture.appImageExternalContext "/usr/bin/python3".toList
          [("LD_LIBRARY_PATH".toList, "/usr/lib".toList)])
      = none ∧
     lookupKey "LD_LIBRARY_PATH".toList
        (processEnvironment (Fixture.hostContext Platform.Linux "")
          Fixture.appImageExternalContext "/usr/bin/python3".toList
          (processEnvironment (Fixture.hostContext Platform.Linux "")
            Fixture.appImageExternalContext "/usr/bin/python3".toList
            [("LD_LIBRARY_PATH".toList, "/usr/lib".toList)]))
      = some []) := by
  refine ⟨⟨by decide, by decide⟩, ⟨by decide, by decide, by decide⟩,
    ⟨by decide, by decide, by decide⟩⟩

end Sigil
